import Mathlib

/-!
# AES-128 and SHA-256 of `riscv_project`: shallow embedding and verified properties

Bytes and machine words are natural numbers; a `uint8_t` array is a `List Nat`
whose entries are below `256`, a `uint32_t` is a natural number below `2 ^ 32`
and every 32-bit or 64-bit operation that can overflow reduces explicitly.
A C function that writes through a pointer argument takes the previous contents
of the pointed-to buffer and returns the new contents.
-/

namespace Riscv

/-! ## Counted loops -/

/-- The loop `for (i = lo; i < lo + n; ++i) s = body i s`, counted by `n`. -/
def forLoop {σ : Type} : Nat → Nat → (Nat → σ → σ) → σ → σ
  | 0, _, _, s => s
  | n + 1, lo, body, s => forLoop n (lo + 1) body (body lo s)

/-- The loop `for (i = lo; i < hi; ++i) s = body i s`. -/
def forRange {σ : Type} (lo hi : Nat) (body : Nat → σ → σ) (s : σ) : σ :=
  forLoop (hi - lo) lo body s

/-! ## Arrays -/

/-- Array read `a[i]`. -/
def rd (a : List Nat) (i : Nat) : Nat := a.getD i 0

/-- Array write `a[i] = v`. -/
def wr (a : List Nat) (i : Nat) (v : Nat) : List Nat := a.set i v

/-! ## AES-128 (`src/aes_dir/aes_filesv2/testv1.c`) -/

namespace Aes

/-- `#define Nk 4`. -/
def Nk : Nat := 4
/-- `#define Nb 4`. -/
def Nb : Nat := 4
/-- `#define Nr 10`. -/
def Nr : Nat := 10

/-- The table `s_box[256]`. -/
def s_box : List Nat :=
  [0x63, 0x7c, 0x77, 0x7b, 0xf2, 0x6b, 0x6f, 0xc5, 0x30, 0x01, 0x67, 0x2b, 0xfe, 0xd7, 0xab, 0x76,
   0xca, 0x82, 0xc9, 0x7d, 0xfa, 0x59, 0x47, 0xf0, 0xad, 0xd4, 0xa2, 0xaf, 0x9c, 0xa4, 0x72, 0xc0,
   0xb7, 0xfd, 0x93, 0x26, 0x36, 0x3f, 0xf7, 0xcc, 0x34, 0xa5, 0xe5, 0xf1, 0x71, 0xd8, 0x31, 0x15,
   0x04, 0xc7, 0x23, 0xc3, 0x18, 0x96, 0x05, 0x9a, 0x07, 0x12, 0x80, 0xe2, 0xeb, 0x27, 0xb2, 0x75,
   0x09, 0x83, 0x2c, 0x1a, 0x1b, 0x6e, 0x5a, 0xa0, 0x52, 0x3b, 0xd6, 0xb3, 0x29, 0xe3, 0x2f, 0x84,
   0x53, 0xd1, 0x00, 0xed, 0x20, 0xfc, 0xb1, 0x5b, 0x6a, 0xcb, 0xbe, 0x39, 0x4a, 0x4c, 0x58, 0xcf,
   0xd0, 0xef, 0xaa, 0xfb, 0x43, 0x4d, 0x33, 0x85, 0x45, 0xf9, 0x02, 0x7f, 0x50, 0x3c, 0x9f, 0xa8,
   0x51, 0xa3, 0x40, 0x8f, 0x92, 0x9d, 0x38, 0xf5, 0xbc, 0xb6, 0xda, 0x21, 0x10, 0xff, 0xf3, 0xd2,
   0xcd, 0x0c, 0x13, 0xec, 0x5f, 0x97, 0x44, 0x17, 0xc4, 0xa7, 0x7e, 0x3d, 0x64, 0x5d, 0x19, 0x73,
   0x60, 0x81, 0x4f, 0xdc, 0x22, 0x2a, 0x90, 0x88, 0x46, 0xee, 0xb8, 0x14, 0xde, 0x5e, 0x0b, 0xdb,
   0xe0, 0x32, 0x3a, 0x0a, 0x49, 0x06, 0x24, 0x5c, 0xc2, 0xd3, 0xac, 0x62, 0x91, 0x95, 0xe4, 0x79,
   0xe7, 0xc8, 0x37, 0x6d, 0x8d, 0xd5, 0x4e, 0xa9, 0x6c, 0x56, 0xf4, 0xea, 0x65, 0x7a, 0xae, 0x08,
   0xba, 0x78, 0x25, 0x2e, 0x1c, 0xa6, 0xb4, 0xc6, 0xe8, 0xdd, 0x74, 0x1f, 0x4b, 0xbd, 0x8b, 0x8a,
   0x70, 0x3e, 0xb5, 0x66, 0x48, 0x03, 0xf6, 0x0e, 0x61, 0x35, 0x57, 0xb9, 0x86, 0xc1, 0x1d, 0x9e,
   0xe1, 0xf8, 0x98, 0x11, 0x69, 0xd9, 0x8e, 0x94, 0x9b, 0x1e, 0x87, 0xe9, 0xce, 0x55, 0x28, 0xdf,
   0x8c, 0xa1, 0x89, 0x0d, 0xbf, 0xe6, 0x42, 0x68, 0x41, 0x99, 0x2d, 0x0f, 0xb0, 0x54, 0xbb, 0x16]

/-- The table `Rcon[11]`. -/
def Rcon : List Nat :=
  [0x8d, 0x01, 0x02, 0x04, 0x08, 0x10, 0x20, 0x40, 0x80, 0x1b, 0x36]

/-- Read `(*state)[r][c]` of a `state_t`, stored row by row as C lays out
`uint8_t[4][4]`. -/
def sget (state : List Nat) (r c : Nat) : Nat := rd state (4 * r + c)

/-- Write `(*state)[r][c] = v`. -/
def sset (state : List Nat) (r c : Nat) (v : Nat) : List Nat := wr state (4 * r + c) v

/-- One pass of the second loop of `KeyExpansion`, for word index `i`. -/
def KeyExpansion_step (i : Nat) (RoundKey : List Nat) : List Nat :=
  let k := (i - 1) * 4
  let tempa0 := rd RoundKey (k + 0)
  let tempa1 := rd RoundKey (k + 1)
  let tempa2 := rd RoundKey (k + 2)
  let tempa3 := rd RoundKey (k + 3)
  let tempa : Nat × Nat × Nat × Nat :=
    if i % Nk = 0 then
      let u8tmp := tempa0
      let t0 := tempa1
      let t1 := tempa2
      let t2 := tempa3
      let t3 := u8tmp
      let t0 := rd s_box t0
      let t1 := rd s_box t1
      let t2 := rd s_box t2
      let t3 := rd s_box t3
      let t0 := t0 ^^^ rd Rcon (i / Nk)
      (t0, t1, t2, t3)
    else (tempa0, tempa1, tempa2, tempa3)
  let j := i * 4
  let k := (i - Nk) * 4
  let RoundKey := wr RoundKey (j + 0) (rd RoundKey (k + 0) ^^^ tempa.1)
  let RoundKey := wr RoundKey (j + 1) (rd RoundKey (k + 1) ^^^ tempa.2.1)
  let RoundKey := wr RoundKey (j + 2) (rd RoundKey (k + 2) ^^^ tempa.2.2.1)
  let RoundKey := wr RoundKey (j + 3) (rd RoundKey (k + 3) ^^^ tempa.2.2.2)
  RoundKey

/-- One pass of the first loop of `KeyExpansion`: copy key word `i`. -/
def KeyExpansion_copy (Key : List Nat) (i : Nat) (RoundKey : List Nat) : List Nat :=
  let RoundKey := wr RoundKey (i * 4 + 0) (rd Key (i * 4 + 0))
  let RoundKey := wr RoundKey (i * 4 + 1) (rd Key (i * 4 + 1))
  let RoundKey := wr RoundKey (i * 4 + 2) (rd Key (i * 4 + 2))
  let RoundKey := wr RoundKey (i * 4 + 3) (rd Key (i * 4 + 3))
  RoundKey

/-- `void KeyExpansion(uint8_t* RoundKey, const uint8_t* Key)`: the first
argument is the content of the 176-byte buffer on entry, the result its
content on return. -/
def KeyExpansion (RoundKey Key : List Nat) : List Nat :=
  let RoundKey := forRange 0 Nk (KeyExpansion_copy Key) RoundKey
  forRange Nk (Nb * (Nr + 1)) KeyExpansion_step RoundKey

/-- `void AddRoundKey(uint8_t round, state_t* state, const uint8_t* RoundKey)`. -/
def AddRoundKey (round : Nat) (state RoundKey : List Nat) : List Nat :=
  forRange 0 4 (fun i state =>
    forRange 0 4 (fun j state =>
      sset state j i (sget state j i ^^^ rd RoundKey (round * Nb * 4 + i * Nb + j))) state) state

/-- `void SubBytes(state_t* state)`. -/
def SubBytes (state : List Nat) : List Nat :=
  forRange 0 4 (fun i state =>
    forRange 0 4 (fun j state =>
      sset state j i (rd s_box (sget state j i))) state) state

/-! ### Build without `USE_RISCV_ACCEL` (the `#else` branch) -/

namespace Baseline

/-- Baseline `void ShiftRows(state_t* state)`. -/
def ShiftRows (state : List Nat) : List Nat :=
  -- Row 1
  let temp := sget state 1 0
  let state := sset state 1 0 (sget state 1 1)
  let state := sset state 1 1 (sget state 1 2)
  let state := sset state 1 2 (sget state 1 3)
  let state := sset state 1 3 temp
  -- Row 2
  let temp := sget state 2 0
  let state := sset state 2 0 (sget state 2 2)
  let state := sset state 2 2 temp
  let temp := sget state 2 1
  let state := sset state 2 1 (sget state 2 3)
  let state := sset state 2 3 temp
  -- Row 3
  let temp := sget state 3 0
  let state := sset state 3 0 (sget state 3 3)
  let state := sset state 3 3 (sget state 3 2)
  let state := sset state 3 2 (sget state 3 1)
  let state := sset state 3 1 temp
  state

/-- Baseline `uint8_t xtime(uint8_t x)`: the expression is evaluated in `int`
and the result converted to `uint8_t`. -/
def xtime (x : Nat) : Nat :=
  ((x <<< 1) ^^^ (((x >>> 7) &&& 1) * 0x1b)) % 256

/-- Baseline `void MixColumns(state_t* state)`. -/
def MixColumns (state : List Nat) : List Nat :=
  forRange 0 4 (fun i state =>
    let a := sget state 0 i
    let b := sget state 1 i
    let c := sget state 2 i
    let d := sget state 3 i
    let state := sset state 0 i (xtime a ^^^ (xtime b ^^^ b) ^^^ c ^^^ d)
    let state := sset state 1 i (a ^^^ xtime b ^^^ (xtime c ^^^ c) ^^^ d)
    let state := sset state 2 i (a ^^^ b ^^^ xtime c ^^^ (xtime d ^^^ d))
    let state := sset state 3 i ((xtime a ^^^ a) ^^^ b ^^^ c ^^^ xtime d)
    state) state

end Baseline

/-! ### Build with `USE_RISCV_ACCEL` (the `#ifdef` branch) -/

namespace Accel

/-- The content of a 64-bit register of the `rv64` target that holds a value of
a 32-bit type: the value sign-extended from bit 31, as `rv64` keeps every 32-bit
value, unsigned ones included. -/
def sext32 (x : Nat) : Nat :=
  if x % 2 ^ 32 < 2 ^ 31 then x % 2 ^ 32 else x % 2 ^ 32 + (2 ^ 64 - 2 ^ 32)

/-- The instruction `rori rd, rs, n` of `rv64` (the file is built with
`-march=rv64gc_zba_zbb_zbc_zbs`): the rotation of the 64-bit register to the
right by `n` bits. -/
def rori64 (rs n : Nat) : Nat :=
  ((rs >>> n) ||| (rs <<< (64 - n))) % 2 ^ 64

/-- The statement `asm volatile ("rori %0, %1, n" : "=r"(x) : "r"(x))` on a
`uint32_t` variable: the operand register holds `x` sign-extended, `rori`
rotates its 64 bits, and the variable receives the low 32 bits of the result. -/
def rori (x n : Nat) : Nat :=
  rori64 (sext32 x) n % 2 ^ 32

/-- The instruction `clmul rd, rs1, rs2` with a `uint32_t` result: the
carry-less product of the operands, truncated to 32 bits; the low 32 bits of
the product depend on the low 32 bits of the operands only. -/
def clmul (rs1 rs2 : Nat) : Nat :=
  forRange 0 32 (fun i output =>
    if (rs2 >>> i) &&& 1 = 1 then output ^^^ ((rs1 <<< i) % 2 ^ 32) else output) 0

/-- Pack row `r` of the state into a word, first column in the top byte. -/
def pack_row (state : List Nat) (r : Nat) : Nat :=
  ((sget state r 0 <<< 24) ||| (sget state r 1 <<< 16) ||| (sget state r 2 <<< 8)
    ||| sget state r 3) % 2 ^ 32

/-- Unpack a word into row `r` of the state, each store converting to `uint8_t`. -/
def unpack_row (state : List Nat) (r : Nat) (row : Nat) : List Nat :=
  let state := sset state r 0 ((row >>> 24) % 256)
  let state := sset state r 1 ((row >>> 16) % 256)
  let state := sset state r 2 ((row >>> 8) % 256)
  let state := sset state r 3 (row % 256)
  state

/-- Accelerated `void ShiftRows(state_t* state)`. -/
def ShiftRows (state : List Nat) : List Nat :=
  -- Row 1
  let row1 := pack_row state 1
  let row1 := rori row1 24
  let state := unpack_row state 1 row1
  -- Row 2
  let row2 := pack_row state 2
  let row2 := rori row2 16
  let state := unpack_row state 2 row2
  -- Row 3
  let row3 := pack_row state 3
  let row3 := rori row3 8
  let state := unpack_row state 3 row3
  state

/-- Accelerated `void MixColumns(state_t* state)`. -/
def MixColumns (state : List Nat) : List Nat :=
  let M2 := 0x02020202
  let M3 := 0x03030303
  forRange 0 4 (fun i state =>
    let a := (sget state 0 i ||| (sget state 1 i <<< 8) ||| (sget state 2 i <<< 16)
      ||| (sget state 3 i <<< 24)) % 2 ^ 32
    let t := clmul a M2
    let b := clmul a M3
    let t := t ^^^ b
    let b := a
    let b := rori b 8
    let t := t ^^^ b
    let b := rori b 8
    let t := t ^^^ b
    let b := rori b 8
    let t := t ^^^ b
    let state := sset state 0 i (t % 256)
    let state := sset state 1 i ((t >>> 8) % 256)
    let state := sset state 2 i ((t >>> 16) % 256)
    let state := sset state 3 i ((t >>> 24) % 256)
    state) state

end Accel

/-- `ShiftRows` as selected by the build flag `USE_RISCV_ACCEL`. -/
def ShiftRows (USE_RISCV_ACCEL : Bool) (state : List Nat) : List Nat :=
  if USE_RISCV_ACCEL then Accel.ShiftRows state else Baseline.ShiftRows state

/-- `MixColumns` as selected by the build flag `USE_RISCV_ACCEL`. -/
def MixColumns (USE_RISCV_ACCEL : Bool) (state : List Nat) : List Nat :=
  if USE_RISCV_ACCEL then Accel.MixColumns state else Baseline.MixColumns state

/-- `void aes_encrypt(state_t* state, const uint8_t* RoundKey)` in the build
selected by the flag. -/
def aes_encrypt (USE_RISCV_ACCEL : Bool) (state RoundKey : List Nat) : List Nat :=
  let state := AddRoundKey 0 state RoundKey
  let state := forRange 1 Nr (fun round state =>
    let state := SubBytes state
    let state := ShiftRows USE_RISCV_ACCEL state
    let state := MixColumns USE_RISCV_ACCEL state
    let state := AddRoundKey round state RoundKey
    state) state
  let state := SubBytes state
  let state := ShiftRows USE_RISCV_ACCEL state
  let state := AddRoundKey Nr state RoundKey
  state

/-- The loop of `main` that fills the state: `state[r][c] = in[r + 4*c]`; the
first argument is the previous content of `state`. -/
def load_state (state inp : List Nat) : List Nat :=
  forRange 0 4 (fun r state =>
    forRange 0 4 (fun c state => sset state r c (rd inp (r + 4 * c))) state) state

/-- The loop of `main` that reads the state back: `out[r + 4*c] = state[r][c]`;
the first argument is the previous content of `out`. -/
def store_state (out state : List Nat) : List Nat :=
  forRange 0 4 (fun r out =>
    forRange 0 4 (fun c out => wr out (r + 4 * c) (sget state r c)) out) out

/-- The `key` array of `main`. -/
def main_key : List Nat :=
  [0x2b, 0x7e, 0x15, 0x16, 0x28, 0xae, 0xd2, 0xa6, 0xab, 0xf7, 0x15, 0x88, 0x09, 0xcf, 0x4f, 0x3c]

/-- The `in` array of `main`. -/
def main_in : List Nat :=
  [0x32, 0x43, 0xf6, 0xa8, 0x88, 0x5a, 0x30, 0x8d, 0x31, 0x31, 0x98, 0xa2, 0xe0, 0x37, 0x07, 0x34]

/-- The `expected` array of `main`. -/
def main_expected : List Nat :=
  [0x39, 0x25, 0x84, 0x1d, 0x02, 0xdc, 0x09, 0xfb, 0xdc, 0x11, 0x85, 0x97, 0x19, 0x6a, 0x0b, 0x32]

/-- The data path of `main` for a key and an input block: expand the key, load
the state from the block, encrypt, and read the block back. The arguments
`rk0`, `st0` and `out0` are the contents of the local arrays `RoundKey`,
`state` and `out` before they are written. -/
def encrypt_block (USE_RISCV_ACCEL : Bool) (rk0 st0 out0 key inp : List Nat) : List Nat :=
  let RoundKey := KeyExpansion rk0 key
  let state := load_state st0 inp
  let state := aes_encrypt USE_RISCV_ACCEL state RoundKey
  store_state out0 state

/-! ### The key schedule in words -/

/-- The `i`-th 4-byte word of a byte array. -/
def word (rk : List Nat) (i : Nat) : List Nat :=
  [rd rk (4 * i), rd rk (4 * i + 1), rd rk (4 * i + 2), rd rk (4 * i + 3)]

/-- A word rotated left by one byte. -/
def RotWord (w : List Nat) : List Nat := [rd w 1, rd w 2, rd w 3, rd w 0]

/-- Each byte of a word substituted through the S-box. -/
def SubWord (w : List Nat) : List Nat := w.map (fun x => rd s_box x)

/-- The first byte of a word xored with `Rcon[j]`. -/
def xorRcon (w : List Nat) (j : Nat) : List Nat := wr w 0 (rd w 0 ^^^ rd Rcon j)

/-- Bytewise xor of two words. -/
def xorWord (a b : List Nat) : List Nat := List.zipWith (fun x y => x ^^^ y) a b

/-- The word `t` of the key-schedule recurrence for word index `i`. -/
def sched_temp (rk : List Nat) (i : Nat) : List Nat :=
  if i % 4 = 0 then xorRcon (SubWord (RotWord (word rk (i - 1)))) (i / 4) else word rk (i - 1)

/-- Two buffers hold the same first `m` words. -/
def agreeW (m : Nat) (a b : List Nat) : Prop := ∀ i, i < m → word a i = word b i

instance (m : Nat) (a b : List Nat) : Decidable (agreeW m a b) := by
  unfold agreeW; infer_instance

/-- The key-schedule recurrence holds for the words `4 .. m - 1` of a buffer. -/
def schedOk (m : Nat) (rk : List Nat) : Prop :=
  ∀ i, 4 ≤ i → i < m → word rk i = xorWord (word rk (i - 4)) (sched_temp rk i)

instance (m : Nat) (rk : List Nat) : Decidable (schedOk m rk) := by
  unfold schedOk; infer_instance

/-! ### The cipher as a sequence of rounds -/

/-- One full round `r` of the cipher: SubBytes, ShiftRows, MixColumns, then
AddRoundKey with round key `r`. -/
def full_round (RoundKey : List Nat) (r : Nat) (state : List Nat) : List Nat :=
  AddRoundKey r (Baseline.MixColumns (Baseline.ShiftRows (SubBytes state))) RoundKey

/-- The final round: SubBytes, ShiftRows, then AddRoundKey with round key 10,
without MixColumns. -/
def final_round (RoundKey : List Nat) (state : List Nat) : List Nat :=
  AddRoundKey 10 (Baseline.ShiftRows (SubBytes state)) RoundKey

/-- The Cipher of FIPS-197 for `Nr = 10`, round by round: AddRoundKey with
round key 0, full rounds 1 to 9 in order, then the final round. -/
def Cipher (state RoundKey : List Nat) : List Nat :=
  let s0 := AddRoundKey 0 state RoundKey
  let s1 := full_round RoundKey 1 s0
  let s2 := full_round RoundKey 2 s1
  let s3 := full_round RoundKey 3 s2
  let s4 := full_round RoundKey 4 s3
  let s5 := full_round RoundKey 5 s4
  let s6 := full_round RoundKey 6 s5
  let s7 := full_round RoundKey 7 s6
  let s8 := full_round RoundKey 8 s7
  let s9 := full_round RoundKey 9 s8
  final_round RoundKey s9

/-! ### The S-box and MixColumns of FIPS-197 -/

/-- Bit `i` of a number, as `0` or `1`. -/
def bit (x i : Nat) : Nat := (x >>> i) % 2

/-- The product of two polynomials over GF(2), the second of degree below 8,
coefficients packed as bits: the sum (xor) of `a * x^i` over the terms `x^i` of
`b`. -/
def poly_mul (a b : Nat) : Nat :=
  (bit b 0 * a) ^^^ (bit b 1 * (a <<< 1)) ^^^ (bit b 2 * (a <<< 2)) ^^^ (bit b 3 * (a <<< 3))
    ^^^ (bit b 4 * (a <<< 4)) ^^^ (bit b 5 * (a <<< 5)) ^^^ (bit b 6 * (a <<< 6))
    ^^^ (bit b 7 * (a <<< 7))

/-- Cancel the term of degree `i` of a polynomial, if present, by adding
`x^(i-8)` times `x^8 + x^4 + x^3 + x + 1` (`0x11B`). -/
def cancel_term (i p : Nat) : Nat := p ^^^ (bit p i * (0x11B <<< (i - 8)))

/-- The remainder of a polynomial over GF(2) of degree below 15 modulo
`x^8 + x^4 + x^3 + x + 1`: the terms of degree 14 down to 8 are cancelled in
turn. -/
def poly_mod (p : Nat) : Nat :=
  cancel_term 8 (cancel_term 9 (cancel_term 10 (cancel_term 11 (cancel_term 12
    (cancel_term 13 (cancel_term 14 p))))))

/-- Multiplication in GF(2^8) modulo `0x11B`. -/
def gf_mul (a b : Nat) : Nat := poly_mod (poly_mul a b)

/-- The multiplicative inverse in GF(2^8): the byte `y` with `x * y = 1`, and
`0` for `x = 0`. -/
def gf_inv (x : Nat) : Nat := ((List.range 256).find? (fun y => gf_mul x y = 1)).getD 0

/-- The affine transformation of FIPS-197 with constant `0x63`: bit `i` of the
result is `b_i + b_(i+4) + b_(i+5) + b_(i+6) + b_(i+7) + c_i`, indices modulo 8. -/
def affine (b : Nat) : Nat :=
  forRange 0 8 (fun i acc =>
    acc + ((bit b i ^^^ bit b ((i + 4) % 8) ^^^ bit b ((i + 5) % 8) ^^^ bit b ((i + 6) % 8)
      ^^^ bit b ((i + 7) % 8) ^^^ bit 0x63 i) <<< i)) 0

/-- The S-box value of FIPS-197 for a byte. -/
def fips_sbox (x : Nat) : Nat := affine (gf_inv x)

/-- The matrix of MixColumns, row by row. -/
def mix_matrix : List (List Nat) := [[2, 3, 1, 1], [1, 2, 3, 1], [1, 1, 2, 3], [3, 1, 1, 2]]

/-- The product of a matrix row with a column over GF(2^8): the xor of the
products of corresponding entries. -/
def gf_dot (row col : List Nat) : Nat :=
  (List.zipWith gf_mul row col).foldl (fun x y => x ^^^ y) 0

/-- Column `c` of a state, top row first. -/
def column (state : List Nat) (c : Nat) : List Nat :=
  [sget state 0 c, sget state 1 c, sget state 2 c, sget state 3 c]

end Aes

/-! ## SHA-256 (`src/sha_dir/sha_filesv2/testv1.c`) -/

namespace Sha

/-- `#define SHA256_BLOCK_SIZE 64`. -/
def SHA256_BLOCK_SIZE : Nat := 64
/-- `#define SHA256_DIGEST_SIZE 32`. -/
def SHA256_DIGEST_SIZE : Nat := 32

/-- The struct `sha256_ctx`, with one ghost field: `calls` records, in order,
the 64-byte blocks on which `sha256_transform` has been called. -/
structure sha256_ctx where
  /-- Field `uint8_t buf[SHA256_BLOCK_SIZE]`. -/
  buf : List Nat
  /-- Field `uint32_t h[8]`. -/
  h : List Nat
  /-- Field `uint64_t len`. -/
  len : Nat
  /-- Ghost: the blocks passed to `sha256_transform` so far. -/
  calls : List (List Nat)
deriving DecidableEq, Repr

/-- The table `sha256_h_init[8]`. -/
def sha256_h_init : List Nat :=
  [0x6a09e667, 0xbb67ae85, 0x3c6ef372, 0xa54ff53a,
   0x510e527f, 0x9b05688c, 0x1f83d9ab, 0x5be0cd19]

/-- The table `sha256_k[64]`. -/
def sha256_k : List Nat :=
  [0x428A2F98, 0x71374491, 0xB5C0FBCF, 0xE9B5DBA5, 0x3956C25B, 0x59F111F1, 0x923F82A4, 0xAB1C5ED5,
   0xD807AA98, 0x12835B01, 0x243185BE, 0x550C7DC3, 0x72BE5D74, 0x80DEB1FE, 0x9BDC06A7, 0xC19BF174,
   0xE49B69C1, 0xEFBE4786, 0x0FC19DC6, 0x240CA1CC, 0x2DE92C6F, 0x4A7484AA, 0x5CB0A9DC, 0x76F988DA,
   0x983E5152, 0xA831C66D, 0xB00327C8, 0xBF597FC7, 0xC6E00BF3, 0xD5A79147, 0x06CA6351, 0x14292967,
   0x27B70A85, 0x2E1B2138, 0x4D2C6DFC, 0x53380D13, 0x650A7354, 0x766A0ABB, 0x81C2C92E, 0x92722C85,
   0xA2BFE8A1, 0xA81A664B, 0xC24B8B70, 0xC76C51A3, 0xD192E819, 0xD6990624, 0xF40E3585, 0x106AA070,
   0x19A4C116, 0x1E376C08, 0x2748774C, 0x34B0BCB5, 0x391C0CB3, 0x4ED8AA4A, 0x5B9CCA4F, 0x682E6FF3,
   0x748F82EE, 0x78A5636F, 0x84C87814, 0x8CC70208, 0x90BEFFFA, 0xA4506CEB, 0xBEF9A3F7, 0xC67178F2]

/-- `memcpy(dst + off, src, n)` on the content of `dst`, for `off + n` within
`dst` and `n` within `src`. -/
def memcpy (dst : List Nat) (off : Nat) (src : List Nat) (n : Nat) : List Nat :=
  dst.take off ++ src.take n ++ dst.drop (off + n)

/-- `memset(dst + off, v, n)` on the content of `dst`, for `off + n` within `dst`. -/
def memset (dst : List Nat) (off : Nat) (v : Nat) (n : Nat) : List Nat :=
  dst.take off ++ List.replicate n v ++ dst.drop (off + n)

/-- The 32-bit word read by `((uint32_t*)p)[i]` from a byte array on the
little-endian target. -/
def load32 (p : List Nat) (i : Nat) : Nat :=
  rd p (4 * i) + rd p (4 * i + 1) * 2 ^ 8 + rd p (4 * i + 2) * 2 ^ 16 + rd p (4 * i + 3) * 2 ^ 24

/-- The four bytes a 32-bit word occupies in memory on the little-endian target. -/
def bytes32 (x : Nat) : List Nat :=
  [x % 256, (x >>> 8) % 256, (x >>> 16) % 256, (x >>> 24) % 256]

/-- The eight bytes a 64-bit word occupies in memory on the little-endian target. -/
def bytes64 (x : Nat) : List Nat :=
  [x % 256, (x >>> 8) % 256, (x >>> 16) % 256, (x >>> 24) % 256,
   (x >>> 32) % 256, (x >>> 40) % 256, (x >>> 48) % 256, (x >>> 56) % 256]

/-- `static inline uint32_t bswap_32(uint32_t x)`; the argument is converted
to `uint32_t` on entry. -/
def bswap_32 (x : Nat) : Nat :=
  let x := x % 2 ^ 32
  (((x &&& 0xff000000) >>> 24) ||| ((x &&& 0x00ff0000) >>> 8) |||
    (((x &&& 0x0000ff00) <<< 8) % 2 ^ 32) ||| (((x &&& 0x000000ff) <<< 24) % 2 ^ 32))

/-- `static inline uint64_t bswap_64(uint64_t x)`. -/
def bswap_64 (x : Nat) : Nat :=
  ((bswap_32 x <<< 32) % 2 ^ 64) ||| bswap_32 (x >>> 32)

/-- The eight working variables `a` to `h` of `sha256_transform`. -/
structure Vars where
  a : Nat
  b : Nat
  c : Nat
  d : Nat
  e : Nat
  f : Nat
  g : Nat
  h : Nat
deriving DecidableEq, Repr

/-- The assignments `a = ctx->h[0]; ... h = ctx->h[7];`. -/
def load_vars (h : List Nat) : Vars :=
  ⟨rd h 0, rd h 1, rd h 2, rd h 3, rd h 4, rd h 5, rd h 6, rd h 7⟩

/-- The statements `ctx->h[0] += a; ... ctx->h[7] += h;`. -/
def add_vars (h : List Nat) (v : Vars) : List Nat :=
  let h := wr h 0 ((rd h 0 + v.a) % 2 ^ 32)
  let h := wr h 1 ((rd h 1 + v.b) % 2 ^ 32)
  let h := wr h 2 ((rd h 2 + v.c) % 2 ^ 32)
  let h := wr h 3 ((rd h 3 + v.d) % 2 ^ 32)
  let h := wr h 4 ((rd h 4 + v.e) % 2 ^ 32)
  let h := wr h 5 ((rd h 5 + v.f) % 2 ^ 32)
  let h := wr h 6 ((rd h 6 + v.g) % 2 ^ 32)
  let h := wr h 7 ((rd h 7 + v.h) % 2 ^ 32)
  h

/-- The complement `~x` of a `uint32_t`. -/
def not32 (x : Nat) : Nat := 0xffffffff ^^^ x

/-- The expression `(e & f) ^ (~e & g)`, the macro `Ch`. -/
def Ch (x y z : Nat) : Nat := (x &&& y) ^^^ (not32 x &&& z)

/-- The expression `(a & b) ^ (a & c) ^ (b & c)`, the macro `Maj`. -/
def Maj (x y z : Nat) : Nat := (x &&& y) ^^^ (x &&& z) ^^^ (y &&& z)

/-- The macro `ROTR(x, n)` on a `uint32_t`. -/
def ROTR (x n : Nat) : Nat := (x >>> n) ||| ((x <<< (32 - n)) % 2 ^ 32)

/-- The macro `Sigma0`. -/
def Sigma0 (x : Nat) : Nat := ROTR x 2 ^^^ ROTR x 13 ^^^ ROTR x 22
/-- The macro `Sigma1`. -/
def Sigma1 (x : Nat) : Nat := ROTR x 6 ^^^ ROTR x 11 ^^^ ROTR x 25
/-- The macro `sigma0`. -/
def sigma0 (x : Nat) : Nat := ROTR x 7 ^^^ ROTR x 18 ^^^ (x >>> 3)
/-- The macro `sigma1`. -/
def sigma1 (x : Nat) : Nat := ROTR x 17 ^^^ ROTR x 19 ^^^ (x >>> 10)

/-- The tail of one round, shared by both builds:
`h = g; g = f; f = e; e = d + t1; d = c; c = b; b = a; a = t1 + t2;`. -/
def rotate_vars (v : Vars) (t1 t2 : Nat) : Vars :=
  ⟨(t1 + t2) % 2 ^ 32, v.a, v.b, v.c, (v.d + t1) % 2 ^ 32, v.e, v.f, v.g⟩

/-! ### Build without `USE_RISCV_CRYPTO_EXT` -/

namespace Baseline

/-- The two loops of the baseline `sha256_transform` that fill `w[64]`. -/
def schedule (block : List Nat) : List Nat :=
  let w := List.replicate 64 0
  let w := forRange 0 16 (fun i w => wr w i (bswap_32 (load32 block i))) w
  forRange 16 64 (fun i w =>
    wr w i ((sigma1 (rd w (i - 2)) + rd w (i - 7) + sigma0 (rd w (i - 15)) + rd w (i - 16))
      % 2 ^ 32)) w

/-- One pass of the round loop of the baseline `sha256_transform`. -/
def round (w : List Nat) (i : Nat) (v : Vars) : Vars :=
  let t1 := (v.h + Sigma1 v.e + Ch v.e v.f v.g + rd sha256_k i + rd w i) % 2 ^ 32
  let t2 := (Sigma0 v.a + Maj v.a v.b v.c) % 2 ^ 32
  rotate_vars v t1 t2

/-- The effect of the baseline `sha256_transform` on `ctx->h`. -/
def transform_h (h block : List Nat) : List Nat :=
  let w := schedule block
  let v := load_vars h
  let v := forRange 0 64 (round w) v
  add_vars h v

end Baseline

/-! ### Build with `USE_RISCV_CRYPTO_EXT` -/

namespace Accel

/-- The instruction `sha256sig0` on a `uint32_t`. -/
def sha256sig0 (x : Nat) : Nat := sigma0 x
/-- The instruction `sha256sig1` on a `uint32_t`. -/
def sha256sig1 (x : Nat) : Nat := sigma1 x
/-- The instruction `sha256sum0` on a `uint32_t`. -/
def sha256sum0 (x : Nat) : Nat := Sigma0 x
/-- The instruction `sha256sum1` on a `uint32_t`. -/
def sha256sum1 (x : Nat) : Nat := Sigma1 x

/-- The call `memcpy(w, block, SHA256_BLOCK_SIZE)` into `uint32_t w[16]`. -/
def load_words (block : List Nat) : List Nat :=
  forRange 0 16 (fun i w => wr w i (load32 block i)) (List.replicate 16 0)

/-- One pass of the loop of the accelerated `sha256_transform`, on the pair of
`w[16]` and the working variables. -/
def round (i : Nat) (s : List Nat × Vars) : List Nat × Vars :=
  let w := s.1
  let v := s.2
  let w :=
    if i ≥ 16 then
      let s0 := sha256sig0 (rd w ((i - 15) &&& 15))
      let s1 := sha256sig1 (rd w ((i - 2) &&& 15))
      wr w (i &&& 15) ((rd w ((i - 16) &&& 15) + s0 + rd w ((i - 7) &&& 15) + s1) % 2 ^ 32)
    else w
  let s1 := sha256sum1 v.e
  let ch := (v.e &&& v.f) ^^^ (not32 v.e &&& v.g)
  let t1 := (v.h + s1 + ch + rd sha256_k i + bswap_32 (rd w (i &&& 15))) % 2 ^ 32
  let s0 := sha256sum0 v.a
  let maj := (v.a &&& v.b) ^^^ (v.a &&& v.c) ^^^ (v.b &&& v.c)
  let t2 := (s0 + maj) % 2 ^ 32
  (w, rotate_vars v t1 t2)

/-- The effect of the accelerated `sha256_transform` on `ctx->h`. -/
def transform_h (h block : List Nat) : List Nat :=
  let w := load_words block
  let v := load_vars h
  let s := forRange 0 64 round (w, v)
  add_vars h s.2

end Accel

/-- The effect of `sha256_transform` on `ctx->h` in the build selected by the
flag `USE_RISCV_CRYPTO_EXT`. -/
def sha256_transform_h (USE_RISCV_CRYPTO_EXT : Bool) (h block : List Nat) : List Nat :=
  if USE_RISCV_CRYPTO_EXT then Accel.transform_h h block else Baseline.transform_h h block

/-- `void sha256_transform(sha256_ctx *ctx, const uint8_t *block)` in the build
selected by the flag; `block` is the 64 bytes the pointer designates. -/
def sha256_transform (USE_RISCV_CRYPTO_EXT : Bool) (ctx : sha256_ctx) (block : List Nat) :
    sha256_ctx :=
  { ctx with
    h := sha256_transform_h USE_RISCV_CRYPTO_EXT ctx.h block
    calls := ctx.calls ++ [block] }

/-- `void sha256_init(sha256_ctx *ctx)`. -/
def sha256_init (ctx : sha256_ctx) : sha256_ctx :=
  { ctx with
    h := sha256_h_init
    buf := memset ctx.buf 0 0 SHA256_BLOCK_SIZE
    len := 0
    calls := [] }

/-- The loop `while (len >= SHA256_BLOCK_SIZE)` of `sha256_update`, run for at
most `fuel` passes; it returns the context and the input not yet consumed. -/
def sha256_update_loop (ext : Bool) : Nat → sha256_ctx → List Nat → sha256_ctx × List Nat
  | 0, ctx, data => (ctx, data)
  | fuel + 1, ctx, data =>
    if data.length ≥ SHA256_BLOCK_SIZE then
      sha256_update_loop ext fuel (sha256_transform ext ctx (data.take SHA256_BLOCK_SIZE))
        (data.drop SHA256_BLOCK_SIZE)
    else (ctx, data)

/-- The part of `sha256_update` after the partial block has been dealt with. -/
def sha256_update_rest (ext : Bool) (ctx : sha256_ctx) (data : List Nat) : sha256_ctx :=
  let r := sha256_update_loop ext data.length ctx data
  let ctx := r.1
  let data := r.2
  if data.length > 0 then { ctx with buf := memcpy ctx.buf 0 data data.length } else ctx

/-- `void sha256_update(sha256_ctx *ctx, const uint8_t *data, size_t len)`, with
`len` the length of `data`. -/
def sha256_update (ext : Bool) (ctx : sha256_ctx) (data : List Nat) : sha256_ctx :=
  let len := data.length
  let buffer_bytes := ctx.len % SHA256_BLOCK_SIZE
  let ctx := { ctx with len := (ctx.len + len) % 2 ^ 64 }
  if buffer_bytes > 0 then
    let to_fill := SHA256_BLOCK_SIZE - buffer_bytes
    if len < to_fill then
      { ctx with buf := memcpy ctx.buf buffer_bytes data len }
    else
      let ctx := { ctx with buf := memcpy ctx.buf buffer_bytes data to_fill }
      let ctx := sha256_transform ext ctx ctx.buf
      sha256_update_rest ext ctx (data.drop to_fill)
  else sha256_update_rest ext ctx data

/-- `void sha256_final(sha256_ctx *ctx, uint8_t *digest)`: the context on
return and the content of `digest`; `digest0` is the previous content of the
32-byte output buffer. -/
def sha256_final (ext : Bool) (ctx : sha256_ctx) (digest0 : List Nat) : sha256_ctx × List Nat :=
  let buffer_bytes := ctx.len % SHA256_BLOCK_SIZE
  let ctx := { ctx with buf := wr ctx.buf buffer_bytes 0x80 }
  let buffer_bytes := buffer_bytes + 1
  let ctx :=
    if buffer_bytes > SHA256_BLOCK_SIZE - 8 then
      let ctx := { ctx with buf := memset ctx.buf buffer_bytes 0 (SHA256_BLOCK_SIZE - buffer_bytes) }
      let ctx := sha256_transform ext ctx ctx.buf
      { ctx with buf := memset ctx.buf 0 0 SHA256_BLOCK_SIZE }
    else
      { ctx with buf := memset ctx.buf buffer_bytes 0 (SHA256_BLOCK_SIZE - buffer_bytes) }
  let bit_len := bswap_64 ((ctx.len * 8) % 2 ^ 64)
  let ctx := { ctx with buf := memcpy ctx.buf (SHA256_BLOCK_SIZE - 8) (bytes64 bit_len) 8 }
  let ctx := sha256_transform ext ctx ctx.buf
  let digest := forRange 0 8 (fun i digest =>
    memcpy digest (4 * i) (bytes32 (bswap_32 (rd ctx.h i))) 4) digest0
  (ctx, digest)

/-- The initial content of a `sha256_ctx` whose fields hold zeros. -/
def ctx0 : sha256_ctx := ⟨List.replicate 64 0, List.replicate 8 0, 0, []⟩

/-- The calls `sha256_init; sha256_update(c1); ...; sha256_update(ck)` on a
context of previous content `ctx`. -/
def absorb (ext : Bool) (ctx : sha256_ctx) (chunks : List (List Nat)) : sha256_ctx :=
  chunks.foldl (sha256_update ext) (sha256_init ctx)

/-- The digest written by `sha256_init; sha256_update(c1); ...;
sha256_update(ck); sha256_final`. -/
def hash_chunks (ext : Bool) (ctx : sha256_ctx) (digest0 : List Nat)
    (chunks : List (List Nat)) : List Nat :=
  (sha256_final ext (absorb ext ctx chunks) digest0).2

/-- The digest `e3b0c442 98fc1c14 9afbf4c8 996fb924 27ae41e4 649b934c a495991b
7852b855`. -/
def empty_digest : List Nat :=
  [0xe3, 0xb0, 0xc4, 0x42, 0x98, 0xfc, 0x1c, 0x14, 0x9a, 0xfb, 0xf4, 0xc8, 0x99, 0x6f, 0xb9, 0x24,
   0x27, 0xae, 0x41, 0xe4, 0x64, 0x9b, 0x93, 0x4c, 0xa4, 0x95, 0x99, 0x1b, 0x78, 0x52, 0xb8, 0x55]

/-- The block that pads the empty message: `0x80` followed by 63 zero bytes. -/
def empty_block : List Nat := 0x80 :: List.replicate 63 0

/-! ### Messages as sequences of blocks -/

/-- The first `n` consecutive 64-byte pieces of a byte sequence. -/
def blocks : Nat → List Nat → List (List Nat)
  | 0, _ => []
  | n + 1, m => m.take 64 :: blocks n (m.drop 64)

/-- The complete 64-byte blocks of a byte sequence, in order. -/
def full_blocks (m : List Nat) : List (List Nat) := blocks (m.length / 64) m

/-- The bytes of a byte sequence after its last complete 64-byte block. -/
def tail_bytes (m : List Nat) : List Nat := m.drop (64 * (m.length / 64))

/-- The 64-bit big-endian encoding of a number. -/
def be64 (v : Nat) : List Nat :=
  [(v >>> 56) % 256, (v >>> 48) % 256, (v >>> 40) % 256, (v >>> 32) % 256,
   (v >>> 24) % 256, (v >>> 16) % 256, (v >>> 8) % 256, v % 256]

/-- The blocks `sha256_final` passes to `sha256_transform` when `pend` are the
buffered bytes and `len` is the byte count of the context. -/
def final_blocks (pend : List Nat) (len : Nat) : List (List Nat) :=
  if pend.length + 1 > 56 then
    [pend ++ 0x80 :: List.replicate (63 - pend.length) 0,
     List.replicate 56 0 ++ bytes64 (bswap_64 ((len * 8) % 2 ^ 64))]
  else
    [pend ++ 0x80 :: List.replicate (55 - pend.length) 0
      ++ bytes64 (bswap_64 ((len * 8) % 2 ^ 64))]

/-- The blocks compressed for a message `m` in all: its complete blocks, then
the blocks `sha256_final` builds from the remaining bytes and the byte count. -/
def padded_blocks (m : List Nat) : List (List Nat) :=
  full_blocks m ++ final_blocks (tail_bytes m) (m.length % 2 ^ 64)

/-- The context has absorbed the byte sequence `m` since `sha256_init`: `len`
counts its bytes, `buf` starts with the bytes after the last complete block,
every complete block has been passed to `sha256_transform` once, in order, and
`h` is the initial state folded over these blocks. -/
def Absorbed (ext : Bool) (ctx : sha256_ctx) (m : List Nat) : Prop :=
  ctx.buf.length = 64 ∧ ctx.len = m.length % 2 ^ 64 ∧
  ctx.buf.take (m.length % 64) = tail_bytes m ∧
  ctx.calls = full_blocks m ∧
  ctx.h = (full_blocks m).foldl (sha256_transform_h ext) sha256_h_init

instance (ext : Bool) (ctx : sha256_ctx) (m : List Nat) : Decidable (Absorbed ext ctx m) := by
  unfold Absorbed; infer_instance

end Sha

/-! ## AES-128 (`src/aes_dir/aes_files/aes_test.c`) -/

namespace AesTest

/-- `#define Nb 4`. -/
def Nb : Nat := 4
/-- `#define Nk 4`. -/
def Nk : Nat := 4
/-- `#define Nr 10`. -/
def Nr : Nat := 10

/-- The table `sbox[256]`. -/
def sbox : List Nat :=
  [0x63, 0x7c, 0x77, 0x7b, 0xf2, 0x6b, 0x6f, 0xc5, 0x30, 0x01, 0x67, 0x2b, 0xfe, 0xd7, 0xab, 0x76,
   0xca, 0x82, 0xc9, 0x7d, 0xfa, 0x59, 0x47, 0xf0, 0xad, 0xd4, 0xa2, 0xaf, 0x9c, 0xa4, 0x72, 0xc0,
   0xb7, 0xfd, 0x93, 0x26, 0x36, 0x3f, 0xf7, 0xcc, 0x34, 0xa5, 0xe5, 0xf1, 0x71, 0xd8, 0x31, 0x15,
   0x04, 0xc7, 0x23, 0xc3, 0x18, 0x96, 0x05, 0x9a, 0x07, 0x12, 0x80, 0xe2, 0xeb, 0x27, 0xb2, 0x75,
   0x09, 0x83, 0x2c, 0x1a, 0x1b, 0x6e, 0x5a, 0xa0, 0x52, 0x3b, 0xd6, 0xb3, 0x29, 0xe3, 0x2f, 0x84,
   0x53, 0xd1, 0x00, 0xed, 0x20, 0xfc, 0xb1, 0x5b, 0x6a, 0xcb, 0xbe, 0x39, 0x4a, 0x4c, 0x58, 0xcf,
   0xd0, 0xef, 0xaa, 0xfb, 0x43, 0x4d, 0x33, 0x85, 0x45, 0xf9, 0x02, 0x7f, 0x50, 0x3c, 0x9f, 0xa8,
   0x51, 0xa3, 0x40, 0x8f, 0x92, 0x9d, 0x38, 0xf5, 0xbc, 0xb6, 0xda, 0x21, 0x10, 0xff, 0xf3, 0xd2,
   0xcd, 0x0c, 0x13, 0xec, 0x5f, 0x97, 0x44, 0x17, 0xc4, 0xa7, 0x7e, 0x3d, 0x64, 0x5d, 0x19, 0x73,
   0x60, 0x81, 0x4f, 0xdc, 0x22, 0x2a, 0x90, 0x88, 0x46, 0xee, 0xb8, 0x14, 0xde, 0x5e, 0x0b, 0xdb,
   0xe0, 0x32, 0x3a, 0x0a, 0x49, 0x06, 0x24, 0x5c, 0xc2, 0xd3, 0xac, 0x62, 0x91, 0x95, 0xe4, 0x79,
   0xe7, 0xc8, 0x37, 0x6d, 0x8d, 0xd5, 0x4e, 0xa9, 0x6c, 0x56, 0xf4, 0xea, 0x65, 0x7a, 0xae, 0x08,
   0xba, 0x78, 0x25, 0x2e, 0x1c, 0xa6, 0xb4, 0xc6, 0xe8, 0xdd, 0x74, 0x1f, 0x4b, 0xbd, 0x8b, 0x8a,
   0x70, 0x3e, 0xb5, 0x66, 0x48, 0x03, 0xf6, 0x0e, 0x61, 0x35, 0x57, 0xb9, 0x86, 0xc1, 0x1d, 0x9e,
   0xe1, 0xf8, 0x98, 0x11, 0x69, 0xd9, 0x8e, 0x94, 0x9b, 0x1e, 0x87, 0xe9, 0xce, 0x55, 0x28, 0xdf,
   0x8c, 0xa1, 0x89, 0x0d, 0xbf, 0xe6, 0x42, 0x68, 0x41, 0x99, 0x2d, 0x0f, 0xb0, 0x54, 0xbb, 0x16]

/-- The table `Rcon[11]`. -/
def Rcon : List Nat :=
  [0x00, 0x01, 0x02, 0x04, 0x08, 0x10, 0x20, 0x40, 0x80, 0x1B, 0x36]

/-- `static inline uint8_t xtime(uint8_t x)`. -/
def xtime (x : Nat) : Nat :=
  let result := (x <<< 1) % 256
  let result := if x &&& 0x80 ≠ 0 then result ^^^ 0x1b else result
  result

/-- `uint8_t getSBoxValue(uint8_t num)`. -/
def getSBoxValue (num : Nat) : Nat := rd sbox num

/-- One pass of the first loop of `KeyExpansion`: copy key word `i`. -/
def KeyExpansion_copy (Key : List Nat) (i : Nat) (RoundKey : List Nat) : List Nat :=
  let RoundKey := wr RoundKey (i * 4 + 0) (rd Key (i * 4 + 0))
  let RoundKey := wr RoundKey (i * 4 + 1) (rd Key (i * 4 + 1))
  let RoundKey := wr RoundKey (i * 4 + 2) (rd Key (i * 4 + 2))
  let RoundKey := wr RoundKey (i * 4 + 3) (rd Key (i * 4 + 3))
  RoundKey

/-- One pass of the second loop of `KeyExpansion`, for word index `i`; the
local array `tempa` is written entirely before it is read. -/
def KeyExpansion_step (i : Nat) (RoundKey : List Nat) : List Nat :=
  let tempa := forRange 0 4 (fun j tempa => wr tempa j (rd RoundKey ((i - 1) * 4 + j)))
    (List.replicate 4 0)
  let tempa :=
    if i % Nk = 0 then
      let t := rd tempa 0
      let tempa := wr tempa 0 (getSBoxValue (rd tempa 1) ^^^ rd Rcon (i / Nk))
      let tempa := wr tempa 1 (getSBoxValue (rd tempa 2))
      let tempa := wr tempa 2 (getSBoxValue (rd tempa 3))
      let tempa := wr tempa 3 (getSBoxValue t)
      tempa
    else tempa
  forRange 0 4 (fun j RoundKey =>
    wr RoundKey (i * 4 + j) (rd RoundKey ((i - Nk) * 4 + j) ^^^ rd tempa j)) RoundKey

/-- `void KeyExpansion(uint8_t* RoundKey, const uint8_t* Key)`: the first
argument is the content of the 176-byte buffer on entry, the result its
content on return. -/
def KeyExpansion (RoundKey Key : List Nat) : List Nat :=
  let RoundKey := forRange 0 Nk (KeyExpansion_copy Key) RoundKey
  forRange Nk (Nb * (Nr + 1)) KeyExpansion_step RoundKey

/-- `void AddRoundKey(uint8_t round, uint8_t* state, const uint8_t* RoundKey)`. -/
def AddRoundKey (round : Nat) (state RoundKey : List Nat) : List Nat :=
  forRange 0 16 (fun i state => wr state i (rd state i ^^^ rd RoundKey (round * Nb * 4 + i))) state

/-- `void SubBytes(uint8_t* state)`. -/
def SubBytes (state : List Nat) : List Nat :=
  forRange 0 16 (fun i state => wr state i (getSBoxValue (rd state i))) state

/-- `void ShiftRows(uint8_t* state)`. -/
def ShiftRows (state : List Nat) : List Nat :=
  -- Row 1
  let temp := rd state 1
  let state := wr state 1 (rd state 5)
  let state := wr state 5 (rd state 9)
  let state := wr state 9 (rd state 13)
  let state := wr state 13 temp
  -- Row 2
  let temp := rd state 2
  let state := wr state 2 (rd state 10)
  let state := wr state 10 temp
  let temp := rd state 6
  let state := wr state 6 (rd state 14)
  let state := wr state 14 temp
  -- Row 3
  let temp := rd state 3
  let state := wr state 3 (rd state 15)
  let state := wr state 15 (rd state 11)
  let state := wr state 11 (rd state 7)
  let state := wr state 7 temp
  state

/-- `void MixColumns(uint8_t* state)`. -/
def MixColumns (state : List Nat) : List Nat :=
  forRange 0 4 (fun i state =>
    let t := rd state (i * 4 + 0)
    let Tmp := rd state (i * 4 + 0) ^^^ rd state (i * 4 + 1) ^^^ rd state (i * 4 + 2)
      ^^^ rd state (i * 4 + 3)
    let Tm := rd state (i * 4 + 0) ^^^ rd state (i * 4 + 1)
    let Tm := xtime Tm
    let state := wr state (i * 4 + 0) (rd state (i * 4 + 0) ^^^ (Tm ^^^ Tmp))
    let Tm := rd state (i * 4 + 1) ^^^ rd state (i * 4 + 2)
    let Tm := xtime Tm
    let state := wr state (i * 4 + 1) (rd state (i * 4 + 1) ^^^ (Tm ^^^ Tmp))
    let Tm := rd state (i * 4 + 2) ^^^ rd state (i * 4 + 3)
    let Tm := xtime Tm
    let state := wr state (i * 4 + 2) (rd state (i * 4 + 2) ^^^ (Tm ^^^ Tmp))
    let Tm := rd state (i * 4 + 3) ^^^ t
    let Tm := xtime Tm
    let state := wr state (i * 4 + 3) (rd state (i * 4 + 3) ^^^ (Tm ^^^ Tmp))
    state) state

/-- `int AES_encrypt(uint8_t* input, const uint8_t* key, uint8_t* output)`: a
null pointer is `none`, a valid one carries the content it points to. The
result is the return value and the content of `output` on return; `st0` and
`rk0` are the contents of the local arrays `state` and `RoundKey` before they
are written. -/
def AES_encrypt (st0 rk0 : List Nat) (input key output : Option (List Nat)) :
    Int × Option (List Nat) :=
  match input, key, output with
  | some input, some key, some output =>
    let state := Sha.memcpy st0 0 input 16
    let RoundKey := KeyExpansion rk0 key
    let state := AddRoundKey 0 state RoundKey
    let state := forRange 1 Nr (fun round state =>
      let state := SubBytes state
      let state := ShiftRows state
      let state := MixColumns state
      let state := AddRoundKey round state RoundKey
      state) state
    let state := SubBytes state
    let state := ShiftRows state
    let state := AddRoundKey Nr state RoundKey
    let output := Sha.memcpy output 0 state 16
    (0, some output)
  | _, _, output => (-1, output)

end AesTest

/-! ## SHA-256 of `src/sha_dir/sha_filesv1` (`sha_workloadv2.c`, `sha_code_workloadv1.c`) -/

namespace ShaV1

/-- The table `K[64]`, the same in both files: 56 initialisers, the remaining
eight entries are zero. -/
def K : List Nat :=
  [0x428A2F98, 0x71374491, 0xB5C0FBCF, 0xE9B5DBA5, 0x3956C25B, 0x59F111F1, 0x923F82A4, 0xAB1C5ED5,
   0xD807AA98, 0x12835B01, 0x243185BE, 0x550C7DC3, 0x72BE5D74, 0x80DEB1FE, 0x9BDC06A7, 0xC19BF174,
   0xE49B69C1, 0x80A1A1D6, 0x6CA6351E, 0x1F83D9AB, 0x5BE0CD19, 0x71C58E8B, 0x4958D65E, 0x4065C8A9,
   0x528C45CC, 0x1C4C6C9D, 0xA34D23D6, 0xE58BCD3D, 0x0A372F1B, 0x24EF28B2, 0x648832C6, 0x0DE82B8D,
   0x0ABF9E51, 0x45763BCD, 0x32B41B0E, 0x17F0B930, 0x2F017F1A, 0x3BCF5C6F, 0x655E17AD, 0x1893C3E3,
   0x73D734B9, 0xD0636817, 0x4F032B24, 0xBAFC66DD, 0xACAF6481, 0x45AC767D, 0xE9A7B617, 0x60E94A35,
   0x75945616, 0xA137E0D5, 0x9DBF1C68, 0x41805497, 0x4E875E4C, 0x944D2F91, 0x70BB2B6C, 0x0768C2A3,
   0, 0, 0, 0, 0, 0, 0, 0]

/-- The array `uint32_t state[8]`, with one ghost field: `calls` records, in
order, the 64-byte blocks on which `sha256_transform` has been called. -/
structure hash_state where
  /-- The eight words of `state`. -/
  h : List Nat
  /-- Ghost: the blocks passed to `sha256_transform` so far. -/
  calls : List (List Nat)
deriving DecidableEq, Repr

/-- The macro `ROTRIGHT(a, b)` on a `uint32_t`. -/
def ROTRIGHT (a b : Nat) : Nat := (a >>> b) ||| ((a <<< (32 - b)) % 2 ^ 32)
/-- The macro `CH`. -/
def CH (x y z : Nat) : Nat := (x &&& y) ^^^ (Sha.not32 x &&& z)
/-- The macro `MAJ`. -/
def MAJ (x y z : Nat) : Nat := (x &&& y) ^^^ (x &&& z) ^^^ (y &&& z)
/-- The macro `SIGMA0`. -/
def SIGMA0 (x : Nat) : Nat := ROTRIGHT x 2 ^^^ ROTRIGHT x 13 ^^^ ROTRIGHT x 22
/-- The macro `SIGMA1`. -/
def SIGMA1 (x : Nat) : Nat := ROTRIGHT x 6 ^^^ ROTRIGHT x 11 ^^^ ROTRIGHT x 25
/-- The macro `sigma0`. -/
def sigma0 (x : Nat) : Nat := ROTRIGHT x 7 ^^^ ROTRIGHT x 18 ^^^ (x >>> 3)
/-- The macro `sigma1`. -/
def sigma1 (x : Nat) : Nat := ROTRIGHT x 17 ^^^ ROTRIGHT x 19 ^^^ (x >>> 10)

/-- The two loops of `sha256_transform` that fill `m[64]`. -/
def schedule (data : List Nat) : List Nat :=
  let m := List.replicate 64 0
  let m := forRange 0 16 (fun i m =>
    wr m i (((rd data (i * 4) <<< 24) ||| (rd data (i * 4 + 1) <<< 16)
      ||| (rd data (i * 4 + 2) <<< 8) ||| rd data (i * 4 + 3)) % 2 ^ 32)) m
  forRange 16 64 (fun i m =>
    wr m i ((sigma1 (rd m (i - 2)) + rd m (i - 7) + sigma0 (rd m (i - 15)) + rd m (i - 16))
      % 2 ^ 32)) m

/-- One pass of the round loop of `sha256_transform`. -/
def round (m : List Nat) (i : Nat) (v : Sha.Vars) : Sha.Vars :=
  let t1 := (v.h + SIGMA1 v.e + CH v.e v.f v.g + rd K i + rd m i) % 2 ^ 32
  let t2 := (SIGMA0 v.a + MAJ v.a v.b v.c) % 2 ^ 32
  Sha.rotate_vars v t1 t2

/-- The effect of `sha256_transform` on the eight words of `state`. -/
def transform_h (h data : List Nat) : List Nat :=
  let m := schedule data
  let v := Sha.load_vars h
  let v := forRange 0 64 (round m) v
  Sha.add_vars h v

/-- `void sha256_transform(uint32_t state[8], const uint8_t data[64])`; `data`
is the 64 bytes the pointer designates. -/
def sha256_transform (state : hash_state) (data : List Nat) : hash_state :=
  { h := transform_h state.h data, calls := state.calls ++ [data] }

/-- `void sha256_init(uint32_t state[8])`. -/
def sha256_init (state : hash_state) : hash_state :=
  let h := state.h
  let h := wr h 0 0x6a09e667
  let h := wr h 1 0xbb67ae85
  let h := wr h 2 0x3c6ef372
  let h := wr h 3 0xa54ff53a
  let h := wr h 4 0x510e527f
  let h := wr h 5 0x9b05688c
  let h := wr h 6 0x1f83d9ab
  let h := wr h 7 0x5be0cd19
  { h := h, calls := [] }

/-! ### `sha_workloadv2.c` -/

namespace Workload2

/-- The loop of `sha256_update`, run for at most `fuel` passes; `data` is the
memory from the pointer `data` on. -/
def sha256_update_loop : Nat → hash_state → List Nat → Nat → hash_state
  | 0, state, _, _ => state
  | fuel + 1, state, data, len =>
    if len ≥ 64 then
      sha256_update_loop fuel (sha256_transform state (data.take 64)) (data.drop 64) (len - 64)
    else state

/-- `void sha256_update(uint32_t state[8], const uint8_t *data, size_t len)`;
`data` is the memory from the pointer on. -/
def sha256_update (state : hash_state) (data : List Nat) (len : Nat) : hash_state :=
  sha256_update_loop len state data len

/-- `void sha256_final(uint32_t state[8], const uint8_t *data, size_t len,
uint8_t *hash)`: the state on return and the content of `hash`; `hash0` is
the previous content of the 32-byte output buffer. -/
def sha256_final (state : hash_state) (data : List Nat) (len : Nat) (hash0 : List Nat) :
    hash_state × List Nat :=
  let block := List.replicate 64 0
  let rem := len % 64
  let block := Sha.memcpy block 0 (data.drop (len - rem)) rem
  let block := wr block rem 0x80
  let sb :=
    if rem > 55 then
      let state := sha256_update state block 64
      (state, Sha.memset block 0 0 64)
    else (state, block)
  let state := sb.1
  let block := sb.2
  let bit_len := (len * 8) % 2 ^ 64
  let block := forRange 0 8 (fun i block => wr block (63 - i) ((bit_len >>> (8 * i)) &&& 0xff))
    block
  let state := sha256_update state block 64
  let hash := forRange 0 8 (fun i hash =>
    let hash := wr hash (i * 4 + 0) ((rd state.h i >>> 24) &&& 0xFF)
    let hash := wr hash (i * 4 + 1) ((rd state.h i >>> 16) &&& 0xFF)
    let hash := wr hash (i * 4 + 2) ((rd state.h i >>> 8) &&& 0xFF)
    let hash := wr hash (i * 4 + 3) (rd state.h i &&& 0xFF)
    hash) hash0
  (state, hash)

/-- The digest written by the calls of `main`: `sha256_init(state);
sha256_update(state, data, len); sha256_final(state, data, len, hash)`. -/
def hash_message (state0 : hash_state) (hash0 data : List Nat) (len : Nat) : List Nat :=
  let state := sha256_init state0
  let state := sha256_update state data len
  (sha256_final state data len hash0).2

end Workload2

/-! ### `sha_code_workloadv1.c` -/

namespace Workload1

/-- The loop of `sha256_update`, run for at most `fuel` passes, on the triple
of the state, the local `block` and the offset `i`; `data` is the memory from
the pointer `data` on. -/
def sha256_update_loop (data : List Nat) :
    Nat → hash_state × List Nat × Nat → Nat → hash_state × List Nat × Nat
  | 0, s, _ => s
  | fuel + 1, s, len =>
    if len ≥ 64 then
      let state := s.1
      let block := s.2.1
      let i := s.2.2
      let block := Sha.memcpy block 0 (data.drop i) 64
      let state := sha256_transform state block
      sha256_update_loop data fuel (state, block, i + 64) (len - 64)
    else s

/-- `void sha256_update(uint32_t state[8], const uint8_t *data, size_t len)`;
the local array `block` is written entirely before it is read. -/
def sha256_update (state : hash_state) (data : List Nat) (len : Nat) : hash_state :=
  (sha256_update_loop data len (state, List.replicate 64 0, 0) len).1

/-- `void sha256_final(uint32_t state[8], const uint8_t *data, size_t len,
uint8_t *hash)`: the state on return and the content of `hash`; `data` is the
memory from the pointer on and `hash0` the previous content of the 32-byte
output buffer. -/
def sha256_final (state : hash_state) (data : List Nat) (len : Nat) (hash0 : List Nat) :
    hash_state × List Nat :=
  let block := List.replicate 64 0
  let i := len
  let block := Sha.memset block 0 0 64
  let block := Sha.memcpy block 0 (data.drop i) (len % 64)
  let block := wr block (len % 64) 0x80
  let sb :=
    if len % 64 > 55 then
      let state := sha256_update state block 64
      (state, Sha.memset block 0 0 64)
    else (state, block)
  let state := sb.1
  let block := sb.2
  let bit_len := (len * 8) % 2 ^ 64
  let block := wr block 63 (bit_len &&& 0xff)
  let block := wr block 62 ((bit_len >>> 8) &&& 0xff)
  let block := wr block 61 ((bit_len >>> 16) &&& 0xff)
  let block := wr block 60 ((bit_len >>> 24) &&& 0xff)
  let block := wr block 59 ((bit_len >>> 32) &&& 0xff)
  let block := wr block 58 ((bit_len >>> 40) &&& 0xff)
  let block := wr block 57 ((bit_len >>> 48) &&& 0xff)
  let block := wr block 56 ((bit_len >>> 56) &&& 0xff)
  let state := sha256_update state block 64
  let hash := forRange 0 8 (fun i hash =>
    let hash := wr hash (i * 4) ((rd state.h i >>> 24) &&& 0xFF)
    let hash := wr hash (i * 4 + 1) ((rd state.h i >>> 16) &&& 0xFF)
    let hash := wr hash (i * 4 + 2) ((rd state.h i >>> 8) &&& 0xFF)
    let hash := wr hash (i * 4 + 3) (rd state.h i &&& 0xFF)
    hash) hash0
  (state, hash)

/-- The digest written by the calls of `main`: `sha256_init(state);
sha256_update(state, data, len); sha256_final(state, data, len, hash)`. -/
def hash_message (state0 : hash_state) (hash0 data : List Nat) (len : Nat) : List Nat :=
  let state := sha256_init state0
  let state := sha256_update state data len
  (sha256_final state data len hash0).2

end Workload1

end ShaV1

/-! ## AES-128 file encryption (`src/aes_dir/aes_filesv2/testv2.c`, `testv3.c`, `testv4.c`)

The functions `KeyExpansion`, `AddRoundKey`, `SubBytes`, `ShiftRows`,
`MixColumns` and `aes_encrypt` of these files are those of `testv1.c`, embedded
in `Aes` (`testv4.c` writes them in minified form, embedded as written in
`AesV4`). The encryption loop is the same in `main` of `testv2.c` and in
`run_benchmark_for_size` of `testv3.c` and `testv4.c`. -/

namespace AesFile

/-- `#define AES_BLOCK_SIZE 16`. -/
def AES_BLOCK_SIZE : Nat := 16

/-- `void block_to_state(const uint8_t* block, state_t* state)`; the second
argument is the previous content of `state`. -/
def block_to_state (block state : List Nat) : List Nat :=
  forRange 0 4 (fun r state =>
    forRange 0 4 (fun c state => Aes.sset state r c (rd block (c * 4 + r))) state) state

/-- `void state_to_block(const state_t* state, uint8_t* block)`; the second
argument is the previous content of `block`. -/
def state_to_block (state block : List Nat) : List Nat :=
  forRange 0 4 (fun r block =>
    forRange 0 4 (fun c block => wr block (c * 4 + r) (Aes.sget state r c)) block) block

/-- The local arrays of the encryption loop, the unread rest of the input file
and the bytes written to the output file so far. -/
structure Files where
  /-- The array `uint8_t in_block[AES_BLOCK_SIZE]`. -/
  in_block : List Nat
  /-- The array `uint8_t out_block[AES_BLOCK_SIZE]`. -/
  out_block : List Nat
  /-- The variable `state_t state`. -/
  state : List Nat
  /-- The bytes of `in_file` not yet read. -/
  in_file : List Nat
  /-- The bytes written to `out_file`. -/
  out_file : List Nat
deriving DecidableEq, Repr

/-- The statements `block_to_state(in_block, &state); aes_encrypt(&state,
RoundKey); state_to_block(&state, out_block); fwrite(out_block, 1,
AES_BLOCK_SIZE, out_file);` in the build selected by the flag. -/
def encrypt_and_write (USE_RISCV_ACCEL : Bool) (RoundKey : List Nat) (s : Files) : Files :=
  let state := block_to_state s.in_block s.state
  let state := Aes.aes_encrypt USE_RISCV_ACCEL state RoundKey
  let out_block := state_to_block state s.out_block
  { s with state := state, out_block := out_block,
           out_file := s.out_file ++ out_block.take AES_BLOCK_SIZE }

/-- The loop `while ((bytes_read = fread(in_block, 1, AES_BLOCK_SIZE, in_file))
> 0)`, run for at most `fuel` passes: `fread` copies the next `bytes_read` bytes
of the file, at most 16, to the start of `in_block`. -/
def encrypt_loop (USE_RISCV_ACCEL : Bool) (RoundKey : List Nat) : Nat → Files → Files
  | 0, s => s
  | fuel + 1, s =>
    let bytes_read := min AES_BLOCK_SIZE s.in_file.length
    let s := { s with in_block := Sha.memcpy s.in_block 0 s.in_file bytes_read,
                      in_file := s.in_file.drop bytes_read }
    if bytes_read > 0 then
      let s :=
        if bytes_read < AES_BLOCK_SIZE then
          let pad_val := (AES_BLOCK_SIZE - bytes_read) % 256
          { s with in_block := Sha.memset s.in_block bytes_read pad_val pad_val }
        else s
      encrypt_loop USE_RISCV_ACCEL RoundKey fuel (encrypt_and_write USE_RISCV_ACCEL RoundKey s)
    else s

/-- The encryption of a file of `size` bytes: the loop, then the block of
padding added when `size > 0 && size % AES_BLOCK_SIZE == 0`. The result is the
content of the output file; `in0`, `out0` and `st0` are the contents of the
local arrays before they are written and `input` is the content of the input
file. -/
def encrypt_file (USE_RISCV_ACCEL : Bool) (RoundKey in0 out0 st0 input : List Nat)
    (size : Nat) : List Nat :=
  let s : Files := ⟨in0, out0, st0, input, []⟩
  let s := encrypt_loop USE_RISCV_ACCEL RoundKey (input.length + 1) s
  let s :=
    if size > 0 ∧ size % AES_BLOCK_SIZE = 0 then
      let s := { s with in_block := Sha.memset s.in_block 0 AES_BLOCK_SIZE AES_BLOCK_SIZE }
      encrypt_and_write USE_RISCV_ACCEL RoundKey s
    else s
  s.out_file

/-- The encryption of one 16-byte block with local arrays that hold zeros:
`block_to_state`, `aes_encrypt`, `state_to_block`. -/
def encrypt_chunk (USE_RISCV_ACCEL : Bool) (RoundKey block : List Nat) : List Nat :=
  state_to_block
    (Aes.aes_encrypt USE_RISCV_ACCEL (block_to_state block (List.replicate 16 0)) RoundKey)
    (List.replicate 16 0)

/-- The first `n` consecutive 16-byte pieces of a byte sequence. -/
def chunks : Nat → List Nat → List (List Nat)
  | 0, _ => []
  | n + 1, m => m.take 16 :: chunks n (m.drop 16)

end AesFile

namespace Aes

/-- The values of the type `state_t` (`typedef uint8_t state_t[4][4]`): sixteen bytes. -/
def state_t (s : List Nat) : Prop := s.length = 16 ∧ ∀ b, b ∈ s → b < 256

instance (s : List Nat) : Decidable (state_t s) := by
  unfold state_t
  infer_instance

end Aes

/-! ## AES-128, minified core (`src/aes_dir/aes_filesv2/testv4.c`)

The AES functions of `testv4.c` as that file writes them, in the build without
`USE_RISCV_ACCEL`; `Nk`, `Nb`, `Nr` and the layout of `state_t` are those of
`Aes`. -/

namespace AesV4

/-- The table `s_box[256]` of `testv4.c`. -/
def s_box : List Nat :=
  [0x63, 0x7c, 0x77, 0x7b, 0xf2, 0x6b, 0x6f, 0xc5, 0x30, 0x01, 0x67, 0x2b, 0xfe, 0xd7, 0xab, 0x76,
   0xca, 0x82, 0xc9, 0x7d, 0xfa, 0x59, 0x47, 0xf0, 0xad, 0xd4, 0xa2, 0xaf, 0x9c, 0xa4, 0x72, 0xc0,
   0xb7, 0xfd, 0x93, 0x26, 0x36, 0x3f, 0xf7, 0xcc, 0x34, 0xa5, 0xe5, 0xf1, 0x71, 0xd8, 0x31, 0x15,
   0x04, 0xc7, 0x23, 0xc3, 0x18, 0x96, 0x05, 0x9a, 0x07, 0x12, 0x80, 0xe2, 0xeb, 0x27, 0xb2, 0x75,
   0x09, 0x83, 0x2c, 0x1a, 0x1b, 0x6e, 0x5a, 0xa0, 0x52, 0x3b, 0xd6, 0xb3, 0x29, 0xe3, 0x2f, 0x84,
   0x53, 0xd1, 0x00, 0xed, 0x20, 0xfc, 0xb1, 0x5b, 0x6a, 0xcb, 0xbe, 0x39, 0x4a, 0x4c, 0x58, 0xcf,
   0xd0, 0xef, 0xaa, 0xfb, 0x43, 0x4d, 0x33, 0x85, 0x45, 0xf9, 0x02, 0x7f, 0x50, 0x3c, 0x9f, 0xa8,
   0x51, 0xa3, 0x40, 0x8f, 0x92, 0x9d, 0x38, 0xf5, 0xbc, 0xb6, 0xda, 0x21, 0x10, 0xff, 0xf3, 0xd2,
   0xcd, 0x0c, 0x13, 0xec, 0x5f, 0x97, 0x44, 0x17, 0xc4, 0xa7, 0x7e, 0x3d, 0x64, 0x5d, 0x19, 0x73,
   0x60, 0x81, 0x4f, 0xdc, 0x22, 0x2a, 0x90, 0x88, 0x46, 0xee, 0xb8, 0x14, 0xde, 0x5e, 0x0b, 0xdb,
   0xe0, 0x32, 0x3a, 0x0a, 0x49, 0x06, 0x24, 0x5c, 0xc2, 0xd3, 0xac, 0x62, 0x91, 0x95, 0xe4, 0x79,
   0xe7, 0xc8, 0x37, 0x6d, 0x8d, 0xd5, 0x4e, 0xa9, 0x6c, 0x56, 0xf4, 0xea, 0x65, 0x7a, 0xae, 0x08,
   0xba, 0x78, 0x25, 0x2e, 0x1c, 0xa6, 0xb4, 0xc6, 0xe8, 0xdd, 0x74, 0x1f, 0x4b, 0xbd, 0x8b, 0x8a,
   0x70, 0x3e, 0xb5, 0x66, 0x48, 0x03, 0xf6, 0x0e, 0x61, 0x35, 0x57, 0xb9, 0x86, 0xc1, 0x1d, 0x9e,
   0xe1, 0xf8, 0x98, 0x11, 0x69, 0xd9, 0x8e, 0x94, 0x9b, 0x1e, 0x87, 0xe9, 0xce, 0x55, 0x28, 0xdf,
   0x8c, 0xa1, 0x89, 0x0d, 0xbf, 0xe6, 0x42, 0x68, 0x41, 0x99, 0x2d, 0x0f, 0xb0, 0x54, 0xbb, 0x16]

/-- The table `Rcon[11]` of `testv4.c`. -/
def Rcon : List Nat :=
  [0x8d, 0x01, 0x02, 0x04, 0x08, 0x10, 0x20, 0x40, 0x80, 0x1b, 0x36]

/-- One pass of the first loop of `KeyExpansion(k, K)`:
`k[i*4]=K[i*4]; k[i*4+1]=K[i*4+1]; k[i*4+2]=K[i*4+2]; k[i*4+3]=K[i*4+3];`. -/
def KeyExpansion_copy (K : List Nat) (i : Nat) (k : List Nat) : List Nat :=
  let k := wr k (i * 4) (rd K (i * 4))
  let k := wr k (i * 4 + 1) (rd K (i * 4 + 1))
  let k := wr k (i * 4 + 2) (rd K (i * 4 + 2))
  let k := wr k (i * 4 + 3) (rd K (i * 4 + 3))
  k

/-- One pass of the second loop of `KeyExpansion(k, K)`, for word index `i`. -/
def KeyExpansion_step (i : Nat) (k : List Nat) : List Nat :=
  let l := (i - 1) * 4
  let t0 := rd k l
  let t1 := rd k (l + 1)
  let t2 := rd k (l + 2)
  let t3 := rd k (l + 3)
  let t : Nat × Nat × Nat × Nat :=
    if i % Aes.Nk = 0 then
      let u := t0
      let t0 := t1
      let t1 := t2
      let t2 := t3
      let t3 := u
      let t0 := rd s_box t0
      let t1 := rd s_box t1
      let t2 := rd s_box t2
      let t3 := rd s_box t3
      let t0 := t0 ^^^ rd Rcon (i / Aes.Nk)
      (t0, t1, t2, t3)
    else (t0, t1, t2, t3)
  let j := i * 4
  let l := (i - Aes.Nk) * 4
  let k := wr k j (rd k l ^^^ t.1)
  let k := wr k (j + 1) (rd k (l + 1) ^^^ t.2.1)
  let k := wr k (j + 2) (rd k (l + 2) ^^^ t.2.2.1)
  let k := wr k (j + 3) (rd k (l + 3) ^^^ t.2.2.2)
  k

/-- `void KeyExpansion(uint8_t*k,const uint8_t*K)`: the first argument is the
content of the round-key buffer on entry, the result its content on return. -/
def KeyExpansion (k K : List Nat) : List Nat :=
  let k := forRange 0 Aes.Nk (KeyExpansion_copy K) k
  forRange Aes.Nk (Aes.Nb * (Aes.Nr + 1)) KeyExpansion_step k

/-- `void AddRoundKey(uint8_t r,state_t*s,const uint8_t*Rk)`. -/
def AddRoundKey (r : Nat) (s Rk : List Nat) : List Nat :=
  forRange 0 4 (fun i s =>
    forRange 0 4 (fun j s =>
      Aes.sset s j i (Aes.sget s j i ^^^ rd Rk (r * Aes.Nb * 4 + i * Aes.Nb + j))) s) s

/-- `void SubBytes(state_t*s)`. -/
def SubBytes (s : List Nat) : List Nat :=
  forRange 0 4 (fun i s =>
    forRange 0 4 (fun j s => Aes.sset s j i (rd s_box (Aes.sget s j i))) s) s

/-- `void ShiftRows(state_t*s)` of the `#else` branch. -/
def ShiftRows (s : List Nat) : List Nat :=
  let t := Aes.sget s 1 0
  let s := Aes.sset s 1 0 (Aes.sget s 1 1)
  let s := Aes.sset s 1 1 (Aes.sget s 1 2)
  let s := Aes.sset s 1 2 (Aes.sget s 1 3)
  let s := Aes.sset s 1 3 t
  let t := Aes.sget s 2 0
  let s := Aes.sset s 2 0 (Aes.sget s 2 2)
  let s := Aes.sset s 2 2 t
  let t := Aes.sget s 2 1
  let s := Aes.sset s 2 1 (Aes.sget s 2 3)
  let s := Aes.sset s 2 3 t
  let t := Aes.sget s 3 0
  let s := Aes.sset s 3 0 (Aes.sget s 3 3)
  let s := Aes.sset s 3 3 (Aes.sget s 3 2)
  let s := Aes.sset s 3 2 (Aes.sget s 3 1)
  let s := Aes.sset s 3 1 t
  s

/-- `uint8_t xtime(uint8_t x)`: `return(x<<1)^(((x>>7)&1)*0x1b);`, evaluated in
`int` and converted to `uint8_t`. -/
def xtime (x : Nat) : Nat :=
  ((x <<< 1) ^^^ (((x >>> 7) &&& 1) * 0x1b)) % 256

/-- `void MixColumns(state_t*s)` of the `#else` branch. -/
def MixColumns (s : List Nat) : List Nat :=
  forRange 0 4 (fun i s =>
    let a := Aes.sget s 0 i
    let b := Aes.sget s 1 i
    let c := Aes.sget s 2 i
    let d := Aes.sget s 3 i
    let s := Aes.sset s 0 i (xtime a ^^^ (xtime b ^^^ b) ^^^ c ^^^ d)
    let s := Aes.sset s 1 i (a ^^^ xtime b ^^^ (xtime c ^^^ c) ^^^ d)
    let s := Aes.sset s 2 i (a ^^^ b ^^^ xtime c ^^^ (xtime d ^^^ d))
    let s := Aes.sset s 3 i ((xtime a ^^^ a) ^^^ b ^^^ c ^^^ xtime d)
    s) s

/-- `void aes_encrypt(state_t*s,const uint8_t*Rk)`. -/
def aes_encrypt (s Rk : List Nat) : List Nat :=
  let s := AddRoundKey 0 s Rk
  let s := forRange 1 Aes.Nr (fun r s =>
    let s := SubBytes s
    let s := ShiftRows s
    let s := MixColumns s
    let s := AddRoundKey r s Rk
    s) s
  let s := SubBytes s
  let s := ShiftRows s
  let s := AddRoundKey Aes.Nr s Rk
  s

/-- `void block_to_state(const uint8_t*b,state_t*s)`; the second argument is
the previous content of the state. -/
def block_to_state (b s : List Nat) : List Nat :=
  forRange 0 4 (fun r s =>
    forRange 0 4 (fun c s => Aes.sset s r c (rd b (c * 4 + r))) s) s

/-- `void state_to_block(const state_t*s,uint8_t*b)`; the second argument is
the previous content of the block. -/
def state_to_block (s b : List Nat) : List Nat :=
  forRange 0 4 (fun r b =>
    forRange 0 4 (fun c b => wr b (c * 4 + r) (Aes.sget s r c)) b) b

end AesV4

/-! ## Checked array accesses

Computations in which an array access fails when its index is outside the
array and is recorded otherwise. -/

/-- The arrays whose accesses are checked. -/
inductive Arr where
  | Key
  | RoundKey
  | Rcon
  | s_box
  | state
  | buf
  | data
deriving DecidableEq, Repr

/-- A computation with checked accesses: from the accesses recorded so far to
`none` on an access outside its array, or else to the result and the accesses
recorded. -/
def Chk (α : Type) : Type := List (Arr × Nat) → Option (α × List (Arr × Nat))

/-- Return a value without any access. -/
def Chk.pure {α : Type} (a : α) : Chk α := fun log => some (a, log)

/-- Sequencing: failure of the first computation is failure of the whole. -/
def Chk.bind {α β : Type} (m : Chk α) (f : α → Chk β) : Chk β := fun log =>
  match m log with
  | none => none
  | some (a, log1) => f a log1

instance : Monad Chk where
  pure := Chk.pure
  bind := Chk.bind

/-- Checked read `a[i]` of the array named `n`. -/
def rdc (n : Arr) (a : List Nat) (i : Nat) : Chk Nat := fun log =>
  if i < a.length then some (rd a i, log ++ [(n, i)]) else none

/-- Checked write `a[i] = v` of the array named `n`. -/
def wrc (n : Arr) (a : List Nat) (i : Nat) (v : Nat) : Chk (List Nat) := fun log =>
  if i < a.length then some (wr a i v, log ++ [(n, i)]) else none

/-- The loop `for (i = lo; ...; ++i)` with `n` passes whose body has checked
accesses. -/
def forLoopC {σ : Type} : Nat → Nat → (Nat → σ → Chk σ) → σ → Chk σ
  | 0, _, _, s => Chk.pure s
  | n + 1, lo, body, s => Chk.bind (body lo s) (forLoopC n (lo + 1) body)

/-- The loop `for (i = lo; i < hi; ++i)` whose body has checked accesses. -/
def forRangeC {σ : Type} (lo hi : Nat) (body : Nat → σ → Chk σ) (s : σ) : Chk σ :=
  forLoopC (hi - lo) lo body s

/-- The computation `m` succeeds with result `a` whenever the accesses recorded
so far all satisfy `ok`, and then all accesses recorded afterwards satisfy `ok`. -/
def Chk.Run {α : Type} (ok : Arr × Nat → Prop) (m : Chk α) (a : α) : Prop :=
  ∀ log, (∀ e, e ∈ log → ok e) → ∃ log1, m log = some (a, log1) ∧ ∀ e, e ∈ log1 → ok e

/-! ## AES-128 with checked accesses (`src/aes_dir/aes_filesv2/testv1.c`)

`KeyExpansion` and `AddRoundKey` of `testv1.c` with every access to `Key`,
`RoundKey`, `Rcon`, `s_box` and the state checked. -/

namespace AesChecked

/-- Checked read `(*state)[r][c]`. -/
def sgetc (state : List Nat) (r c : Nat) : Chk Nat := rdc Arr.state state (4 * r + c)

/-- Checked write `(*state)[r][c] = v`. -/
def ssetc (state : List Nat) (r c : Nat) (v : Nat) : Chk (List Nat) :=
  wrc Arr.state state (4 * r + c) v

/-- One pass of the first loop of `KeyExpansion`: copy key word `i`. -/
def KeyExpansion_copy (Key : List Nat) (i : Nat) (RoundKey : List Nat) : Chk (List Nat) := do
  let v ← rdc Arr.Key Key (i * 4 + 0)
  let RoundKey ← wrc Arr.RoundKey RoundKey (i * 4 + 0) v
  let v ← rdc Arr.Key Key (i * 4 + 1)
  let RoundKey ← wrc Arr.RoundKey RoundKey (i * 4 + 1) v
  let v ← rdc Arr.Key Key (i * 4 + 2)
  let RoundKey ← wrc Arr.RoundKey RoundKey (i * 4 + 2) v
  let v ← rdc Arr.Key Key (i * 4 + 3)
  let RoundKey ← wrc Arr.RoundKey RoundKey (i * 4 + 3) v
  pure RoundKey

/-- The body of `if (i % Nk == 0)` in `KeyExpansion`: rotate, substitute
through `s_box`, add `Rcon[i / Nk]`. -/
def KeyExpansion_rot (i : Nat) (tempa0 tempa1 tempa2 tempa3 : Nat) :
    Chk (Nat × Nat × Nat × Nat) := do
  let u8tmp := tempa0
  let t0 := tempa1
  let t1 := tempa2
  let t2 := tempa3
  let t3 := u8tmp
  let t0 ← rdc Arr.s_box Aes.s_box t0
  let t1 ← rdc Arr.s_box Aes.s_box t1
  let t2 ← rdc Arr.s_box Aes.s_box t2
  let t3 ← rdc Arr.s_box Aes.s_box t3
  let r ← rdc Arr.Rcon Aes.Rcon (i / Aes.Nk)
  let t0 := t0 ^^^ r
  pure (t0, t1, t2, t3)

/-- One pass of the second loop of `KeyExpansion`, for word index `i`. -/
def KeyExpansion_step (i : Nat) (RoundKey : List Nat) : Chk (List Nat) := do
  let k := (i - 1) * 4
  let tempa0 ← rdc Arr.RoundKey RoundKey (k + 0)
  let tempa1 ← rdc Arr.RoundKey RoundKey (k + 1)
  let tempa2 ← rdc Arr.RoundKey RoundKey (k + 2)
  let tempa3 ← rdc Arr.RoundKey RoundKey (k + 3)
  let tempa ←
    if i % Aes.Nk = 0 then KeyExpansion_rot i tempa0 tempa1 tempa2 tempa3
    else pure (tempa0, tempa1, tempa2, tempa3)
  let j := i * 4
  let k := (i - Aes.Nk) * 4
  let v ← rdc Arr.RoundKey RoundKey (k + 0)
  let RoundKey ← wrc Arr.RoundKey RoundKey (j + 0) (v ^^^ tempa.1)
  let v ← rdc Arr.RoundKey RoundKey (k + 1)
  let RoundKey ← wrc Arr.RoundKey RoundKey (j + 1) (v ^^^ tempa.2.1)
  let v ← rdc Arr.RoundKey RoundKey (k + 2)
  let RoundKey ← wrc Arr.RoundKey RoundKey (j + 2) (v ^^^ tempa.2.2.1)
  let v ← rdc Arr.RoundKey RoundKey (k + 3)
  let RoundKey ← wrc Arr.RoundKey RoundKey (j + 3) (v ^^^ tempa.2.2.2)
  pure RoundKey

/-- `void KeyExpansion(uint8_t* RoundKey, const uint8_t* Key)` with checked
accesses. -/
def KeyExpansion (RoundKey Key : List Nat) : Chk (List Nat) := do
  let RoundKey ← forRangeC 0 Aes.Nk (KeyExpansion_copy Key) RoundKey
  forRangeC Aes.Nk (Aes.Nb * (Aes.Nr + 1)) KeyExpansion_step RoundKey

/-- The statement `(*state)[j][i] ^= RoundKey[round * Nb * 4 + i * Nb + j];`. -/
def AddRoundKey_cell (round : Nat) (RoundKey : List Nat) (i j : Nat) (state : List Nat) :
    Chk (List Nat) := do
  let k ← rdc Arr.RoundKey RoundKey (round * Aes.Nb * 4 + i * Aes.Nb + j)
  let v ← sgetc state j i
  ssetc state j i (v ^^^ k)

/-- `void AddRoundKey(uint8_t round, state_t* state, const uint8_t* RoundKey)`
with checked accesses. -/
def AddRoundKey (round : Nat) (state RoundKey : List Nat) : Chk (List Nat) :=
  forRangeC 0 4 (fun i state =>
    forRangeC 0 4 (fun j state => AddRoundKey_cell round RoundKey i j state) state) state

end AesChecked

/-! ## SHA-256 with checked accesses (`src/sha_dir/sha_filesv2/testv1.c`)

`sha256_update` and `sha256_final` of `testv1.c` with every access to
`ctx->buf` checked. -/

namespace ShaChecked

/-- The accesses to the `k` elements of the array named `n` from index `off` on. -/
def span (n : Arr) (off k : Nat) : List (Arr × Nat) :=
  (List.range k).map (fun j => (n, off + j))

/-- Checked `memcpy(dst + off, src, k)`, `dst` the array named `n`: it fails
unless the `k` bytes written lie within `dst` and the `k` bytes read within
`src`, and records the accesses to `dst`. -/
def memcpyc (n : Arr) (dst : List Nat) (off : Nat) (src : List Nat) (k : Nat) :
    Chk (List Nat) := fun log =>
  if off + k ≤ dst.length ∧ k ≤ src.length then
    some (Sha.memcpy dst off src k, log ++ span n off k)
  else none

/-- Checked `memset(dst + off, v, k)`, `dst` the array named `n` and the length
`k` given as a signed difference: it fails if `k` is negative or the bytes
written do not lie within `dst`. -/
def memsetc (n : Arr) (dst : List Nat) (off : Nat) (v : Nat) (k : Int) : Chk (List Nat) :=
  fun log =>
    if 0 ≤ k ∧ off + k.toNat ≤ dst.length then
      some (Sha.memset dst off v k.toNat, log ++ span n off k.toNat)
    else none

/-- Checked read of the 64-byte block that `sha256_transform(ctx, a)` reads at
the start of the array named `n`. -/
def blockc (n : Arr) (a : List Nat) : Chk (List Nat) := fun log =>
  if Sha.SHA256_BLOCK_SIZE ≤ a.length then
    some (a, log ++ span n 0 Sha.SHA256_BLOCK_SIZE)
  else none

/-- The part of `sha256_update` after the partial block has been dealt with. -/
def sha256_update_rest (ext : Bool) (ctx : Sha.sha256_ctx) (data : List Nat) :
    Chk Sha.sha256_ctx := do
  let r := Sha.sha256_update_loop ext data.length ctx data
  let ctx := r.1
  let data := r.2
  if data.length > 0 then do
    let buf ← memcpyc Arr.buf ctx.buf 0 data data.length
    pure { ctx with buf := buf }
  else pure ctx

/-- `void sha256_update(sha256_ctx *ctx, const uint8_t *data, size_t len)` with
checked accesses to `ctx->buf`. -/
def sha256_update (ext : Bool) (ctx : Sha.sha256_ctx) (data : List Nat) :
    Chk Sha.sha256_ctx := do
  let len := data.length
  let buffer_bytes := ctx.len % Sha.SHA256_BLOCK_SIZE
  let ctx := { ctx with len := (ctx.len + len) % 2 ^ 64 }
  if buffer_bytes > 0 then
    let to_fill := Sha.SHA256_BLOCK_SIZE - buffer_bytes
    if len < to_fill then do
      let buf ← memcpyc Arr.buf ctx.buf buffer_bytes data len
      pure { ctx with buf := buf }
    else do
      let buf ← memcpyc Arr.buf ctx.buf buffer_bytes data to_fill
      let ctx := { ctx with buf := buf }
      let block ← blockc Arr.buf ctx.buf
      let ctx := Sha.sha256_transform ext ctx block
      sha256_update_rest ext ctx (data.drop to_fill)
  else sha256_update_rest ext ctx data

/-- The padding branch of `sha256_final`, from the context in which the byte
`0x80` has been stored and the incremented `buffer_bytes`. -/
def sha256_final_pad (ext : Bool) (ctx : Sha.sha256_ctx) (buffer_bytes : Nat) :
    Chk Sha.sha256_ctx :=
  if buffer_bytes > Sha.SHA256_BLOCK_SIZE - 8 then do
    let buf ← memsetc Arr.buf ctx.buf buffer_bytes 0
      ((Sha.SHA256_BLOCK_SIZE : Int) - (buffer_bytes : Int))
    let ctx := { ctx with buf := buf }
    let block ← blockc Arr.buf ctx.buf
    let ctx := Sha.sha256_transform ext ctx block
    let buf ← memsetc Arr.buf ctx.buf 0 0 (Sha.SHA256_BLOCK_SIZE : Int)
    pure { ctx with buf := buf }
  else do
    let buf ← memsetc Arr.buf ctx.buf buffer_bytes 0
      ((Sha.SHA256_BLOCK_SIZE : Int) - (buffer_bytes : Int))
    pure { ctx with buf := buf }

/-- The part of `sha256_final` after the padding: store the bit length, run
the last transform and write the digest. -/
def sha256_final_tail (ext : Bool) (ctx : Sha.sha256_ctx) (digest0 : List Nat) :
    Chk (Sha.sha256_ctx × List Nat) := do
  let bit_len := Sha.bswap_64 ((ctx.len * 8) % 2 ^ 64)
  let buf ← memcpyc Arr.buf ctx.buf (Sha.SHA256_BLOCK_SIZE - 8) (Sha.bytes64 bit_len) 8
  let ctx := { ctx with buf := buf }
  let block ← blockc Arr.buf ctx.buf
  let ctx := Sha.sha256_transform ext ctx block
  let digest := forRange 0 8 (fun i digest =>
    Sha.memcpy digest (4 * i) (Sha.bytes32 (Sha.bswap_32 (rd ctx.h i))) 4) digest0
  pure (ctx, digest)

/-- `void sha256_final(sha256_ctx *ctx, uint8_t *digest)` with checked accesses
to `ctx->buf`. -/
def sha256_final (ext : Bool) (ctx : Sha.sha256_ctx) (digest0 : List Nat) :
    Chk (Sha.sha256_ctx × List Nat) := do
  let buffer_bytes := ctx.len % Sha.SHA256_BLOCK_SIZE
  let buf ← wrc Arr.buf ctx.buf buffer_bytes 0x80
  let ctx := { ctx with buf := buf }
  let buffer_bytes := buffer_bytes + 1
  let ctx ← sha256_final_pad ext ctx buffer_bytes
  sha256_final_tail ext ctx digest0

end ShaChecked

end Riscv

/-! # Verified properties -/

namespace Riscv

/-! ## Loops and arrays -/

theorem forLoop_succ_last {σ : Type} (n lo : Nat) (body : Nat → σ → σ) (s : σ) :
    forLoop (n + 1) lo body s = body (lo + n) (forLoop n lo body s) := by
  induction n generalizing lo s with
  | zero => rfl
  | succ n ih =>
    show forLoop (n + 1) (lo + 1) body (body lo s) = _
    rw [ih]
    have h : lo + 1 + n = lo + (n + 1) := by omega
    rw [h]
    rfl

theorem length_wr (a : List Nat) (i v : Nat) : (wr a i v).length = a.length := by
  simp [wr]

theorem rd_wr (a : List Nat) (i v j : Nat) :
    rd (wr a i v) j = if j = i ∧ i < a.length then v else rd a j := by
  unfold rd wr
  by_cases hji : j = i
  · subst hji
    by_cases hl : j < a.length
    · simp [hl, List.getD_eq_getElem?_getD]
    · have hl2 : a.length ≤ j := by omega
      simp [hl, List.getD_eq_getElem?_getD, List.getElem?_eq_none, hl2]
  · have hij : i ≠ j := fun h => hji h.symm
    simp [hji, List.getD_eq_getElem?_getD, List.getElem?_set_ne hij]

theorem rd_wr_ne (a : List Nat) (i v j : Nat) (h : j ≠ i) : rd (wr a i v) j = rd a j := by
  rw [rd_wr]; simp [h]

theorem rd_wr_eq (a : List Nat) (i v : Nat) (h : i < a.length) : rd (wr a i v) i = v := by
  rw [rd_wr]; simp [h]

theorem rd_take (a : List Nat) (n j : Nat) (h : j < n) : rd (a.take n) j = rd a j := by
  simp [rd, List.getD_eq_getElem?_getD, List.getElem?_take, h]

theorem eq_of_rd_eq (a b : List Nat) (hl : a.length = b.length)
    (h : ∀ j, j < a.length → rd a j = rd b j) : a = b := by
  apply List.ext_getElem hl
  intro j h1 h2
  have := h j h1
  simpa [rd, List.getD_eq_getElem?_getD, List.getElem?_eq_getElem h1, List.getElem?_eq_getElem h2] using this

theorem exists_cons_of_length_succ (l : List Nat) (n : Nat) (h : l.length = n + 1) :
    ∃ a t, l = a :: t ∧ t.length = n := by
  cases l with
  | nil => simp at h
  | cons a t => exact ⟨a, t, rfl, by simpa using h⟩

/-! ## AES-128 key schedule -/

namespace Aes

theorem length_KeyExpansion_step (i : Nat) (rk : List Nat) :
    (KeyExpansion_step i rk).length = rk.length := by
  simp [KeyExpansion_step, length_wr]

theorem rd_KeyExpansion_step_lt (i j : Nat) (rk : List Nat) (h : j < 4 * i) :
    rd (KeyExpansion_step i rk) j = rd rk j := by
  simp only [KeyExpansion_step]
  rw [rd_wr_ne _ _ _ _ (by omega), rd_wr_ne _ _ _ _ (by omega), rd_wr_ne _ _ _ _ (by omega),
    rd_wr_ne _ _ _ _ (by omega)]

theorem word_KeyExpansion_step_lt (i n : Nat) (rk : List Nat) (h : i < n) :
    word (KeyExpansion_step n rk) i = word rk i := by
  simp only [word]
  rw [rd_KeyExpansion_step_lt _ _ _ (by omega), rd_KeyExpansion_step_lt _ _ _ (by omega),
    rd_KeyExpansion_step_lt _ _ _ (by omega), rd_KeyExpansion_step_lt _ _ _ (by omega)]

theorem word_KeyExpansion_step_self (n : Nat) (rk : List Nat)
    (hl : 4 * n + 4 ≤ rk.length) :
    word (KeyExpansion_step n rk) n = xorWord (word rk (n - 4)) (sched_temp rk n) := by
  have e0 : n * 4 + 0 = 4 * n := by omega
  have e1 : n * 4 + 1 = 4 * n + 1 := by omega
  have e2 : n * 4 + 2 = 4 * n + 2 := by omega
  have e3 : n * 4 + 3 = 4 * n + 3 := by omega
  have k0 : (n - 4) * 4 + 0 = 4 * (n - 4) := by omega
  have k1 : (n - 4) * 4 + 1 = 4 * (n - 4) + 1 := by omega
  have k2 : (n - 4) * 4 + 2 = 4 * (n - 4) + 2 := by omega
  have k3 : (n - 4) * 4 + 3 = 4 * (n - 4) + 3 := by omega
  have p0 : (n - 1) * 4 + 0 = 4 * (n - 1) := by omega
  have p1 : (n - 1) * 4 + 1 = 4 * (n - 1) + 1 := by omega
  have p2 : (n - 1) * 4 + 2 = 4 * (n - 1) + 2 := by omega
  have p3 : (n - 1) * 4 + 3 = 4 * (n - 1) + 3 := by omega
  simp only [KeyExpansion_step, word, Nk, e0, e1, e2, e3, k0, k1, k2, k3, p0, p1, p2, p3]
  simp (disch := (first | omega | (simp only [length_wr]; omega))) only [rd_wr_ne, rd_wr_eq]
  by_cases hm : n % 4 = 0
  · simp only [hm, if_true, sched_temp, xorWord, xorRcon, SubWord, RotWord, word, List.map,
      List.zipWith, wr, List.set]
    simp only [rd, List.getD_cons_zero, List.getD_cons_succ]
  · simp only [hm, if_false, sched_temp, xorWord, word, List.zipWith]

theorem sched_temp_congr (a b : List Nat) (i : Nat) (h : word a (i - 1) = word b (i - 1)) :
    sched_temp a i = sched_temp b i := by
  simp only [sched_temp, h]

theorem agreeW_step (n : Nat) (a b : List Nat) (h1 : 1 ≤ n) (ha : 4 * n + 4 ≤ a.length)
    (hb : 4 * n + 4 ≤ b.length) (h : agreeW n a b) :
    agreeW (n + 1) (KeyExpansion_step n a) (KeyExpansion_step n b) := by
  intro i hi
  by_cases hlt : i < n
  · rw [word_KeyExpansion_step_lt _ _ _ hlt, word_KeyExpansion_step_lt _ _ _ hlt]
    exact h i hlt
  · have hin : i = n := by omega
    subst hin
    rw [word_KeyExpansion_step_self _ _ ha, word_KeyExpansion_step_self _ _ hb,
      h (i - 4) (by omega), sched_temp_congr a b i (h (i - 1) (by omega))]

theorem length_forLoop_step (c lo : Nat) (a : List Nat) :
    (forLoop c lo KeyExpansion_step a).length = a.length := by
  induction c generalizing lo a with
  | zero => rfl
  | succ c ih =>
    show (forLoop c (lo + 1) KeyExpansion_step (KeyExpansion_step lo a)).length = _
    rw [ih, length_KeyExpansion_step]

theorem agreeW_forLoop (c lo : Nat) (a b : List Nat) (h1 : 1 ≤ lo)
    (ha : 4 * (lo + c) ≤ a.length) (hb : 4 * (lo + c) ≤ b.length) (h : agreeW lo a b) :
    agreeW (lo + c) (forLoop c lo KeyExpansion_step a) (forLoop c lo KeyExpansion_step b) := by
  induction c with
  | zero => exact h
  | succ c ih =>
    rw [forLoop_succ_last, forLoop_succ_last]
    have h2 := ih (by omega) (by omega)
    exact agreeW_step (lo + c) _ _ (by omega)
      (by rw [length_forLoop_step]; omega) (by rw [length_forLoop_step]; omega) h2

theorem length_KeyExpansion_copy (key : List Nat) (i : Nat) (rk : List Nat) :
    (KeyExpansion_copy key i rk).length = rk.length := by
  simp [KeyExpansion_copy, length_wr]

theorem length_copy_loop (key rk : List Nat) :
    (forRange 0 Nk (KeyExpansion_copy key) rk).length = rk.length := by
  simp [forRange, forLoop, Nk, length_KeyExpansion_copy]

theorem rd_copy_loop (key rk : List Nat) (hl : 16 ≤ rk.length) (j : Nat) (hj : j < 16) :
    rd (forRange 0 Nk (KeyExpansion_copy key) rk) j = rd key j := by
  simp only [forRange, forLoop, Nk, KeyExpansion_copy]
  interval_cases j <;>
    simp (disch := (first | omega | (simp only [length_wr]; omega))) only [rd_wr_ne, rd_wr_eq]

theorem length_KeyExpansion (rk key : List Nat) : (KeyExpansion rk key).length = rk.length := by
  simp only [KeyExpansion, forRange, length_forLoop_step]
  exact length_copy_loop key rk

theorem rd_forLoop_step_lt (c lo j : Nat) (a : List Nat) (h : j < 4 * lo) :
    rd (forLoop c lo KeyExpansion_step a) j = rd a j := by
  induction c with
  | zero => rfl
  | succ c ih =>
    rw [forLoop_succ_last, rd_KeyExpansion_step_lt _ _ _ (by omega), ih]

theorem rd_KeyExpansion_lt (rk key : List Nat) (hl : 16 ≤ rk.length) (j : Nat) (hj : j < 16) :
    rd (KeyExpansion rk key) j = rd key j := by
  simp only [KeyExpansion, forRange]
  rw [rd_forLoop_step_lt _ _ _ _ (by simp only [Nk]; omega)]
  exact rd_copy_loop key rk hl j hj

theorem eq_of_agreeW (m : Nat) (a b : List Nat) (ha : a.length = 4 * m) (hb : b.length = 4 * m)
    (h : agreeW m a b) : a = b := by
  apply eq_of_rd_eq a b (by omega)
  intro j hj
  have hw := h (j / 4) (by omega)
  simp only [word, List.cons.injEq, and_true] at hw
  obtain ⟨h0, h1, h2, h3⟩ := hw
  have hcases : j = 4 * (j / 4) ∨ j = 4 * (j / 4) + 1 ∨ j = 4 * (j / 4) + 2 ∨
      j = 4 * (j / 4) + 3 := by omega
  rcases hcases with e | e | e | e <;> rw [e] <;> assumption

theorem KeyExpansion_indep (rk rk2 key : List Nat) (h1 : rk.length = 176)
    (h2 : rk2.length = 176) : KeyExpansion rk key = KeyExpansion rk2 key := by
  apply eq_of_agreeW 44 _ _ (by rw [length_KeyExpansion]; omega)
    (by rw [length_KeyExpansion]; omega)
  simp only [KeyExpansion, forRange]
  have h := agreeW_forLoop 40 4 (forRange 0 Nk (KeyExpansion_copy key) rk)
    (forRange 0 Nk (KeyExpansion_copy key) rk2) (by omega)
    (by rw [length_copy_loop]; omega) (by rw [length_copy_loop]; omega)
    (by
      intro i hi
      simp only [word]
      rw [rd_copy_loop _ _ (by omega) _ (by omega), rd_copy_loop _ _ (by omega) _ (by omega),
        rd_copy_loop _ _ (by omega) _ (by omega), rd_copy_loop _ _ (by omega) _ (by omega),
        rd_copy_loop _ _ (by omega) _ (by omega), rd_copy_loop _ _ (by omega) _ (by omega),
        rd_copy_loop _ _ (by omega) _ (by omega), rd_copy_loop _ _ (by omega) _ (by omega)])
  exact h

theorem schedOk_step (n : Nat) (a : List Nat) (h4 : 4 ≤ n) (ha : 4 * n + 4 ≤ a.length)
    (h : schedOk n a) : schedOk (n + 1) (KeyExpansion_step n a) := by
  intro i hi4 hi
  have e1 : word (KeyExpansion_step n a) (i - 4) = word a (i - 4) :=
    word_KeyExpansion_step_lt _ _ _ (by omega)
  have e2 : sched_temp (KeyExpansion_step n a) i = sched_temp a i :=
    sched_temp_congr _ _ _ (word_KeyExpansion_step_lt _ _ _ (by omega))
  rw [e1, e2]
  by_cases hlt : i < n
  · rw [word_KeyExpansion_step_lt _ _ _ hlt]
    exact h i hi4 hlt
  · have hin : i = n := by omega
    subst hin
    exact word_KeyExpansion_step_self _ _ ha

theorem schedOk_forLoop (c : Nat) (a : List Nat) (ha : 4 * (4 + c) ≤ a.length) :
    schedOk (4 + c) (forLoop c 4 KeyExpansion_step a) := by
  induction c with
  | zero => intro i h1 h2; omega
  | succ c ih =>
    rw [forLoop_succ_last]
    exact schedOk_step (4 + c) _ (by omega) (by rw [length_forLoop_step]; omega) (ih (by omega))

theorem schedOk_KeyExpansion (rk key : List Nat) (h : rk.length = 176) :
    schedOk 44 (KeyExpansion rk key) := by
  have hl := length_copy_loop key rk
  exact schedOk_forLoop 40 (forRange 0 Nk (KeyExpansion_copy key) rk) (by omega)

/-! ## AES-128: buffers of `main` -/

theorem length_sixteen (l : List Nat) (h : l.length = 16) :
    ∃ a0 a1 a2 a3 a4 a5 a6 a7 a8 a9 a10 a11 a12 a13 a14 a15 : Nat,
      l = [a0, a1, a2, a3, a4, a5, a6, a7, a8, a9, a10, a11, a12, a13, a14, a15] := by
  obtain ⟨a0, l1, e1, h1⟩ := exists_cons_of_length_succ l 15 h
  obtain ⟨a1, l2, e2, h2⟩ := exists_cons_of_length_succ l1 14 h1
  obtain ⟨a2, l3, e3, h3⟩ := exists_cons_of_length_succ l2 13 h2
  obtain ⟨a3, l4, e4, h4⟩ := exists_cons_of_length_succ l3 12 h3
  obtain ⟨a4, l5, e5, h5⟩ := exists_cons_of_length_succ l4 11 h4
  obtain ⟨a5, l6, e6, h6⟩ := exists_cons_of_length_succ l5 10 h5
  obtain ⟨a6, l7, e7, h7⟩ := exists_cons_of_length_succ l6 9 h6
  obtain ⟨a7, l8, e8, h8⟩ := exists_cons_of_length_succ l7 8 h7
  obtain ⟨a8, l9, e9, h9⟩ := exists_cons_of_length_succ l8 7 h8
  obtain ⟨a9, l10, e10, h10⟩ := exists_cons_of_length_succ l9 6 h9
  obtain ⟨a10, l11, e11, h11⟩ := exists_cons_of_length_succ l10 5 h10
  obtain ⟨a11, l12, e12, h12⟩ := exists_cons_of_length_succ l11 4 h11
  obtain ⟨a12, l13, e13, h13⟩ := exists_cons_of_length_succ l12 3 h12
  obtain ⟨a13, l14, e14, h14⟩ := exists_cons_of_length_succ l13 2 h13
  obtain ⟨a14, l15, e15, h15⟩ := exists_cons_of_length_succ l14 1 h14
  obtain ⟨a15, l16, e16, h16⟩ := exists_cons_of_length_succ l15 0 h15
  subst e16 e15 e14 e13 e12 e11 e10 e9 e8 e7 e6 e5 e4 e3 e2 e1
  cases l16 with
  | nil => exact ⟨a0, a1, a2, a3, a4, a5, a6, a7, a8, a9, a10, a11, a12, a13, a14, a15, rfl⟩
  | cons a t => simp at h16

theorem load_state_eq (st inp : List Nat) (h : st.length = 16) :
    load_state st inp =
      [rd inp 0, rd inp 4, rd inp 8, rd inp 12, rd inp 1, rd inp 5, rd inp 9, rd inp 13,
       rd inp 2, rd inp 6, rd inp 10, rd inp 14, rd inp 3, rd inp 7, rd inp 11, rd inp 15] := by
  obtain ⟨a0, a1, a2, a3, a4, a5, a6, a7, a8, a9, a10, a11, a12, a13, a14, a15, rfl⟩ :=
    length_sixteen st h
  rfl

theorem store_state_eq (out state : List Nat) (h : out.length = 16) :
    store_state out state =
      [sget state 0 0, sget state 1 0, sget state 2 0, sget state 3 0,
       sget state 0 1, sget state 1 1, sget state 2 1, sget state 3 1,
       sget state 0 2, sget state 1 2, sget state 2 2, sget state 3 2,
       sget state 0 3, sget state 1 3, sget state 2 3, sget state 3 3] := by
  obtain ⟨a0, a1, a2, a3, a4, a5, a6, a7, a8, a9, a10, a11, a12, a13, a14, a15, rfl⟩ :=
    length_sixteen out h
  rfl

theorem encrypt_block_indep (accel : Bool) (rk0 st0 out0 rk1 st1 out1 key inp : List Nat)
    (hrk0 : rk0.length = 176) (hst0 : st0.length = 16) (hout0 : out0.length = 16)
    (hrk1 : rk1.length = 176) (hst1 : st1.length = 16) (hout1 : out1.length = 16) :
    encrypt_block accel rk0 st0 out0 key inp = encrypt_block accel rk1 st1 out1 key inp := by
  simp only [encrypt_block]
  rw [KeyExpansion_indep rk0 rk1 key hrk0 hrk1, load_state_eq st0 inp hst0,
    load_state_eq st1 inp hst1, store_state_eq out0 _ hout0, store_state_eq out1 _ hout1]

/-! ## AES-128: the round structure -/

theorem forRange_one_ten {σ : Type} (body : Nat → σ → σ) (s : σ) :
    forRange 1 10 body s =
      body 9 (body 8 (body 7 (body 6 (body 5 (body 4 (body 3 (body 2 (body 1 s)))))))) := rfl

theorem round_body_eq (RoundKey : List Nat) (r : Nat) (state : List Nat) :
    AddRoundKey r (MixColumns false (ShiftRows false (SubBytes state))) RoundKey
      = full_round RoundKey r state := by
  simp only [full_round, ShiftRows, MixColumns, Bool.false_eq_true, if_false]

theorem aes_encrypt_unfold (accel : Bool) (state RoundKey : List Nat) :
    aes_encrypt accel state RoundKey =
      AddRoundKey 10 (ShiftRows accel (SubBytes
        (forRange 1 10 (fun round state =>
          AddRoundKey round (MixColumns accel (ShiftRows accel (SubBytes state))) RoundKey)
          (AddRoundKey 0 state RoundKey)))) RoundKey := by
  unfold aes_encrypt
  rfl

/-! ## AES-128: the claims -/

/-- C1. In the build without `USE_RISCV_ACCEL`, whatever the local arrays of
`main` hold beforehand, expanding the key `2b7e1516 28aed2a6 abf71588 09cf4f3c`,
loading the state column-major from the plaintext `3243f6a8 885a308d 313198a2
e0370734`, encrypting and reading the state back column-major yields the
ciphertext `3925841d 02dc09fb dc118597 196a0b32`. -/
theorem baseline_known_answer (rk0 st0 out0 : List Nat) (hrk : rk0.length = 176)
    (hst : st0.length = 16) (hout : out0.length = 16) :
    encrypt_block false rk0 st0 out0 main_key main_in = main_expected := by
  rw [encrypt_block_indep false rk0 st0 out0 (List.replicate 176 0) (List.replicate 16 0)
    (List.replicate 16 0) main_key main_in hrk hst hout (List.length_replicate _ _)
    (List.length_replicate _ _) (List.length_replicate _ _)]
  decide!

theorem baseline_known_answer_witness :
    encrypt_block false (List.replicate 176 7) (List.replicate 16 9) (List.replicate 16 5)
      main_key main_in = main_expected :=
  baseline_known_answer _ _ _ (List.length_replicate _ _) (List.length_replicate _ _)
    (List.length_replicate _ _)

/-- C2. For every state and every round-key array, the baseline `aes_encrypt`
is the FIPS-197 Cipher for `Nr = 10`: AddRoundKey with round 0, then for rounds
1 to 9 in order SubBytes, ShiftRows, MixColumns, AddRoundKey, then a final
round SubBytes, ShiftRows, AddRoundKey(10) without MixColumns. -/
theorem aes_encrypt_eq_Cipher (state RoundKey : List Nat) :
    aes_encrypt false state RoundKey = Cipher state RoundKey := by
  rw [aes_encrypt_unfold, forRange_one_ten]
  simp only [round_body_eq]
  unfold Cipher final_round
  simp only [ShiftRows, Bool.false_eq_true, if_false]

/-- C3 (evaluation at the failing input). On the round keys and the state that
`main` builds from its key and plaintext, `aes_encrypt` of the build with
`USE_RISCV_ACCEL` leaves a state different from that of the baseline build; the
ciphertext read back is `b0eb06a8 ef11da8d 40c0b2a1 73ee8223`, not the
`expected` array that `main` compares it with. -/
theorem accel_known_answer_fails :
    aes_encrypt true (load_state (List.replicate 16 0) main_in)
        (KeyExpansion (List.replicate 176 0) main_key)
      ≠ aes_encrypt false (load_state (List.replicate 16 0) main_in)
        (KeyExpansion (List.replicate 176 0) main_key)
    ∧ encrypt_block true (List.replicate 176 0) (List.replicate 16 0) (List.replicate 16 0)
        main_key main_in
      = [0xb0, 0xeb, 0x06, 0xa8, 0xef, 0x11, 0xda, 0x8d, 0x40, 0xc0, 0xb2, 0xa1, 0x73, 0xee, 0x82,
         0x23]
    ∧ encrypt_block true (List.replicate 176 0) (List.replicate 16 0) (List.replicate 16 0)
        main_key main_in ≠ main_expected := by
  decide!

/-- C8. For every key and every 176-byte buffer, the words `w[i]` of the
schedule written by `KeyExpansion` satisfy, for `4 ≤ i < 44`,
`w[i] = w[i-4] xor t`, with `t = w[i-1]` when `i mod 4 ≠ 0` and otherwise
`w[i-1]` rotated left by one byte, substituted bytewise through the S-box and
its first byte xored with `Rcon[i/4]`; and `Rcon[1] = 0x01`,
`Rcon[j+1] = xtime(Rcon[j])` for `j = 1..9`. -/
theorem KeyExpansion_recurrence (rk0 key : List Nat) (hrk : rk0.length = 176) :
    (∀ i, 4 ≤ i → i < 44 →
      word (KeyExpansion rk0 key) i =
        xorWord (word (KeyExpansion rk0 key) (i - 4))
          (if i % 4 = 0 then
            xorRcon (SubWord (RotWord (word (KeyExpansion rk0 key) (i - 1)))) (i / 4)
           else word (KeyExpansion rk0 key) (i - 1)))
    ∧ rd Rcon 1 = 0x01
    ∧ (∀ j, 1 ≤ j → j ≤ 9 → rd Rcon (j + 1) = Baseline.xtime (rd Rcon j)) := by
  refine ⟨?_, by decide, ?_⟩
  · intro i h4 h44
    exact schedOk_KeyExpansion rk0 key hrk i h4 h44
  · intro j h1 h9
    interval_cases j <;> decide

theorem KeyExpansion_recurrence_witness :
    (∀ i, 4 ≤ i → i < 44 →
      word (KeyExpansion (List.replicate 176 0) main_key) i =
        xorWord (word (KeyExpansion (List.replicate 176 0) main_key) (i - 4))
          (if i % 4 = 0 then
            xorRcon (SubWord (RotWord (word (KeyExpansion (List.replicate 176 0) main_key)
              (i - 1)))) (i / 4)
           else word (KeyExpansion (List.replicate 176 0) main_key) (i - 1)))
    ∧ rd Rcon 1 = 0x01
    ∧ (∀ j, 1 ≤ j → j ≤ 9 → rd Rcon (j + 1) = Baseline.xtime (rd Rcon j)) :=
  KeyExpansion_recurrence (List.replicate 176 0) main_key (List.length_replicate _ _)

/-- C9. For every 16-byte key, bytes 0..15 of the schedule written by
`KeyExpansion` into a 176-byte buffer are the key itself; so the schedules of
two distinct keys differ at some index below 16. -/
theorem KeyExpansion_prefix (rk0 rk1 key key2 : List Nat) (hrk0 : rk0.length = 176)
    (hrk1 : rk1.length = 176) (hkey : key.length = 16) (hkey2 : key2.length = 16) :
    (KeyExpansion rk0 key).take 16 = key
    ∧ (key ≠ key2 → ∃ i, i < 16 ∧ rd (KeyExpansion rk0 key) i ≠ rd (KeyExpansion rk1 key2) i) := by
  constructor
  · apply eq_of_rd_eq
    · rw [List.length_take, length_KeyExpansion]; omega
    · intro j hj
      rw [List.length_take, length_KeyExpansion] at hj
      rw [rd_take _ _ _ (by omega), rd_KeyExpansion_lt _ _ (by omega) _ (by omega)]
  · intro hne
    by_contra hcon
    apply hne
    apply eq_of_rd_eq _ _ (by omega)
    intro j hj
    have h1 : rd (KeyExpansion rk0 key) j = rd (KeyExpansion rk1 key2) j := by
      by_contra h
      exact hcon ⟨j, by omega, h⟩
    rw [rd_KeyExpansion_lt _ _ (by omega) _ (by omega),
      rd_KeyExpansion_lt _ _ (by omega) _ (by omega)] at h1
    exact h1

theorem KeyExpansion_prefix_witness :
    (KeyExpansion (List.replicate 176 0) main_key).take 16 = main_key
    ∧ (main_key ≠ main_in → ∃ i, i < 16 ∧
        rd (KeyExpansion (List.replicate 176 0) main_key) i
          ≠ rd (KeyExpansion (List.replicate 176 1) main_in) i) :=
  KeyExpansion_prefix (List.replicate 176 0) (List.replicate 176 1) main_key main_in
    (List.length_replicate _ _) (List.length_replicate _ _) (by decide) (by decide)

/-- C10. `KeyExpansion` is a function of the key alone: for every key and any
two initial contents of the 176-byte `RoundKey` buffer the resulting buffers
are identical, and 176 bytes long. -/
theorem KeyExpansion_pure (rk0 rk1 key : List Nat) (hrk0 : rk0.length = 176)
    (hrk1 : rk1.length = 176) :
    KeyExpansion rk0 key = KeyExpansion rk1 key ∧ (KeyExpansion rk0 key).length = 176 :=
  ⟨KeyExpansion_indep rk0 rk1 key hrk0 hrk1, by rw [length_KeyExpansion]; exact hrk0⟩

theorem KeyExpansion_pure_witness :
    KeyExpansion (List.replicate 176 0) main_key = KeyExpansion (List.replicate 176 255) main_key
    ∧ (KeyExpansion (List.replicate 176 0) main_key).length = 176 :=
  KeyExpansion_pure (List.replicate 176 0) (List.replicate 176 255) main_key
    (List.length_replicate _ _) (List.length_replicate _ _)

end Aes

/-! ## SHA-256: output buffer and blocks -/

namespace Sha

theorem length_thirty_two (l : List Nat) (h : l.length = 32) :
    ∃ a0 a1 a2 a3 a4 a5 a6 a7 a8 a9 a10 a11 a12 a13 a14 a15 a16 a17 a18 a19 a20 a21 a22 a23 a24 a25 a26 a27 a28 a29 a30 a31 : Nat,
      l = [a0, a1, a2, a3, a4, a5, a6, a7, a8, a9, a10, a11, a12, a13, a14, a15, a16, a17, a18, a19, a20, a21, a22, a23, a24, a25, a26, a27, a28, a29, a30, a31] := by
  obtain ⟨a0, l1, e1, h1⟩ := exists_cons_of_length_succ l 31 h
  obtain ⟨a1, l2, e2, h2⟩ := exists_cons_of_length_succ l1 30 h1
  obtain ⟨a2, l3, e3, h3⟩ := exists_cons_of_length_succ l2 29 h2
  obtain ⟨a3, l4, e4, h4⟩ := exists_cons_of_length_succ l3 28 h3
  obtain ⟨a4, l5, e5, h5⟩ := exists_cons_of_length_succ l4 27 h4
  obtain ⟨a5, l6, e6, h6⟩ := exists_cons_of_length_succ l5 26 h5
  obtain ⟨a6, l7, e7, h7⟩ := exists_cons_of_length_succ l6 25 h6
  obtain ⟨a7, l8, e8, h8⟩ := exists_cons_of_length_succ l7 24 h7
  obtain ⟨a8, l9, e9, h9⟩ := exists_cons_of_length_succ l8 23 h8
  obtain ⟨a9, l10, e10, h10⟩ := exists_cons_of_length_succ l9 22 h9
  obtain ⟨a10, l11, e11, h11⟩ := exists_cons_of_length_succ l10 21 h10
  obtain ⟨a11, l12, e12, h12⟩ := exists_cons_of_length_succ l11 20 h11
  obtain ⟨a12, l13, e13, h13⟩ := exists_cons_of_length_succ l12 19 h12
  obtain ⟨a13, l14, e14, h14⟩ := exists_cons_of_length_succ l13 18 h13
  obtain ⟨a14, l15, e15, h15⟩ := exists_cons_of_length_succ l14 17 h14
  obtain ⟨a15, l16, e16, h16⟩ := exists_cons_of_length_succ l15 16 h15
  obtain ⟨a16, l17, e17, h17⟩ := exists_cons_of_length_succ l16 15 h16
  obtain ⟨a17, l18, e18, h18⟩ := exists_cons_of_length_succ l17 14 h17
  obtain ⟨a18, l19, e19, h19⟩ := exists_cons_of_length_succ l18 13 h18
  obtain ⟨a19, l20, e20, h20⟩ := exists_cons_of_length_succ l19 12 h19
  obtain ⟨a20, l21, e21, h21⟩ := exists_cons_of_length_succ l20 11 h20
  obtain ⟨a21, l22, e22, h22⟩ := exists_cons_of_length_succ l21 10 h21
  obtain ⟨a22, l23, e23, h23⟩ := exists_cons_of_length_succ l22 9 h22
  obtain ⟨a23, l24, e24, h24⟩ := exists_cons_of_length_succ l23 8 h23
  obtain ⟨a24, l25, e25, h25⟩ := exists_cons_of_length_succ l24 7 h24
  obtain ⟨a25, l26, e26, h26⟩ := exists_cons_of_length_succ l25 6 h25
  obtain ⟨a26, l27, e27, h27⟩ := exists_cons_of_length_succ l26 5 h26
  obtain ⟨a27, l28, e28, h28⟩ := exists_cons_of_length_succ l27 4 h27
  obtain ⟨a28, l29, e29, h29⟩ := exists_cons_of_length_succ l28 3 h28
  obtain ⟨a29, l30, e30, h30⟩ := exists_cons_of_length_succ l29 2 h29
  obtain ⟨a30, l31, e31, h31⟩ := exists_cons_of_length_succ l30 1 h30
  obtain ⟨a31, l32, e32, h32⟩ := exists_cons_of_length_succ l31 0 h31
  subst e32 e31 e30 e29 e28 e27 e26 e25 e24 e23 e22 e21 e20 e19 e18 e17 e16 e15 e14 e13 e12 e11 e10 e9 e8 e7 e6 e5 e4 e3 e2 e1
  cases l32 with
  | nil => exact ⟨a0, a1, a2, a3, a4, a5, a6, a7, a8, a9, a10, a11, a12, a13, a14, a15, a16, a17, a18, a19, a20, a21, a22, a23, a24, a25, a26, a27, a28, a29, a30, a31, rfl⟩
  | cons a t => simp at h32

theorem store_digest_eq (f : Nat → Nat) (d : List Nat) (hd : d.length = 32) :
    forRange 0 8 (fun i digest => memcpy digest (4 * i) (bytes32 (f i)) 4) d
      = bytes32 (f 0) ++ bytes32 (f 1) ++ bytes32 (f 2) ++ bytes32 (f 3) ++ bytes32 (f 4)
        ++ bytes32 (f 5) ++ bytes32 (f 6) ++ bytes32 (f 7) := by
  obtain ⟨a0, a1, a2, a3, a4, a5, a6, a7, a8, a9, a10, a11, a12, a13, a14, a15, a16, a17, a18, a19, a20, a21, a22, a23, a24, a25, a26, a27, a28, a29, a30, a31, rfl⟩ := length_thirty_two d hd
  simp [forRange, forLoop, memcpy, bytes32]

theorem full_blocks_of_lt (m : List Nat) (h : m.length < 64) : full_blocks m = [] := by
  simp [full_blocks, Nat.div_eq_of_lt h, blocks]

theorem tail_bytes_of_lt (m : List Nat) (h : m.length < 64) : tail_bytes m = m := by
  simp [tail_bytes, Nat.div_eq_of_lt h]

theorem full_blocks_of_ge (m : List Nat) (h : 64 ≤ m.length) :
    full_blocks m = m.take 64 :: full_blocks (m.drop 64) := by
  have e : m.length / 64 = (m.length - 64) / 64 + 1 := by omega
  simp only [full_blocks, List.length_drop]
  rw [e]
  rfl

theorem tail_bytes_of_ge (m : List Nat) (h : 64 ≤ m.length) :
    tail_bytes m = tail_bytes (m.drop 64) := by
  have e : 64 * (m.length / 64) = 64 * ((m.length - 64) / 64) + 64 := by omega
  simp only [tail_bytes, List.length_drop, List.drop_drop]
  rw [e, Nat.add_comm]

theorem length_tail_bytes (m : List Nat) : (tail_bytes m).length = m.length % 64 := by
  simp only [tail_bytes, List.length_drop]
  omega

theorem blocks_append (m d : List Nat) :
    full_blocks (m ++ d) = full_blocks m ++ full_blocks (tail_bytes m ++ d)
    ∧ tail_bytes (m ++ d) = tail_bytes (tail_bytes m ++ d) := by
  by_cases hlt : m.length < 64
  · rw [full_blocks_of_lt m hlt, tail_bytes_of_lt m hlt]
    simp
  · have hge : 64 ≤ m.length := by omega
    have hge2 : 64 ≤ (m ++ d).length := by simp; omega
    have e1 : (m ++ d).take 64 = m.take 64 := List.take_append_of_le_length hge
    have e2 : (m ++ d).drop 64 = m.drop 64 ++ d := List.drop_append_of_le_length hge
    have ih2 := blocks_append (m.drop 64) d
    rw [full_blocks_of_ge _ hge2, tail_bytes_of_ge _ hge2, e1, e2, ih2.1, ih2.2,
      full_blocks_of_ge m hge, tail_bytes_of_ge m hge]
    simp
termination_by m.length
decreasing_by simp; omega

theorem join_full_blocks (m : List Nat) : (full_blocks m).flatten ++ tail_bytes m = m := by
  by_cases hlt : m.length < 64
  · rw [full_blocks_of_lt m hlt, tail_bytes_of_lt m hlt]
    simp
  · have hge : 64 ≤ m.length := by omega
    have ih2 := join_full_blocks (m.drop 64)
    rw [full_blocks_of_ge m hge, tail_bytes_of_ge m hge, List.flatten_cons, List.append_assoc, ih2,
      List.take_append_drop]
termination_by m.length
decreasing_by simp; omega

theorem length_of_mem_full_blocks (m b : List Nat) (hb : b ∈ full_blocks m) : b.length = 64 := by
  by_cases hlt : m.length < 64
  · rw [full_blocks_of_lt m hlt] at hb
    simp at hb
  · have hge : 64 ≤ m.length := by omega
    rw [full_blocks_of_ge m hge] at hb
    rcases List.mem_cons.mp hb with h | h
    · rw [h, List.length_take]; omega
    · exact length_of_mem_full_blocks (m.drop 64) b h
termination_by m.length
decreasing_by simp; omega

theorem foldl_transform_buf (ext : Bool) (bs : List (List Nat)) (ctx : sha256_ctx) :
    (bs.foldl (sha256_transform ext) ctx).buf = ctx.buf := by
  induction bs generalizing ctx with
  | nil => rfl
  | cons b bs ih => rw [List.foldl_cons, ih]; rfl

theorem foldl_transform_len (ext : Bool) (bs : List (List Nat)) (ctx : sha256_ctx) :
    (bs.foldl (sha256_transform ext) ctx).len = ctx.len := by
  induction bs generalizing ctx with
  | nil => rfl
  | cons b bs ih => rw [List.foldl_cons, ih]; rfl

theorem foldl_transform_calls (ext : Bool) (bs : List (List Nat)) (ctx : sha256_ctx) :
    (bs.foldl (sha256_transform ext) ctx).calls = ctx.calls ++ bs := by
  induction bs generalizing ctx with
  | nil => simp
  | cons b bs ih => rw [List.foldl_cons, ih]; simp [sha256_transform]

theorem foldl_transform_h (ext : Bool) (bs : List (List Nat)) (ctx : sha256_ctx) :
    (bs.foldl (sha256_transform ext) ctx).h = bs.foldl (sha256_transform_h ext) ctx.h := by
  induction bs generalizing ctx with
  | nil => rfl
  | cons b bs ih => rw [List.foldl_cons, ih]; rfl

theorem sha256_update_loop_eq (ext : Bool) (fuel : Nat) (ctx : sha256_ctx) (data : List Nat)
    (hf : data.length / 64 ≤ fuel) :
    sha256_update_loop ext fuel ctx data
      = ((full_blocks data).foldl (sha256_transform ext) ctx, tail_bytes data) := by
  induction fuel generalizing ctx data with
  | zero =>
    have hlt : data.length < 64 := by omega
    rw [full_blocks_of_lt data hlt, tail_bytes_of_lt data hlt]
    rfl
  | succ fuel ih =>
    by_cases hge : 64 ≤ data.length
    · have hstep : sha256_update_loop ext (fuel + 1) ctx data
          = sha256_update_loop ext fuel (sha256_transform ext ctx (data.take 64))
              (data.drop 64) := by
        simp [sha256_update_loop, SHA256_BLOCK_SIZE, hge]
      rw [hstep, ih _ _ (by rw [List.length_drop]; omega), full_blocks_of_ge data hge,
        tail_bytes_of_ge data hge]
      rfl
    · have hlt : data.length < 64 := by omega
      rw [full_blocks_of_lt data hlt, tail_bytes_of_lt data hlt]
      simp [sha256_update_loop, SHA256_BLOCK_SIZE, hge]

theorem sha256_update_rest_spec (ext : Bool) (c : sha256_ctx) (x : List Nat)
    (hb : c.buf.length = 64) :
    (sha256_update_rest ext c x).len = c.len
    ∧ (sha256_update_rest ext c x).calls = c.calls ++ full_blocks x
    ∧ (sha256_update_rest ext c x).h = (full_blocks x).foldl (sha256_transform_h ext) c.h
    ∧ (sha256_update_rest ext c x).buf.length = 64
    ∧ (sha256_update_rest ext c x).buf.take (x.length % 64) = tail_bytes x := by
  have hloop := sha256_update_loop_eq ext x.length c x (Nat.div_le_self _ _)
  have hlen := length_tail_bytes x
  simp only [sha256_update_rest, hloop]
  by_cases ht : (tail_bytes x).length > 0
  · simp only [ht, if_true, foldl_transform_len, foldl_transform_calls, foldl_transform_h,
      foldl_transform_buf, memcpy, List.take_zero, List.nil_append, List.take_length, Nat.zero_add,
      true_and]
    constructor
    · rw [List.length_append, List.length_drop]; omega
    · rw [← hlen, List.take_left]
  · have h0 : (tail_bytes x).length = 0 := by omega
    simp only [ht, if_false, foldl_transform_len, foldl_transform_calls, foldl_transform_h,
      foldl_transform_buf, true_and]
    refine ⟨hb, ?_⟩
    rw [← hlen, h0, List.take_zero]
    exact (List.length_eq_zero.mp h0).symm

theorem sha256_update_spec (ext : Bool) (ctx : sha256_ctx) (d : List Nat)
    (hb : ctx.buf.length = 64) :
    (sha256_update ext ctx d).len = (ctx.len + d.length) % 2 ^ 64
    ∧ (sha256_update ext ctx d).calls
        = ctx.calls ++ full_blocks (ctx.buf.take (ctx.len % 64) ++ d)
    ∧ (sha256_update ext ctx d).h
        = (full_blocks (ctx.buf.take (ctx.len % 64) ++ d)).foldl (sha256_transform_h ext) ctx.h
    ∧ (sha256_update ext ctx d).buf.length = 64
    ∧ (sha256_update ext ctx d).buf.take ((ctx.buf.take (ctx.len % 64) ++ d).length % 64)
        = tail_bytes (ctx.buf.take (ctx.len % 64) ++ d) := by
  have hp : ctx.len % 64 < 64 := Nat.mod_lt _ (by omega)
  have hpl : (ctx.buf.take (ctx.len % 64)).length = ctx.len % 64 := by
    rw [List.length_take]; omega
  by_cases h0 : ctx.len % 64 > 0
  · by_cases hlt : d.length < 64 - ctx.len % 64
    · -- the input fits in the buffer
      have hx : (ctx.buf.take (ctx.len % 64) ++ d).length < 64 := by
        rw [List.length_append, hpl]; omega
      have hu : sha256_update ext ctx d
          = { ctx with len := (ctx.len + d.length) % 2 ^ 64,
                       buf := memcpy ctx.buf (ctx.len % 64) d d.length } := by
        simp [sha256_update, SHA256_BLOCK_SIZE, h0, hlt]
      rw [hu, full_blocks_of_lt _ hx, tail_bytes_of_lt _ hx, Nat.mod_eq_of_lt hx]
      simp only [List.append_nil, List.foldl_nil, memcpy, List.take_length, true_and]
      constructor
      · simp only [List.length_append, List.length_take, List.length_drop]; omega
      · rw [List.take_left]
    · -- the input completes the buffered block
      have hge : 64 - ctx.len % 64 ≤ d.length := by omega
      have hx : 64 ≤ (ctx.buf.take (ctx.len % 64) ++ d).length := by
        rw [List.length_append, hpl]; omega
      have hbuf1 : memcpy ctx.buf (ctx.len % 64) d (64 - ctx.len % 64)
          = (ctx.buf.take (ctx.len % 64) ++ d).take 64 := by
        have e : ctx.len % 64 + (64 - ctx.len % 64) = 64 := by omega
        simp only [memcpy, e]
        rw [List.drop_eq_nil_of_le (by omega), List.append_nil, List.take_append_eq_append_take,
          hpl, List.take_take, Nat.min_eq_right (by omega)]
      have hdrop : (ctx.buf.take (ctx.len % 64) ++ d).drop 64 = d.drop (64 - ctx.len % 64) := by
        rw [List.drop_append_eq_append_drop, hpl, List.drop_eq_nil_of_le (by rw [hpl]; omega),
          List.nil_append]
      have hu : sha256_update ext ctx d
          = sha256_update_rest ext
              (sha256_transform ext
                { ctx with len := (ctx.len + d.length) % 2 ^ 64,
                           buf := (ctx.buf.take (ctx.len % 64) ++ d).take 64 }
                ((ctx.buf.take (ctx.len % 64) ++ d).take 64))
              ((ctx.buf.take (ctx.len % 64) ++ d).drop 64) := by
        rw [← hbuf1, hdrop]
        simp [sha256_update, SHA256_BLOCK_SIZE, h0, hlt]
      have hrest := sha256_update_rest_spec ext
        (sha256_transform ext
          { ctx with len := (ctx.len + d.length) % 2 ^ 64,
                     buf := (ctx.buf.take (ctx.len % 64) ++ d).take 64 }
          ((ctx.buf.take (ctx.len % 64) ++ d).take 64))
        ((ctx.buf.take (ctx.len % 64) ++ d).drop 64)
        (by simp only [sha256_transform, List.length_take]; omega)
      obtain ⟨r1, r2, r3, r4, r5⟩ := hrest
      have hmod : ((ctx.buf.take (ctx.len % 64) ++ d).drop 64).length % 64
          = (ctx.buf.take (ctx.len % 64) ++ d).length % 64 := by
        rw [List.length_drop]; omega
      rw [hu, full_blocks_of_ge _ hx, tail_bytes_of_ge _ hx, ← hmod]
      refine ⟨r1, ?_, ?_, r4, r5⟩
      · rw [r2]; simp [sha256_transform]
      · rw [r3]; rfl
  · -- nothing is buffered
    have hz : ctx.len % 64 = 0 := by omega
    have hu : sha256_update ext ctx d
        = sha256_update_rest ext { ctx with len := (ctx.len + d.length) % 2 ^ 64 } d := by
      simp [sha256_update, SHA256_BLOCK_SIZE, h0]
    have hrest := sha256_update_rest_spec ext
      { ctx with len := (ctx.len + d.length) % 2 ^ 64 } d hb
    rw [hu, hz, List.take_zero, List.nil_append]
    exact hrest

theorem Absorbed_init (ext : Bool) (ctx : sha256_ctx) (hb : ctx.buf.length = 64) :
    Absorbed ext (sha256_init ctx) [] := by
  refine ⟨?_, rfl, rfl, rfl, rfl⟩
  simp [sha256_init, memset, SHA256_BLOCK_SIZE, hb]

theorem Absorbed_update (ext : Bool) (ctx : sha256_ctx) (m d : List Nat)
    (h : Absorbed ext ctx m) : Absorbed ext (sha256_update ext ctx d) (m ++ d) := by
  obtain ⟨hb, hlen, hbuf, hcalls, hh⟩ := h
  have hmod : ctx.len % 64 = m.length % 64 := by rw [hlen]; omega
  obtain ⟨u1, u2, u3, u4, u5⟩ := sha256_update_spec ext ctx d hb
  rw [hmod, hbuf] at u2 u3 u5
  obtain ⟨a1, a2⟩ := blocks_append m d
  have hl : (tail_bytes m ++ d).length % 64 = (m ++ d).length % 64 := by
    rw [List.length_append, List.length_append, length_tail_bytes]; omega
  refine ⟨u4, ?_, ?_, ?_, ?_⟩
  · rw [u1, hlen, List.length_append]; omega
  · rw [← hl, u5, a2]
  · rw [u2, hcalls, a1]
  · rw [u3, hh, a1, List.foldl_append]

theorem Absorbed_absorb (ext : Bool) (ctx : sha256_ctx) (chunks : List (List Nat))
    (hb : ctx.buf.length = 64) : Absorbed ext (absorb ext ctx chunks) chunks.flatten := by
  have key : ∀ (cs : List (List Nat)) (c : sha256_ctx) (m : List Nat), Absorbed ext c m →
      Absorbed ext (cs.foldl (sha256_update ext) c) (m ++ cs.flatten) := by
    intro cs
    induction cs with
    | nil => intro c m h; simpa using h
    | cons a cs ih =>
      intro c m h
      rw [List.foldl_cons, List.flatten_cons, ← List.append_assoc]
      exact ih _ _ (Absorbed_update ext c m a h)
  have := key chunks (sha256_init ctx) [] (Absorbed_init ext ctx hb)
  simpa [absorb] using this

theorem and_byte_mask (x k : Nat) :
    x &&& ((2 ^ 8 - 1) <<< k) = ((x >>> k) % 2 ^ 8) <<< k := by
  apply Nat.eq_of_testBit_eq
  intro i
  rw [Nat.testBit_and, Nat.testBit_shiftLeft, Nat.testBit_shiftLeft, Nat.testBit_two_pow_sub_one,
    Nat.testBit_mod_two_pow, Nat.testBit_shiftRight]
  by_cases h : k ≤ i
  · have e : k + (i - k) = i := by omega
    simp only [ge_iff_le, h, decide_True, Bool.true_and, e]
    cases x.testBit i <;> simp
  · simp [h]

theorem or_eq_add (a b i : Nat) (hb : b < 2 ^ i) : b ||| a * 2 ^ i = a * 2 ^ i + b := by
  rw [Nat.or_comm, Nat.mul_comm a, Nat.mul_add_lt_is_or hb]

theorem bswap_32_eq (x : Nat) :
    bswap_32 x = (x % 256) * 2 ^ 24 + (x / 2 ^ 8 % 256) * 2 ^ 16 + (x / 2 ^ 16 % 256) * 2 ^ 8
      + x / 2 ^ 24 % 256 := by
  have m3 := and_byte_mask (x % 2 ^ 32) 24
  have m2 := and_byte_mask (x % 2 ^ 32) 16
  have m1 := and_byte_mask (x % 2 ^ 32) 8
  have m0 := and_byte_mask (x % 2 ^ 32) 0
  simp only [Nat.shiftLeft_eq, Nat.shiftRight_eq_div_pow] at m0 m1 m2 m3
  norm_num at m0 m1 m2 m3
  simp only [bswap_32, Nat.shiftLeft_eq, Nat.shiftRight_eq_div_pow]
  norm_num
  rw [m0, m1, m2, m3]
  have e3 : x % 4294967296 / 16777216 % 256 * 16777216 / 16777216 = x / 16777216 % 256 := by omega
  have e2 : x % 4294967296 / 65536 % 256 * 65536 / 256 = (x / 65536 % 256) * 2 ^ 8 := by omega
  have e1 : x % 4294967296 / 256 % 256 * 256 * 256 % 4294967296 = (x / 256 % 256) * 2 ^ 16 := by
    omega
  have e0 : x % 256 * 16777216 % 4294967296 = (x % 256) * 2 ^ 24 := by omega
  rw [e0, e1, e2, e3]
  rw [or_eq_add _ _ 8 (by omega), or_eq_add _ _ 16 (by omega), or_eq_add _ _ 24 (by omega)]
  omega

theorem bswap_32_lt (x : Nat) : bswap_32 x < 2 ^ 32 := by
  rw [bswap_32_eq]; omega

theorem bswap_64_eq (x : Nat) : bswap_64 x = bswap_32 x * 2 ^ 32 + bswap_32 (x / 2 ^ 32) := by
  have h1 := bswap_32_lt x
  have h2 := bswap_32_lt (x >>> 32)
  simp only [bswap_64, Nat.shiftLeft_eq]
  rw [Nat.mod_eq_of_lt (by omega), Nat.or_comm, or_eq_add _ _ 32 h2, Nat.shiftRight_eq_div_pow]

theorem bytes64_of_bytes (c0 c1 c2 c3 c4 c5 c6 c7 : Nat) (h0 : c0 < 256) (h1 : c1 < 256)
    (h2 : c2 < 256) (h3 : c3 < 256) (h4 : c4 < 256) (h5 : c5 < 256) (h6 : c6 < 256)
    (h7 : c7 < 256) :
    bytes64 ((c0 * 2 ^ 24 + c1 * 2 ^ 16 + c2 * 2 ^ 8 + c3) * 2 ^ 32
      + (c4 * 2 ^ 24 + c5 * 2 ^ 16 + c6 * 2 ^ 8 + c7)) = [c7, c6, c5, c4, c3, c2, c1, c0] := by
  simp only [bytes64, Nat.shiftRight_eq_div_pow, List.cons.injEq, and_true]
  refine ⟨?_, ?_, ?_, ?_, ?_, ?_, ?_, ?_⟩ <;> omega

theorem bytes64_bswap_64 (x : Nat) : bytes64 (bswap_64 x) = be64 x := by
  have d5 : x / 2 ^ 32 / 2 ^ 8 = x / 2 ^ 40 := by omega
  have d6 : x / 2 ^ 32 / 2 ^ 16 = x / 2 ^ 48 := by omega
  have d7 : x / 2 ^ 32 / 2 ^ 24 = x / 2 ^ 56 := by omega
  rw [bswap_64_eq, bswap_32_eq, bswap_32_eq, d5, d6, d7,
    bytes64_of_bytes _ _ _ _ _ _ _ _ (Nat.mod_lt _ (by omega)) (Nat.mod_lt _ (by omega))
      (Nat.mod_lt _ (by omega)) (Nat.mod_lt _ (by omega)) (Nat.mod_lt _ (by omega))
      (Nat.mod_lt _ (by omega)) (Nat.mod_lt _ (by omega)) (Nat.mod_lt _ (by omega))]
  simp only [be64, Nat.shiftRight_eq_div_pow]

theorem take_succ_wr (buf : List Nat) (p v : Nat) (hp : p < buf.length) :
    (wr buf p v).take (p + 1) = buf.take p ++ [v] := by
  have hl : (List.take p buf).length = p := by rw [List.length_take]; omega
  rw [wr, List.set_eq_take_append_cons_drop, if_pos hp, List.take_append_eq_append_take, hl,
    List.take_of_length_le (by omega)]
  simp

theorem length_bytes64 (x : Nat) : (bytes64 x).length = 8 := rfl

theorem pad_buf (buf : List Nat) (p : Nat) (hb : buf.length = 64) (hp : p < 64) :
    memset (wr buf p 0x80) (p + 1) 0 (64 - (p + 1))
      = buf.take p ++ 0x80 :: List.replicate (63 - p) 0 := by
  have e : p + 1 + (64 - (p + 1)) = 64 := by omega
  have e2 : 64 - (p + 1) = 63 - p := by omega
  rw [memset, e, take_succ_wr buf p _ (by omega),
    List.drop_eq_nil_of_le (by rw [wr, List.length_set]; omega), e2]
  simp

theorem memcpy_tail (Y Z src : List Nat) (k n : Nat) (hy : Y.length = k) (hz : Z.length = n)
    (hs : src.length = n) : memcpy (Y ++ Z) k src n = Y ++ src := by
  have h1 : (Y ++ Z).take k = Y := List.take_left' hy
  have h2 : src.take n = src := List.take_of_length_le (by omega)
  have h3 : (Y ++ Z).drop (k + n) = [] :=
    List.drop_eq_nil_of_le (by rw [List.length_append]; omega)
  rw [memcpy, h1, h2, h3, List.append_nil]

theorem sha256_final_spec (ext : Bool) (ctx : sha256_ctx) (d0 : List Nat)
    (hb : ctx.buf.length = 64) :
    (sha256_final ext ctx d0).1.calls
        = ctx.calls ++ final_blocks (ctx.buf.take (ctx.len % 64)) ctx.len
    ∧ (sha256_final ext ctx d0).1.h
        = (final_blocks (ctx.buf.take (ctx.len % 64)) ctx.len).foldl
            (sha256_transform_h ext) ctx.h
    ∧ (sha256_final ext ctx d0).2
        = forRange 0 8 (fun i digest => memcpy digest (4 * i)
            (bytes32 (bswap_32 (rd ((final_blocks (ctx.buf.take (ctx.len % 64)) ctx.len).foldl
              (sha256_transform_h ext) ctx.h) i))) 4) d0 := by
  have hp : ctx.len % 64 < 64 := Nat.mod_lt _ (by omega)
  have hpl : (ctx.buf.take (ctx.len % 64)).length = ctx.len % 64 := by
    rw [List.length_take]; omega
  have hpad := pad_buf ctx.buf (ctx.len % 64) hb hp
  by_cases hc : ctx.len % 64 + 1 > 56
  · have hz : memset (ctx.buf.take (ctx.len % 64) ++ 0x80 :: List.replicate (63 - ctx.len % 64) 0)
        0 0 64 = List.replicate 64 0 := by
      rw [memset, List.drop_eq_nil_of_le (by simp [hpl]; omega)]
      simp
    have hl : memcpy (List.replicate 64 0) 56 (bytes64 (bswap_64 (ctx.len * 8 % 2 ^ 64))) 8
        = List.replicate 56 0 ++ bytes64 (bswap_64 (ctx.len * 8 % 2 ^ 64)) :=
      memcpy_tail (List.replicate 56 0) (List.replicate 8 0) _ 56 8 (List.length_replicate _ _)
        (List.length_replicate _ _) (length_bytes64 _)
    simp only [sha256_final, SHA256_BLOCK_SIZE, hc, if_true, hpad, sha256_transform, hz, hl,
      final_blocks, hpl, List.foldl_cons, List.foldl_nil, List.append_assoc, List.singleton_append,
      List.cons_append, List.nil_append, Nat.reduceSub, and_self]
  · have hl : memcpy (ctx.buf.take (ctx.len % 64) ++ 0x80 :: List.replicate (63 - ctx.len % 64) 0)
        56 (bytes64 (bswap_64 (ctx.len * 8 % 2 ^ 64))) 8
        = ctx.buf.take (ctx.len % 64) ++ 0x80 :: List.replicate (55 - ctx.len % 64) 0
          ++ bytes64 (bswap_64 (ctx.len * 8 % 2 ^ 64)) := by
      have e1 : 63 - ctx.len % 64 = (55 - ctx.len % 64) + 8 := by omega
      have e2 : ctx.buf.take (ctx.len % 64) ++ 0x80 :: List.replicate (63 - ctx.len % 64) 0
          = (ctx.buf.take (ctx.len % 64) ++ 0x80 :: List.replicate (55 - ctx.len % 64) 0)
            ++ List.replicate 8 0 := by
        rw [e1, List.replicate_add]; simp
      rw [e2]
      exact memcpy_tail _ _ _ 56 8 (by simp [hpl]; omega) (List.length_replicate _ _)
        (length_bytes64 _)
    simp only [sha256_final, SHA256_BLOCK_SIZE, hc, if_false, hpad, sha256_transform, hl,
      final_blocks, hpl, List.foldl_cons, List.foldl_nil, Nat.reduceSub, and_self]

/-! ## SHA-256: the context after `sha256_update` and `sha256_final` -/

theorem length_blocks (k : Nat) (l : List Nat) : (blocks k l).length = k := by
  induction k generalizing l with
  | zero => rfl
  | succ k ih => simp [blocks, ih]

theorem sha256_init_eq (ctx : sha256_ctx) (hb : ctx.buf.length = 64) :
    sha256_init ctx = ⟨List.replicate 64 0, sha256_h_init, 0, []⟩ := by
  simp [sha256_init, memset, SHA256_BLOCK_SIZE, hb]

theorem final_of_absorbed (ext : Bool) (c : sha256_ctx) (m d0 : List Nat)
    (h : Absorbed ext c m) :
    (sha256_final ext c d0).1.calls = padded_blocks m
    ∧ (sha256_final ext c d0).2
        = forRange 0 8 (fun i digest => memcpy digest (4 * i)
            (bytes32 (bswap_32 (rd ((padded_blocks m).foldl (sha256_transform_h ext)
              sha256_h_init) i))) 4) d0 := by
  obtain ⟨hb, hlen, hbuf, hcalls, hh⟩ := h
  have hmod : c.len % 64 = m.length % 64 := by rw [hlen]; omega
  obtain ⟨f1, _, f3⟩ := sha256_final_spec ext c d0 hb
  rw [hmod, hbuf, hlen] at f1 f3
  constructor
  · rw [f1, hcalls]; rfl
  · rw [f3, hh, padded_blocks, List.foldl_append]

theorem hash_chunks_eq (ext : Bool) (ctx : sha256_ctx) (d0 : List Nat)
    (chunks : List (List Nat)) (hb : ctx.buf.length = 64) :
    hash_chunks ext ctx d0 chunks
      = forRange 0 8 (fun i digest => memcpy digest (4 * i)
          (bytes32 (bswap_32 (rd ((padded_blocks chunks.flatten).foldl (sha256_transform_h ext)
            sha256_h_init) i))) 4) d0 :=
  (final_of_absorbed ext _ _ d0 (Absorbed_absorb ext ctx chunks hb)).2

theorem hash_chunks_indep (ext : Bool) (ctx ctx2 : sha256_ctx) (d0 d1 : List Nat)
    (chunks : List (List Nat)) (hb : ctx.buf.length = 64) (hb2 : ctx2.buf.length = 64)
    (hd0 : d0.length = 32) (hd1 : d1.length = 32) :
    hash_chunks ext ctx d0 chunks = hash_chunks ext ctx2 d1 chunks := by
  rw [hash_chunks_eq ext ctx d0 chunks hb, hash_chunks_eq ext ctx2 d1 chunks hb2,
    store_digest_eq _ d0 hd0, store_digest_eq _ d1 hd1]

theorem length_of_mem_final_blocks (pend b : List Nat) (len : Nat) (hp : pend.length < 64)
    (hb : b ∈ final_blocks pend len) : b.length = 64 := by
  unfold final_blocks at hb
  by_cases hc : pend.length + 1 > 56
  · rw [if_pos hc] at hb
    simp only [List.mem_cons, List.mem_singleton, List.not_mem_nil, or_false] at hb
    rcases hb with h | h
    · rw [h]; simp; omega
    · rw [h]; simp [length_bytes64]
  · rw [if_neg hc] at hb
    simp only [List.mem_cons, List.mem_singleton, List.not_mem_nil, or_false] at hb
    rw [hb]; simp [length_bytes64]; omega

theorem flatten_padded_blocks (m : List Nat) (hn : m.length < 2 ^ 61) :
    (padded_blocks m).flatten
      = m ++ 0x80 :: List.replicate
          (if m.length % 64 + 1 > 56 then 119 - m.length % 64 else 55 - m.length % 64) 0
        ++ be64 (8 * m.length) := by
  have hp := length_tail_bytes m
  have hj := join_full_blocks m
  have hlen : m.length % 2 ^ 64 * 8 % 2 ^ 64 = 8 * m.length := by omega
  have key : ∀ X, (full_blocks m).flatten ++ (tail_bytes m ++ X) = m ++ X := by
    intro X
    rw [← List.append_assoc, hj]
  by_cases hc : m.length % 64 + 1 > 56
  · have e : 119 - m.length % 64 = (63 - m.length % 64) + 56 := by omega
    simp only [padded_blocks, final_blocks, hp, hc, if_true, List.flatten_append,
      List.flatten_cons, List.flatten_nil, hlen, bytes64_bswap_64, e, List.replicate_add,
      List.append_assoc, List.cons_append, List.nil_append, List.append_nil, key]
  · simp only [padded_blocks, final_blocks, hp, hc, if_false, List.flatten_append,
      List.flatten_cons, List.flatten_nil, hlen, bytes64_bswap_64,
      List.append_assoc, List.cons_append, List.nil_append, List.append_nil, key]

theorem length_padded_blocks (m : List Nat) :
    (padded_blocks m).length = m.length / 64 + (if m.length % 64 + 1 > 56 then 2 else 1) := by
  have hp := length_tail_bytes m
  have hfb : (full_blocks m).length = m.length / 64 := length_blocks _ _
  by_cases hc : m.length % 64 + 1 > 56
  · simp [padded_blocks, final_blocks, hp, hc, hfb]
  · simp [padded_blocks, final_blocks, hp, hc, hfb]

/-! ## SHA-256: the claims -/


/-- C4. With the baseline `sha256_transform`, whatever the context and the
output buffer hold beforehand, `sha256_init` followed by `sha256_final`, with
or without a `sha256_update` of length 0 in between, writes the digest
`e3b0c442 98fc1c14 9afbf4c8 996fb924 27ae41e4 649b934c a495991b 7852b855`. -/
theorem sha256_empty_input (ctx : sha256_ctx) (digest0 : List Nat)
    (hb : ctx.buf.length = 64) (hd : digest0.length = 32) :
    hash_chunks false ctx digest0 [] = empty_digest
    ∧ hash_chunks false ctx digest0 [[]] = empty_digest := by
  rw [hash_chunks_indep false ctx ctx0 digest0 (List.replicate 32 0) [] hb rfl hd
      (List.length_replicate _ _),
    hash_chunks_indep false ctx ctx0 digest0 (List.replicate 32 0) [[]] hb rfl hd
      (List.length_replicate _ _)]
  decide!

theorem sha256_empty_input_witness :
    hash_chunks false ⟨List.replicate 64 5, [1, 2, 3, 4, 5, 6, 7, 8], 77, [[9]]⟩
        (List.replicate 32 3) [] = empty_digest
    ∧ hash_chunks false ⟨List.replicate 64 5, [1, 2, 3, 4, 5, 6, 7, 8], 77, [[9]]⟩
        (List.replicate 32 3) [[]] = empty_digest :=
  sha256_empty_input _ _ (List.length_replicate _ _) (List.length_replicate _ _)

/-- C5. For every byte sequence `m` and every list of chunks whose
concatenation is `m` (chunks may be empty and may end anywhere in a block),
`sha256_init; sha256_update(c1); ...; sha256_update(ck); sha256_final` writes
the same digest as `sha256_init; sha256_update(m); sha256_final`, in either
build and whatever the context held before `sha256_init`. -/
theorem streaming_equivalence (ext : Bool) (ctx : sha256_ctx) (digest0 m : List Nat)
    (chunks : List (List Nat)) (hb : ctx.buf.length = 64) (hm : chunks.flatten = m) :
    hash_chunks ext ctx digest0 chunks = hash_chunks ext ctx digest0 [m] := by
  rw [hash_chunks_eq ext ctx digest0 chunks hb, hash_chunks_eq ext ctx digest0 [m] hb, hm]
  simp

theorem streaming_equivalence_witness :
    hash_chunks false ctx0 (List.replicate 32 0) [[1, 2], [], [3]]
      = hash_chunks false ctx0 (List.replicate 32 0) [[1, 2, 3]] :=
  streaming_equivalence false ctx0 (List.replicate 32 0) [1, 2, 3] [[1, 2], [], [3]] rfl rfl

/-- C6 (evaluation at the failing input). From the initial hash words, on the
block that pads the empty message, the `sha256_transform` of the build with
`USE_RISCV_CRYPTO_EXT` leaves a state different from that of the baseline
build, and the digest of the empty message in that build is
`780b372d d3066f51 562b56d3 603dc659 b56cae29 8266c781 8d65851d 36e66ee4`, not
the digest of the baseline build. -/
theorem accel_transform_differs :
    Accel.transform_h sha256_h_init empty_block ≠ Baseline.transform_h sha256_h_init empty_block
    ∧ hash_chunks true ctx0 (List.replicate 32 0) []
      = [0x78, 0x0b, 0x37, 0x2d, 0xd3, 0x06, 0x6f, 0x51, 0x56, 0x2b, 0x56, 0xd3, 0x60, 0x3d, 0xc6,
         0x59, 0xb5, 0x6c, 0xae, 0x29, 0x82, 0x66, 0xc7, 0x81, 0x8d, 0x65, 0x85, 0x1d, 0x36, 0xe6,
         0x6e, 0xe4]
    ∧ hash_chunks true ctx0 (List.replicate 32 0) []
      ≠ hash_chunks false ctx0 (List.replicate 32 0) [] := by
  decide!

/-- C7. For every message of `n < 2^61` bytes absorbed by any sequence of
`sha256_update` calls after `sha256_init`, the blocks passed to
`sha256_transform` by `sha256_update` and `sha256_final` are 64 bytes each and
their concatenation is the message, then `0x80`, then `z` zero bytes, then the
64-bit big-endian encoding of `8n`, with `z` the least number making the total
length a multiple of 64; one block is compressed for `n = 55` and two blocks
for `n = 56`, `57` and `64`. -/
theorem final_padding (ext : Bool) (ctx : sha256_ctx) (digest0 m : List Nat)
    (chunks : List (List Nat)) (hb : ctx.buf.length = 64) (hm : chunks.flatten = m)
    (hn : m.length < 2 ^ 61) :
    ∃ z, (m.length + 1 + z + 8) % 64 = 0
      ∧ (∀ z2, (m.length + 1 + z2 + 8) % 64 = 0 → z ≤ z2)
      ∧ (sha256_final ext (absorb ext ctx chunks) digest0).1.calls.flatten
          = m ++ 0x80 :: List.replicate z 0 ++ be64 (8 * m.length)
      ∧ (∀ b, b ∈ (sha256_final ext (absorb ext ctx chunks) digest0).1.calls → b.length = 64)
      ∧ (m.length = 55 → (sha256_final ext (absorb ext ctx chunks) digest0).1.calls.length = 1)
      ∧ (m.length = 56 ∨ m.length = 57 ∨ m.length = 64 →
          (sha256_final ext (absorb ext ctx chunks) digest0).1.calls.length = 2) := by
  subst hm
  have hA := Absorbed_absorb ext ctx chunks hb
  obtain ⟨hcalls, _⟩ := final_of_absorbed ext _ _ digest0 hA
  rw [hcalls]
  have hlenp := length_padded_blocks chunks.flatten
  refine ⟨if chunks.flatten.length % 64 + 1 > 56 then 119 - chunks.flatten.length % 64
      else 55 - chunks.flatten.length % 64, ?_, ?_, flatten_padded_blocks _ hn, ?_, ?_, ?_⟩
  · split_ifs <;> omega
  · intro z2 hz2
    split_ifs <;> omega
  · intro b hmem
    rcases List.mem_append.mp hmem with h | h
    · exact length_of_mem_full_blocks _ _ h
    · exact length_of_mem_final_blocks _ _ _
        (by rw [length_tail_bytes]; exact Nat.mod_lt _ (by omega)) h
  · intro h55
    rw [hlenp, h55]
    rfl
  · intro h
    rcases h with h | h | h <;> rw [hlenp, h] <;> rfl

theorem final_padding_witness :
    ∃ z, (([1, 2, 3, 4] : List Nat).length + 1 + z + 8) % 64 = 0
      ∧ (∀ z2, (([1, 2, 3, 4] : List Nat).length + 1 + z2 + 8) % 64 = 0 → z ≤ z2)
      ∧ (sha256_final false (absorb false ctx0 [[1, 2, 3], [4]])
            (List.replicate 32 0)).1.calls.flatten
          = [1, 2, 3, 4] ++ 0x80 :: List.replicate z 0
              ++ be64 (8 * ([1, 2, 3, 4] : List Nat).length)
      ∧ (∀ b, b ∈ (sha256_final false (absorb false ctx0 [[1, 2, 3], [4]])
            (List.replicate 32 0)).1.calls → b.length = 64)
      ∧ (([1, 2, 3, 4] : List Nat).length = 55 →
          (sha256_final false (absorb false ctx0 [[1, 2, 3], [4]])
            (List.replicate 32 0)).1.calls.length = 1)
      ∧ (([1, 2, 3, 4] : List Nat).length = 56 ∨ ([1, 2, 3, 4] : List Nat).length = 57
            ∨ ([1, 2, 3, 4] : List Nat).length = 64 →
          (sha256_final false (absorb false ctx0 [[1, 2, 3], [4]])
            (List.replicate 32 0)).1.calls.length = 2) :=
  final_padding false ctx0 (List.replicate 32 0) [1, 2, 3, 4] [[1, 2, 3], [4]] rfl rfl
    (by decide)

end Sha

/-! ## Loops with bodies that agree -/

theorem forLoop_congr {σ : Type} (n lo : Nat) (f g : Nat → σ → σ) (s : σ)
    (h : ∀ i t, lo ≤ i → i < lo + n → f i t = g i t) : forLoop n lo f s = forLoop n lo g s := by
  induction n generalizing lo s with
  | zero => rfl
  | succ n ih =>
    show forLoop n (lo + 1) f (f lo s) = forLoop n (lo + 1) g (g lo s)
    rw [h lo s (Nat.le_refl _) (by omega)]
    exact ih (lo + 1) _ (fun i t h1 h2 => h i t (by omega) (by omega))

/-! ## AES-128: the steps of a round on explicit states -/

namespace Aes

theorem bytes_sixteen (l : List Nat) (h : l.length = 16) (hb : ∀ b, b ∈ l → b < 256) :
    ∃ a0 a1 a2 a3 a4 a5 a6 a7 a8 a9 a10 a11 a12 a13 a14 a15 : Nat,
      l = [a0, a1, a2, a3, a4, a5, a6, a7, a8, a9, a10, a11, a12, a13, a14, a15]
      ∧ a0 < 256 ∧ a1 < 256 ∧ a2 < 256 ∧ a3 < 256 ∧ a4 < 256 ∧ a5 < 256 ∧ a6 < 256 ∧ a7 < 256
      ∧ a8 < 256 ∧ a9 < 256 ∧ a10 < 256 ∧ a11 < 256 ∧ a12 < 256 ∧ a13 < 256 ∧ a14 < 256
      ∧ a15 < 256 := by
  obtain ⟨a0, a1, a2, a3, a4, a5, a6, a7, a8, a9, a10, a11, a12, a13, a14, a15, rfl⟩ :=
    length_sixteen l h
  refine ⟨a0, a1, a2, a3, a4, a5, a6, a7, a8, a9, a10, a11, a12, a13, a14, a15, rfl, ?_⟩
  simp only [List.mem_cons, List.mem_singleton, List.not_mem_nil, or_false] at hb
  refine ⟨?_, ?_, ?_, ?_, ?_, ?_, ?_, ?_, ?_, ?_, ?_, ?_, ?_, ?_, ?_, ?_⟩ <;>
    exact hb _ (by simp)

theorem ShiftRows_eq (a0 a1 a2 a3 a4 a5 a6 a7 a8 a9 a10 a11 a12 a13 a14 a15 : Nat) :
    Baseline.ShiftRows [a0, a1, a2, a3, a4, a5, a6, a7, a8, a9, a10, a11, a12, a13, a14, a15]
      = [a0, a1, a2, a3, a5, a6, a7, a4, a10, a11, a8, a9, a15, a12, a13, a14] := by
  rfl

theorem or_eq_add_of_dvd (x y i : Nat) (hx : x % 2 ^ i = 0) (hy : y < 2 ^ i) :
    x ||| y = x + y := by
  have e : x = 2 ^ i * (x / 2 ^ i) := by
    have := Nat.div_add_mod x (2 ^ i)
    omega
  rw [e, Nat.mul_add_lt_is_or hy]

theorem pack_bytes (a b c d : Nat) (ha : a < 256) (hb : b < 256) (hc : c < 256) (hd : d < 256) :
    ((a <<< 24) ||| (b <<< 16) ||| (c <<< 8) ||| d) % 2 ^ 32
      = a * 2 ^ 24 + b * 2 ^ 16 + c * 2 ^ 8 + d := by
  simp only [Nat.shiftLeft_eq]
  rw [or_eq_add_of_dvd (a * 2 ^ 24) (b * 2 ^ 16) 24 (by omega) (by omega),
    or_eq_add_of_dvd (a * 2 ^ 24 + b * 2 ^ 16) (c * 2 ^ 8) 16 (by omega) (by omega),
    or_eq_add_of_dvd (a * 2 ^ 24 + b * 2 ^ 16 + c * 2 ^ 8) d 8 (by omega) (by omega)]
  omega

theorem unpack_bytes (a b c d : Nat) (ha : a < 256) (hb : b < 256) (hc : c < 256) (hd : d < 256) :
    ((a * 2 ^ 24 + b * 2 ^ 16 + c * 2 ^ 8 + d) >>> 24) % 256 = a
    ∧ ((a * 2 ^ 24 + b * 2 ^ 16 + c * 2 ^ 8 + d) >>> 16) % 256 = b
    ∧ ((a * 2 ^ 24 + b * 2 ^ 16 + c * 2 ^ 8 + d) >>> 8) % 256 = c
    ∧ (a * 2 ^ 24 + b * 2 ^ 16 + c * 2 ^ 8 + d) % 256 = d := by
  simp only [Nat.shiftRight_eq_div_pow]
  refine ⟨?_, ?_, ?_, ?_⟩ <;> omega

theorem MixColumns_eq (a0 a1 a2 a3 a4 a5 a6 a7 a8 a9 a10 a11 a12 a13 a14 a15 : Nat) :
    Baseline.MixColumns [a0, a1, a2, a3, a4, a5, a6, a7, a8, a9, a10, a11, a12, a13, a14, a15]
      = [Baseline.xtime a0 ^^^ (Baseline.xtime a4 ^^^ a4) ^^^ a8 ^^^ a12,
         Baseline.xtime a1 ^^^ (Baseline.xtime a5 ^^^ a5) ^^^ a9 ^^^ a13,
         Baseline.xtime a2 ^^^ (Baseline.xtime a6 ^^^ a6) ^^^ a10 ^^^ a14,
         Baseline.xtime a3 ^^^ (Baseline.xtime a7 ^^^ a7) ^^^ a11 ^^^ a15,
         a0 ^^^ Baseline.xtime a4 ^^^ (Baseline.xtime a8 ^^^ a8) ^^^ a12,
         a1 ^^^ Baseline.xtime a5 ^^^ (Baseline.xtime a9 ^^^ a9) ^^^ a13,
         a2 ^^^ Baseline.xtime a6 ^^^ (Baseline.xtime a10 ^^^ a10) ^^^ a14,
         a3 ^^^ Baseline.xtime a7 ^^^ (Baseline.xtime a11 ^^^ a11) ^^^ a15,
         a0 ^^^ a4 ^^^ Baseline.xtime a8 ^^^ (Baseline.xtime a12 ^^^ a12),
         a1 ^^^ a5 ^^^ Baseline.xtime a9 ^^^ (Baseline.xtime a13 ^^^ a13),
         a2 ^^^ a6 ^^^ Baseline.xtime a10 ^^^ (Baseline.xtime a14 ^^^ a14),
         a3 ^^^ a7 ^^^ Baseline.xtime a11 ^^^ (Baseline.xtime a15 ^^^ a15),
         (Baseline.xtime a0 ^^^ a0) ^^^ a4 ^^^ a8 ^^^ Baseline.xtime a12,
         (Baseline.xtime a1 ^^^ a1) ^^^ a5 ^^^ a9 ^^^ Baseline.xtime a13,
         (Baseline.xtime a2 ^^^ a2) ^^^ a6 ^^^ a10 ^^^ Baseline.xtime a14,
         (Baseline.xtime a3 ^^^ a3) ^^^ a7 ^^^ a11 ^^^ Baseline.xtime a15] := by
  simp only [Baseline.MixColumns, forRange, forLoop, Nat.sub_zero, sget, sset, rd, wr,
    List.getD_cons_succ, List.getD_cons_zero, List.set_cons_succ, List.set_cons_zero,
    Nat.reduceMul, Nat.reduceAdd, Nat.reduceSub]

theorem AddRoundKey_eq (round : Nat) (rk : List Nat)
    (a0 a1 a2 a3 a4 a5 a6 a7 a8 a9 a10 a11 a12 a13 a14 a15 : Nat) :
    AddRoundKey round [a0, a1, a2, a3, a4, a5, a6, a7, a8, a9, a10, a11, a12, a13, a14, a15] rk
      = [a0 ^^^ rd rk (16 * round + 0), a1 ^^^ rd rk (16 * round + 4),
         a2 ^^^ rd rk (16 * round + 8), a3 ^^^ rd rk (16 * round + 12),
         a4 ^^^ rd rk (16 * round + 1), a5 ^^^ rd rk (16 * round + 5),
         a6 ^^^ rd rk (16 * round + 9), a7 ^^^ rd rk (16 * round + 13),
         a8 ^^^ rd rk (16 * round + 2), a9 ^^^ rd rk (16 * round + 6),
         a10 ^^^ rd rk (16 * round + 10), a11 ^^^ rd rk (16 * round + 14),
         a12 ^^^ rd rk (16 * round + 3), a13 ^^^ rd rk (16 * round + 7),
         a14 ^^^ rd rk (16 * round + 11), a15 ^^^ rd rk (16 * round + 15)] := by
  have e : round * 4 * 4 = 16 * round := by omega
  simp only [AddRoundKey, Nb, forRange, forLoop, Nat.sub_zero, e, sget, sset, wr, rd,
    Nat.add_zero, Nat.add_assoc,
    List.getD_cons_succ, List.getD_cons_zero,
    List.set_cons_succ, List.set_cons_zero, Nat.reduceMul, Nat.reduceAdd, Nat.reduceSub]

theorem xtime_eq_gf_mul : ∀ x, x < 256 → Baseline.xtime x = gf_mul 2 x := by decide!

theorem xtime_xor_eq_gf_mul : ∀ x, x < 256 → Baseline.xtime x ^^^ x = gf_mul 3 x := by decide!

theorem gf_mul_one : ∀ x, x < 256 → gf_mul 1 x = x := by decide!

theorem dot_four (f : Nat → Nat → Nat) (m0 m1 m2 m3 a b c d : Nat) :
    (List.zipWith f [m0, m1, m2, m3] [a, b, c, d]).foldl (fun x y => x ^^^ y) 0
      = f m0 a ^^^ f m1 b ^^^ f m2 c ^^^ f m3 d := by
  simp

theorem gf_dot_four (m0 m1 m2 m3 a b c d : Nat) :
    gf_dot [m0, m1, m2, m3] [a, b, c, d]
      = gf_mul m0 a ^^^ gf_mul m1 b ^^^ gf_mul m2 c ^^^ gf_mul m3 d :=
  dot_four gf_mul m0 m1 m2 m3 a b c d

theorem mix_column (a b c d : Nat) (ha : a < 256) (hb : b < 256) (hc : c < 256) (hd : d < 256) :
    Baseline.xtime a ^^^ (Baseline.xtime b ^^^ b) ^^^ c ^^^ d = gf_dot [2, 3, 1, 1] [a, b, c, d]
    ∧ a ^^^ Baseline.xtime b ^^^ (Baseline.xtime c ^^^ c) ^^^ d = gf_dot [1, 2, 3, 1] [a, b, c, d]
    ∧ a ^^^ b ^^^ Baseline.xtime c ^^^ (Baseline.xtime d ^^^ d) = gf_dot [1, 1, 2, 3] [a, b, c, d]
    ∧ (Baseline.xtime a ^^^ a) ^^^ b ^^^ c ^^^ Baseline.xtime d
        = gf_dot [3, 1, 1, 2] [a, b, c, d] := by
  simp only [gf_dot_four, xtime_eq_gf_mul _ ha, xtime_eq_gf_mul _ hb, xtime_eq_gf_mul _ hc,
    xtime_eq_gf_mul _ hd, ← xtime_xor_eq_gf_mul _ ha, ← xtime_xor_eq_gf_mul _ hb,
    ← xtime_xor_eq_gf_mul _ hc, ← xtime_xor_eq_gf_mul _ hd, gf_mul_one _ ha, gf_mul_one _ hb,
    gf_mul_one _ hc, gf_mul_one _ hd, and_self]

theorem s_box_row0 : ∀ x, x < 16 → rd s_box (0 + x) = fips_sbox (0 + x) := by
  decide!

theorem s_box_row1 : ∀ x, x < 16 → rd s_box (16 + x) = fips_sbox (16 + x) := by
  decide!

theorem s_box_row2 : ∀ x, x < 16 → rd s_box (32 + x) = fips_sbox (32 + x) := by
  decide!

theorem s_box_row3 : ∀ x, x < 16 → rd s_box (48 + x) = fips_sbox (48 + x) := by
  decide!

theorem s_box_row4 : ∀ x, x < 16 → rd s_box (64 + x) = fips_sbox (64 + x) := by
  decide!

theorem s_box_row5 : ∀ x, x < 16 → rd s_box (80 + x) = fips_sbox (80 + x) := by
  decide!

theorem s_box_row6 : ∀ x, x < 16 → rd s_box (96 + x) = fips_sbox (96 + x) := by
  decide!

theorem s_box_row7 : ∀ x, x < 16 → rd s_box (112 + x) = fips_sbox (112 + x) := by
  decide!

theorem s_box_row8 : ∀ x, x < 16 → rd s_box (128 + x) = fips_sbox (128 + x) := by
  decide!

theorem s_box_row9 : ∀ x, x < 16 → rd s_box (144 + x) = fips_sbox (144 + x) := by
  decide!

theorem s_box_row10 : ∀ x, x < 16 → rd s_box (160 + x) = fips_sbox (160 + x) := by
  decide!

theorem s_box_row11 : ∀ x, x < 16 → rd s_box (176 + x) = fips_sbox (176 + x) := by
  decide!

theorem s_box_row12 : ∀ x, x < 16 → rd s_box (192 + x) = fips_sbox (192 + x) := by
  decide!

theorem s_box_row13 : ∀ x, x < 16 → rd s_box (208 + x) = fips_sbox (208 + x) := by
  decide!

theorem s_box_row14 : ∀ x, x < 16 → rd s_box (224 + x) = fips_sbox (224 + x) := by
  decide!

theorem s_box_row15 : ∀ x, x < 16 → rd s_box (240 + x) = fips_sbox (240 + x) := by
  decide!

theorem s_box_table (x : Nat) (hx : x < 256) : rd s_box x = fips_sbox x := by
  have hr : x % 16 < 16 := Nat.mod_lt _ (by omega)
  have hq : x / 16 < 16 := by omega
  have e : x = 16 * (x / 16) + x % 16 := by omega
  rw [e]
  generalize x % 16 = r at hr
  generalize x / 16 = q at hq
  interval_cases q
  · exact s_box_row0 r hr
  · exact s_box_row1 r hr
  · exact s_box_row2 r hr
  · exact s_box_row3 r hr
  · exact s_box_row4 r hr
  · exact s_box_row5 r hr
  · exact s_box_row6 r hr
  · exact s_box_row7 r hr
  · exact s_box_row8 r hr
  · exact s_box_row9 r hr
  · exact s_box_row10 r hr
  · exact s_box_row11 r hr
  · exact s_box_row12 r hr
  · exact s_box_row13 r hr
  · exact s_box_row14 r hr
  · exact s_box_row15 r hr


/-! ## AES-128: the steps of a round, the claims -/

/-- C11. For every byte `x`, the table entry `s_box[x]` is the S-box value of
FIPS-197: the multiplicative inverse of `x` in GF(2^8) modulo `0x11B` (`0` for
`x = 0`) followed by the affine transformation with constant `0x63`. -/
theorem s_box_is_fips (x : Nat) (hx : x < 256) : rd s_box x = affine (gf_inv x) :=
  s_box_table x hx

theorem s_box_is_fips_witness : rd s_box 0x53 = affine (gf_inv 0x53) :=
  s_box_is_fips 0x53 (by decide)

/-- C12. For every 4x4 state, the baseline `ShiftRows` gives
`new[r][c] = old[r][(c + r) mod 4]` for all `r`, `c` in `0..3`: row `r` is
rotated left by `r` positions, row 0 is unchanged. -/
theorem ShiftRows_rotates (state : List Nat) (h : state.length = 16) :
    (Baseline.ShiftRows state).length = 16
    ∧ (∀ r c, r < 4 → c < 4 →
        sget (Baseline.ShiftRows state) r c = sget state r ((c + r) % 4))
    ∧ (∀ c, c < 4 → sget (Baseline.ShiftRows state) 0 c = sget state 0 c) := by
  obtain ⟨a0, a1, a2, a3, a4, a5, a6, a7, a8, a9, a10, a11, a12, a13, a14, a15, rfl⟩ :=
    length_sixteen state h
  rw [ShiftRows_eq]
  refine ⟨rfl, ?_, ?_⟩
  · intro r c hr hc
    interval_cases r <;> interval_cases c <;> rfl
  · intro c hc
    interval_cases c <;> rfl

theorem ShiftRows_rotates_witness :
    (Baseline.ShiftRows main_in).length = 16
    ∧ (∀ r c, r < 4 → c < 4 →
        sget (Baseline.ShiftRows main_in) r c = sget main_in r ((c + r) % 4))
    ∧ (∀ c, c < 4 → sget (Baseline.ShiftRows main_in) 0 c = sget main_in 0 c) :=
  ShiftRows_rotates main_in (by decide)

/-- C13 (evaluation at the failing input). On the state whose bytes are
`0, 1, ..., 15` row by row, the accelerated `ShiftRows` leaves rows 1, 2, 3 as
`(0, 0, 0, 4)`, `(0, 0, 8, 9)`, `(0, 12, 13, 14)`, while the baseline `ShiftRows`
rotates them to `(5, 6, 7, 4)`, `(10, 11, 8, 9)`, `(15, 12, 13, 14)`: `rori`
rotates the 64-bit register, so the bytes that leave the low end of the packed
32-bit word do not come back at its top. -/
theorem ShiftRows_accel_differs :
    Accel.ShiftRows [0, 1, 2, 3, 4, 5, 6, 7, 8, 9, 10, 11, 12, 13, 14, 15]
      = [0, 1, 2, 3, 0, 0, 0, 4, 0, 0, 8, 9, 0, 12, 13, 14]
    ∧ Baseline.ShiftRows [0, 1, 2, 3, 4, 5, 6, 7, 8, 9, 10, 11, 12, 13, 14, 15]
      = [0, 1, 2, 3, 5, 6, 7, 4, 10, 11, 8, 9, 15, 12, 13, 14]
    ∧ Accel.ShiftRows [0, 1, 2, 3, 4, 5, 6, 7, 8, 9, 10, 11, 12, 13, 14, 15]
      ≠ Baseline.ShiftRows [0, 1, 2, 3, 4, 5, 6, 7, 8, 9, 10, 11, 12, 13, 14, 15] := by
  decide!

/-- C14. For every 4x4 state of bytes, the baseline `MixColumns` replaces each
column by the product of the matrix `[[2,3,1,1],[1,2,3,1],[1,1,2,3],[3,1,1,2]]`
with that column over GF(2^8) modulo `0x11B`: entry `r` of new column `c` is
row `r` of the matrix times old column `c`. -/
theorem MixColumns_is_matrix_product (state : List Nat) (h : state.length = 16)
    (hb : ∀ b, b ∈ state → b < 256) :
    (Baseline.MixColumns state).length = 16
    ∧ ∀ r c, r < 4 → c < 4 →
        sget (Baseline.MixColumns state) r c = gf_dot (mix_matrix.getD r []) (column state c) := by
  obtain ⟨a0, a1, a2, a3, a4, a5, a6, a7, a8, a9, a10, a11, a12, a13, a14, a15, rfl,
    h0, h1, h2, h3, h4, h5, h6, h7, h8, h9, h10, h11, h12, h13, h14, h15⟩ :=
    bytes_sixteen state h hb
  rw [MixColumns_eq]
  refine ⟨rfl, ?_⟩
  obtain ⟨p0, p1, p2, p3⟩ := mix_column a0 a4 a8 a12 h0 h4 h8 h12
  obtain ⟨q0, q1, q2, q3⟩ := mix_column a1 a5 a9 a13 h1 h5 h9 h13
  obtain ⟨s0, s1, s2, s3⟩ := mix_column a2 a6 a10 a14 h2 h6 h10 h14
  obtain ⟨t0, t1, t2, t3⟩ := mix_column a3 a7 a11 a15 h3 h7 h11 h15
  intro r c hr hc
  interval_cases r <;> interval_cases c <;>
    simp only [sget, rd, column, mix_matrix, List.getD_cons_succ, List.getD_cons_zero,
      Nat.reduceMul, Nat.reduceAdd] <;>
    assumption

theorem MixColumns_is_matrix_product_witness :
    (Baseline.MixColumns main_in).length = 16
    ∧ ∀ r c, r < 4 → c < 4 →
        sget (Baseline.MixColumns main_in) r c
          = gf_dot (mix_matrix.getD r []) (column main_in c) :=
  MixColumns_is_matrix_product main_in (by decide) (by decide)

/-- C15 (evaluation at the failing input). On the state whose only non-zero
byte is `state[0][0] = 1`, the accelerated `MixColumns` returns the column
`(1, 1, 1, 1)`, while the baseline `MixColumns` returns the column
`(2, 1, 1, 3)`. -/
theorem MixColumns_accel_differs :
    Accel.MixColumns [1, 0, 0, 0, 0, 0, 0, 0, 0, 0, 0, 0, 0, 0, 0, 0]
      = [1, 0, 0, 0, 1, 0, 0, 0, 1, 0, 0, 0, 1, 0, 0, 0]
    ∧ Baseline.MixColumns [1, 0, 0, 0, 0, 0, 0, 0, 0, 0, 0, 0, 0, 0, 0, 0]
      = [2, 0, 0, 0, 1, 0, 0, 0, 1, 0, 0, 0, 3, 0, 0, 0]
    ∧ Accel.MixColumns [1, 0, 0, 0, 0, 0, 0, 0, 0, 0, 0, 0, 0, 0, 0, 0]
      ≠ Baseline.MixColumns [1, 0, 0, 0, 0, 0, 0, 0, 0, 0, 0, 0, 0, 0, 0, 0] := by
  decide!

/-- C16. For every state, every round `r` and every round-key array,
`AddRoundKey(r)` xors the state byte at row `j`, column `i` with
`RoundKey[16r + 4i + j]`; in block byte order (byte `k` at row `k mod 4`, column
`k / 4`) byte `k` is xored with `RoundKey[16r + k]`. The round-key array is an
input only. -/
theorem AddRoundKey_xors (round : Nat) (state RoundKey : List Nat) (h : state.length = 16) :
    (AddRoundKey round state RoundKey).length = 16
    ∧ (∀ i j, i < 4 → j < 4 →
        sget (AddRoundKey round state RoundKey) j i
          = sget state j i ^^^ rd RoundKey (16 * round + 4 * i + j))
    ∧ (∀ k, k < 16 →
        sget (AddRoundKey round state RoundKey) (k % 4) (k / 4)
          = sget state (k % 4) (k / 4) ^^^ rd RoundKey (16 * round + k)) := by
  obtain ⟨a0, a1, a2, a3, a4, a5, a6, a7, a8, a9, a10, a11, a12, a13, a14, a15, rfl⟩ :=
    length_sixteen state h
  rw [AddRoundKey_eq]
  refine ⟨rfl, ?_, ?_⟩
  · intro i j hi hj
    interval_cases i <;> interval_cases j <;> rfl
  · intro k hk
    interval_cases k <;> rfl

theorem AddRoundKey_xors_witness :
    (AddRoundKey 3 main_in (KeyExpansion (List.replicate 176 0) main_key)).length = 16
    ∧ (∀ i j, i < 4 → j < 4 →
        sget (AddRoundKey 3 main_in (KeyExpansion (List.replicate 176 0) main_key)) j i
          = sget main_in j i
            ^^^ rd (KeyExpansion (List.replicate 176 0) main_key) (16 * 3 + 4 * i + j))
    ∧ (∀ k, k < 16 →
        sget (AddRoundKey 3 main_in (KeyExpansion (List.replicate 176 0) main_key)) (k % 4) (k / 4)
          = sget main_in (k % 4) (k / 4)
            ^^^ rd (KeyExpansion (List.replicate 176 0) main_key) (16 * 3 + k)) :=
  AddRoundKey_xors 3 main_in (KeyExpansion (List.replicate 176 0) main_key) (by decide)

end Aes

/-! ## AES-128 of `aes_test.c` -/

namespace AesTest

theorem sbox_eq : sbox = Aes.s_box := rfl

theorem Rcon_succ (j : Nat) : Rcon.getD (j + 1) 0 = Aes.Rcon.getD (j + 1) 0 := by
  simp only [Rcon, Aes.Rcon, List.getD_cons_succ]

theorem KeyExpansion_step_eq (i : Nat) (rk : List Nat) (hi : 4 ≤ i) :
    KeyExpansion_step i rk = Aes.KeyExpansion_step i rk := by
  obtain ⟨j, hj⟩ : ∃ j, i / 4 = j + 1 := ⟨i / 4 - 1, by omega⟩
  by_cases hm : i % 4 = 0
  · simp only [KeyExpansion_step, Aes.KeyExpansion_step, Nk, Aes.Nk, hm, if_true, forRange,
      forLoop, Nat.sub_zero, Nat.reduceSub, Nat.reduceAdd, getSBoxValue, sbox_eq, hj, Rcon_succ,
      List.replicate, wr, rd, List.set_cons_succ, List.set_cons_zero, List.getD_cons_succ,
      List.getD_cons_zero, Nat.add_zero, Nat.zero_add]
  · simp only [KeyExpansion_step, Aes.KeyExpansion_step, Nk, Aes.Nk, hm, if_false, forRange,
      forLoop, Nat.sub_zero, Nat.reduceSub, Nat.reduceAdd,
      List.replicate, wr, rd, List.set_cons_succ, List.set_cons_zero, List.getD_cons_succ,
      List.getD_cons_zero, Nat.add_zero, Nat.zero_add]

theorem KeyExpansion_eq (rk key : List Nat) : KeyExpansion rk key = Aes.KeyExpansion rk key := by
  simp only [KeyExpansion, Aes.KeyExpansion, forRange]
  have hc : KeyExpansion_copy key = Aes.KeyExpansion_copy key := rfl
  rw [hc]
  exact forLoop_congr _ _ _ _ _ (fun i t h1 _ => KeyExpansion_step_eq i t h1)

theorem memcpy_full (dst src : List Nat) (n : Nat) (h : dst.length = n) :
    Sha.memcpy dst 0 src n = src.take n := by
  simp [Sha.memcpy, List.drop_eq_nil_of_le (Nat.le_of_eq h)]

theorem AES_encrypt_indep (st0 rk0 out0 st1 rk1 out1 input key : List Nat)
    (hst0 : st0.length = 16) (hrk0 : rk0.length = 176) (hout0 : out0.length = 16)
    (hst1 : st1.length = 16) (hrk1 : rk1.length = 176) (hout1 : out1.length = 16) :
    AES_encrypt st0 rk0 (some input) (some key) (some out0)
      = AES_encrypt st1 rk1 (some input) (some key) (some out1) := by
  simp only [AES_encrypt]
  rw [memcpy_full st0 input 16 hst0, memcpy_full st1 input 16 hst1, memcpy_full out0 _ 16 hout0,
    memcpy_full out1 _ 16 hout1, KeyExpansion_eq, KeyExpansion_eq,
    Aes.KeyExpansion_indep rk0 rk1 key hrk0 hrk1]

/-! ## AES-128 of `aes_test.c`: the claims -/

/-- C18. `AES_encrypt` of `aes_test.c` with key `2b7e1516 28aed2a6 abf71588
09cf4f3c` and input `3243f6a8 885a308d 313198a2 e0370734`, all three pointers
valid, returns 0 and leaves `3925841d 02dc09fb dc118597 196a0b32` in `output`,
whatever `output` and the local arrays held before. -/
theorem AES_encrypt_known_answer (st0 rk0 out0 : List Nat) (hst : st0.length = 16)
    (hrk : rk0.length = 176) (hout : out0.length = 16) :
    AES_encrypt st0 rk0
        (some [0x32, 0x43, 0xf6, 0xa8, 0x88, 0x5a, 0x30, 0x8d, 0x31, 0x31, 0x98, 0xa2, 0xe0, 0x37,
          0x07, 0x34])
        (some [0x2b, 0x7e, 0x15, 0x16, 0x28, 0xae, 0xd2, 0xa6, 0xab, 0xf7, 0x15, 0x88, 0x09, 0xcf,
          0x4f, 0x3c])
        (some out0)
      = (0, some [0x39, 0x25, 0x84, 0x1d, 0x02, 0xdc, 0x09, 0xfb, 0xdc, 0x11, 0x85, 0x97, 0x19,
          0x6a, 0x0b, 0x32]) := by
  rw [AES_encrypt_indep st0 rk0 out0 (List.replicate 16 0) (List.replicate 176 0)
    (List.replicate 16 0) _ _ hst hrk hout (List.length_replicate _ _)
    (List.length_replicate _ _) (List.length_replicate _ _)]
  decide!

theorem AES_encrypt_known_answer_witness :
    AES_encrypt (List.replicate 16 1) (List.replicate 176 2)
        (some [0x32, 0x43, 0xf6, 0xa8, 0x88, 0x5a, 0x30, 0x8d, 0x31, 0x31, 0x98, 0xa2, 0xe0, 0x37,
          0x07, 0x34])
        (some [0x2b, 0x7e, 0x15, 0x16, 0x28, 0xae, 0xd2, 0xa6, 0xab, 0xf7, 0x15, 0x88, 0x09, 0xcf,
          0x4f, 0x3c])
        (some (List.replicate 16 3))
      = (0, some [0x39, 0x25, 0x84, 0x1d, 0x02, 0xdc, 0x09, 0xfb, 0xdc, 0x11, 0x85, 0x97, 0x19,
          0x6a, 0x0b, 0x32]) :=
  AES_encrypt_known_answer _ _ _ (List.length_replicate _ _) (List.length_replicate _ _)
    (List.length_replicate _ _)

end AesTest

/-! ## SHA-256 of `sha_filesv1`: the claims -/

namespace ShaV1

/-- C17 (evaluation at the failing input). On the empty message, the calls
`sha256_init; sha256_update(state, data, 0); sha256_final(state, data, 0, hash)`
of `sha_workloadv2.c` and of `sha_code_workloadv1.c` both write the digest
`3aac4ba9 ca05142f f4e4f92a cbb90813 5071902b 4a89f9c5 33569d66 0996f002`, which
is not `e3b0c442 ... 7852b855`; the table `K` differs from the SHA-256 round
constants at index 17. -/
theorem v1_empty_digest_wrong :
    Workload2.hash_message ⟨List.replicate 8 0, []⟩ (List.replicate 32 0) [] 0
      = [0x3a, 0xac, 0x4b, 0xa9, 0xca, 0x05, 0x14, 0x2f, 0xf4, 0xe4, 0xf9, 0x2a, 0xcb, 0xb9, 0x08,
         0x13, 0x50, 0x71, 0x90, 0x2b, 0x4a, 0x89, 0xf9, 0xc5, 0x33, 0x56, 0x9d, 0x66, 0x09, 0x96,
         0xf0, 0x02]
    ∧ Workload1.hash_message ⟨List.replicate 8 0, []⟩ (List.replicate 32 0) [] 0
      = Workload2.hash_message ⟨List.replicate 8 0, []⟩ (List.replicate 32 0) [] 0
    ∧ Workload2.hash_message ⟨List.replicate 8 0, []⟩ (List.replicate 32 0) [] 0
      ≠ Sha.empty_digest
    ∧ rd K 17 = 0x80a1a1d6 ∧ rd Sha.sha256_k 17 = 0xefbe4786 := by
  decide!

end ShaV1

/-! ## SHA-256: `sha256_init` and `sha256_final`, the claims -/

namespace Sha

/-- C19. For every prior content of a context, `sha256_init` leaves `h` equal
to the eight constants `6a09e667 bb67ae85 3c6ef372 a54ff53a 510e527f 9b05688c
1f83d9ab 5be0cd19` in that order, all 64 bytes of `buf` zero and `len` zero. -/
theorem sha256_init_spec (ctx : sha256_ctx) (hb : ctx.buf.length = 64) :
    (sha256_init ctx).h
        = [0x6a09e667, 0xbb67ae85, 0x3c6ef372, 0xa54ff53a, 0x510e527f, 0x9b05688c, 0x1f83d9ab,
           0x5be0cd19]
    ∧ (sha256_init ctx).buf = List.replicate 64 0
    ∧ (sha256_init ctx).len = 0 := by
  rw [sha256_init_eq ctx hb]
  exact ⟨rfl, rfl, rfl⟩

theorem sha256_init_spec_witness :
    (sha256_init ⟨List.replicate 64 7, [1, 2, 3, 4, 5, 6, 7, 8], 99, [[1]]⟩).h
        = [0x6a09e667, 0xbb67ae85, 0x3c6ef372, 0xa54ff53a, 0x510e527f, 0x9b05688c, 0x1f83d9ab,
           0x5be0cd19]
    ∧ (sha256_init ⟨List.replicate 64 7, [1, 2, 3, 4, 5, 6, 7, 8], 99, [[1]]⟩).buf
        = List.replicate 64 0
    ∧ (sha256_init ⟨List.replicate 64 7, [1, 2, 3, 4, 5, 6, 7, 8], 99, [[1]]⟩).len = 0 :=
  sha256_init_spec _ (List.length_replicate _ _)

/-- C20. For every context, `sha256_final` calls `sha256_transform` exactly
twice when `(ctx.len mod 64) + 1 > 56` and exactly once otherwise. In the first
case the first block is the buffered bytes, `0x80` and zeros, and the second is
56 zero bytes followed by the 8 bytes of the bit length, most significant
first; in the second case the single block is the buffered bytes, `0x80`,
zeros up to byte 55 and the 8 length bytes. -/
theorem final_compressions (ext : Bool) (ctx : sha256_ctx) (digest0 : List Nat)
    (hb : ctx.buf.length = 64) :
    (ctx.len % 64 + 1 > 56 →
      (sha256_final ext ctx digest0).1.calls
        = ctx.calls ++
          [ctx.buf.take (ctx.len % 64) ++ 0x80 :: List.replicate (63 - ctx.len % 64) 0,
           List.replicate 56 0 ++ be64 (ctx.len * 8 % 2 ^ 64)])
    ∧ (¬ ctx.len % 64 + 1 > 56 →
      (sha256_final ext ctx digest0).1.calls
        = ctx.calls ++
          [ctx.buf.take (ctx.len % 64) ++ 0x80 :: List.replicate (55 - ctx.len % 64) 0
            ++ be64 (ctx.len * 8 % 2 ^ 64)]) := by
  have hp : ctx.len % 64 < 64 := Nat.mod_lt _ (by omega)
  have hpl : (ctx.buf.take (ctx.len % 64)).length = ctx.len % 64 := by
    rw [List.length_take]; omega
  obtain ⟨hc, -, -⟩ := sha256_final_spec ext ctx digest0 hb
  rw [hc]
  constructor
  · intro h
    simp only [final_blocks, hpl, h, if_true, bytes64_bswap_64]
  · intro h
    simp only [final_blocks, hpl, h, if_false, bytes64_bswap_64]

theorem final_compressions_witness :
    (ctx0.len % 64 + 1 > 56 →
      (sha256_final false ctx0 (List.replicate 32 0)).1.calls
        = ctx0.calls ++
          [ctx0.buf.take (ctx0.len % 64) ++ 0x80 :: List.replicate (63 - ctx0.len % 64) 0,
           List.replicate 56 0 ++ be64 (ctx0.len * 8 % 2 ^ 64)])
    ∧ (¬ ctx0.len % 64 + 1 > 56 →
      (sha256_final false ctx0 (List.replicate 32 0)).1.calls
        = ctx0.calls ++
          [ctx0.buf.take (ctx0.len % 64) ++ 0x80 :: List.replicate (55 - ctx0.len % 64) 0
            ++ be64 (ctx0.len * 8 % 2 ^ 64)]) :=
  final_compressions false ctx0 (List.replicate 32 0) rfl

end Sha

/-! ## SHA-256: the digest bytes and the context between calls -/

namespace Sha

theorem bytes32_bswap_32 (x : Nat) :
    bytes32 (bswap_32 x) = [(x >>> 24) % 256, (x >>> 16) % 256, (x >>> 8) % 256, x % 256] := by
  obtain ⟨u3, u2, u1, u0⟩ := Aes.unpack_bytes (x % 256) (x / 2 ^ 8 % 256) (x / 2 ^ 16 % 256)
    (x / 2 ^ 24 % 256) (Nat.mod_lt _ (by omega)) (Nat.mod_lt _ (by omega))
    (Nat.mod_lt _ (by omega)) (Nat.mod_lt _ (by omega))
  rw [bswap_32_eq]
  simp only [bytes32, u0, u1, u2, u3]
  simp only [Nat.shiftRight_eq_div_pow]

theorem final_digest_eq (ext : Bool) (ctx : sha256_ctx) (d0 : List Nat) :
    (sha256_final ext ctx d0).2
      = forRange 0 8 (fun i digest => memcpy digest (4 * i)
          (bytes32 (bswap_32 (rd (sha256_final ext ctx d0).1.h i))) 4) d0 := rfl

theorem getD_blocks (n k : Nat) (m : List Nat) (hk : k < n) :
    (blocks n m).getD k [] = (m.drop (64 * k)).take 64 := by
  induction n generalizing m k with
  | zero => omega
  | succ n ih =>
    cases k with
    | zero => simp [blocks]
    | succ k =>
      simp only [blocks, List.getD_cons_succ]
      rw [ih k (m.drop 64) (by omega), List.drop_drop]
      congr 2
      omega

theorem length_buf_final (ext : Bool) (ctx : sha256_ctx) (d0 : List Nat)
    (hb : ctx.buf.length = 64) : (sha256_final ext ctx d0).1.buf.length = 64 := by
  have hp : ctx.len % 64 < 64 := Nat.mod_lt _ (by omega)
  by_cases hc : ctx.len % 64 + 1 > 56
  · simp [sha256_final, SHA256_BLOCK_SIZE, hc, sha256_transform, memcpy, memset, wr, hb,
      length_bytes64]
    omega
  · simp [sha256_final, SHA256_BLOCK_SIZE, hc, sha256_transform, memcpy, memset, wr, hb,
      length_bytes64]
    omega

theorem len_final (ext : Bool) (ctx : sha256_ctx) (d0 : List Nat) :
    (sha256_final ext ctx d0).1.len = ctx.len := by
  by_cases hc : ctx.len % 64 + 1 > 56
  · simp [sha256_final, SHA256_BLOCK_SIZE, hc, sha256_transform]
  · simp [sha256_final, SHA256_BLOCK_SIZE, hc, sha256_transform]

/-- C21. For every context and every 32-byte output buffer, the digest written
by `sha256_final` has 32 bytes and is the big-endian serialisation of the eight
words of `h` left by the last compression:
`digest[4i + j] = (h[i] >> (24 - 8j)) mod 256` for `i` in `0..7`, `j` in `0..3`. -/
theorem digest_big_endian (ext : Bool) (ctx : sha256_ctx) (digest0 : List Nat)
    (hd : digest0.length = 32) :
    (sha256_final ext ctx digest0).2.length = 32
    ∧ ∀ i j, i < 8 → j < 4 →
        rd (sha256_final ext ctx digest0).2 (4 * i + j)
          = (rd (sha256_final ext ctx digest0).1.h i >>> (24 - 8 * j)) % 256 := by
  rw [final_digest_eq, store_digest_eq _ _ hd]
  simp only [bytes32_bswap_32]
  generalize (sha256_final ext ctx digest0).1.h = h
  constructor
  · rfl
  · intro i j hi hj
    interval_cases i <;> interval_cases j <;> rfl

theorem digest_big_endian_witness :
    (sha256_final false ctx0 (List.replicate 32 0)).2.length = 32
    ∧ ∀ i j, i < 8 → j < 4 →
        rd (sha256_final false ctx0 (List.replicate 32 0)).2 (4 * i + j)
          = (rd (sha256_final false ctx0 (List.replicate 32 0)).1.h i >>> (24 - 8 * j)) % 256 :=
  digest_big_endian false ctx0 (List.replicate 32 0) (List.length_replicate _ _)

/-- C22 (the code has no such check). For every context, a second
`sha256_final` on the context left by a first one, with no `sha256_init` in
between, returns normally: it passes one or two more blocks to
`sha256_transform` and writes a 32-byte digest; and a `sha256_update` with a
non-empty input after `sha256_final` changes `len`. Nothing signals a failure. -/
theorem misuse_not_detected (ext : Bool) (ctx : sha256_ctx) (d0 d1 data : List Nat)
    (hb : ctx.buf.length = 64) (hd1 : d1.length = 32)
    (h0 : 0 < data.length) (hdata : data.length < 2 ^ 64) :
    (sha256_final ext (sha256_final ext ctx d0).1 d1).1.calls.length
        = (sha256_final ext ctx d0).1.calls.length + (if ctx.len % 64 + 1 > 56 then 2 else 1)
    ∧ (sha256_final ext (sha256_final ext ctx d0).1 d1).2.length = 32
    ∧ (sha256_update ext (sha256_final ext ctx d0).1 data).len
        ≠ (sha256_final ext ctx d0).1.len := by
  have hb1 := length_buf_final ext ctx d0 hb
  have hl1 := len_final ext ctx d0
  obtain ⟨f1, -, -⟩ := sha256_final_spec ext (sha256_final ext ctx d0).1 d1 hb1
  obtain ⟨u1, -⟩ := sha256_update_spec ext (sha256_final ext ctx d0).1 data hb1
  have hpl : ((sha256_final ext ctx d0).1.buf.take (ctx.len % 64)).length = ctx.len % 64 := by
    rw [List.length_take]; omega
  refine ⟨?_, ?_, ?_⟩
  · rw [f1, hl1, List.length_append]
    by_cases hc : ctx.len % 64 + 1 > 56
    · simp [final_blocks, hpl, hc]
    · simp [final_blocks, hpl, hc]
  · rw [final_digest_eq, store_digest_eq _ _ hd1]; rfl
  · rw [u1, hl1]; omega

theorem misuse_not_detected_witness :
    (sha256_final false (sha256_final false ctx0 (List.replicate 32 0)).1
        (List.replicate 32 0)).1.calls.length
        = (sha256_final false ctx0 (List.replicate 32 0)).1.calls.length
          + (if ctx0.len % 64 + 1 > 56 then 2 else 1)
    ∧ (sha256_final false (sha256_final false ctx0 (List.replicate 32 0)).1
        (List.replicate 32 0)).2.length = 32
    ∧ (sha256_update false (sha256_final false ctx0 (List.replicate 32 0)).1 [1]).len
        ≠ (sha256_final false ctx0 (List.replicate 32 0)).1.len :=
  misuse_not_detected false ctx0 (List.replicate 32 0) (List.replicate 32 0) [1] rfl
    (List.length_replicate _ _) (by decide) (by decide)

/-- C24. After `sha256_init` and any sequence of `sha256_update` calls whose
inputs concatenate to `m`, of `n < 2^64` bytes: `len = n`, the first `n mod 64`
bytes of `buf` are the last `n mod 64` bytes of `m`, the blocks passed to
`sha256_transform` are the first `n / 64` 64-byte blocks of `m`, once each and
in order, and `h` is the initial hash words folded over these blocks. -/
theorem update_invariant (ext : Bool) (ctx : sha256_ctx) (chunks : List (List Nat))
    (m : List Nat) (hb : ctx.buf.length = 64) (hm : chunks.flatten = m)
    (hn : m.length < 2 ^ 64) :
    (absorb ext ctx chunks).len = m.length
    ∧ (absorb ext ctx chunks).buf.take (m.length % 64) = m.drop (m.length - m.length % 64)
    ∧ (absorb ext ctx chunks).h
        = (blocks (m.length / 64) m).foldl (sha256_transform_h ext) sha256_h_init
    ∧ (absorb ext ctx chunks).calls = blocks (m.length / 64) m
    ∧ (∀ k, k < m.length / 64 →
        (blocks (m.length / 64) m).getD k [] = (m.drop (64 * k)).take 64) := by
  subst hm
  obtain ⟨-, hlen, hbuf, hcalls, hh⟩ := Absorbed_absorb ext ctx chunks hb
  have e : chunks.flatten.length - chunks.flatten.length % 64
      = 64 * (chunks.flatten.length / 64) := by omega
  refine ⟨?_, ?_, hh, hcalls, fun k hk => getD_blocks _ _ _ hk⟩
  · rw [hlen, Nat.mod_eq_of_lt hn]
  · rw [hbuf, e]; rfl

theorem update_invariant_witness :
    (absorb false ctx0 [List.replicate 40 1, [], List.replicate 25 2]).len
        = (List.replicate 40 1 ++ List.replicate 25 2).length
    ∧ (absorb false ctx0 [List.replicate 40 1, [], List.replicate 25 2]).buf.take
          ((List.replicate 40 1 ++ List.replicate 25 2).length % 64)
        = (List.replicate 40 1 ++ List.replicate 25 2).drop
            ((List.replicate 40 1 ++ List.replicate 25 2).length
              - (List.replicate 40 1 ++ List.replicate 25 2).length % 64)
    ∧ (absorb false ctx0 [List.replicate 40 1, [], List.replicate 25 2]).h
        = (blocks ((List.replicate 40 1 ++ List.replicate 25 2).length / 64)
            (List.replicate 40 1 ++ List.replicate 25 2)).foldl
            (sha256_transform_h false) sha256_h_init
    ∧ (absorb false ctx0 [List.replicate 40 1, [], List.replicate 25 2]).calls
        = blocks ((List.replicate 40 1 ++ List.replicate 25 2).length / 64)
            (List.replicate 40 1 ++ List.replicate 25 2)
    ∧ (∀ k, k < (List.replicate 40 1 ++ List.replicate 25 2).length / 64 →
        (blocks ((List.replicate 40 1 ++ List.replicate 25 2).length / 64)
            (List.replicate 40 1 ++ List.replicate 25 2)).getD k []
          = ((List.replicate 40 1 ++ List.replicate 25 2).drop (64 * k)).take 64) :=
  update_invariant false ctx0 [List.replicate 40 1, [], List.replicate 25 2]
    (List.replicate 40 1 ++ List.replicate 25 2) rfl (by simp) (by simp)

end Sha

/-! ## Loops that keep the length of an array -/

theorem length_forLoop (n lo : Nat) (body : Nat → List Nat → List Nat) (s : List Nat)
    (h : ∀ i t, (body i t).length = t.length) : (forLoop n lo body s).length = s.length := by
  induction n generalizing lo s with
  | zero => rfl
  | succ n ih =>
    show (forLoop n (lo + 1) body (body lo s)).length = _
    rw [ih, h]

theorem forLoop_add {σ : Type} (a b lo : Nat) (body : Nat → σ → σ) (s : σ) :
    forLoop (a + b) lo body s = forLoop b (lo + a) body (forLoop a lo body s) := by
  induction b with
  | zero => rfl
  | succ b ih =>
    rw [← Nat.add_assoc, forLoop_succ_last, forLoop_succ_last, ih, Nat.add_assoc]

theorem rd_forLoop_wr_lt (g : Nat → List Nat → Nat) (n lo j : Nat) (w : List Nat) (h : j < lo) :
    rd (forLoop n lo (fun i w => wr w i (g i w)) w) j = rd w j := by
  induction n with
  | zero => rfl
  | succ n ih => rw [forLoop_succ_last, rd_wr_ne _ _ _ _ (by omega), ih]

theorem rd_forLoop_wr_self (g : Nat → List Nat → Nat) (n lo j : Nat) (w : List Nat)
    (h1 : lo ≤ j) (h2 : j < lo + n) (hl : lo + n ≤ w.length) :
    rd (forLoop n lo (fun i w => wr w i (g i w)) w) j
      = g j (forLoop (j - lo) lo (fun i w => wr w i (g i w)) w) := by
  have e : n = (j - lo) + (1 + (n - 1 - (j - lo))) := by omega
  have hlen : (forLoop (j - lo) lo (fun i w => wr w i (g i w)) w).length = w.length :=
    length_forLoop _ _ _ _ (fun _ _ => length_wr _ _ _)
  have e2 : lo + (j - lo) = j := by omega
  rw [e, forLoop_add, forLoop_add, e2, rd_forLoop_wr_lt _ _ _ _ _ (by omega)]
  show rd (wr _ j _) j = _
  rw [rd_wr_eq _ _ _ (by omega)]

/-! ## AES-128 of `aes_test.c`: lengths and `xtime` -/

namespace AesTest

theorem length_AddRoundKey (round : Nat) (state rk : List Nat) :
    (AddRoundKey round state rk).length = state.length :=
  length_forLoop _ _ _ _ (fun _ _ => length_wr _ _ _)

theorem length_SubBytes (state : List Nat) : (SubBytes state).length = state.length :=
  length_forLoop _ _ _ _ (fun _ _ => length_wr _ _ _)

theorem length_ShiftRows (state : List Nat) : (ShiftRows state).length = state.length := by
  simp [ShiftRows, length_wr]

theorem length_MixColumns (state : List Nat) : (MixColumns state).length = state.length :=
  length_forLoop _ _ _ _ (fun _ _ => by simp [length_wr])

theorem AES_encrypt_some (st0 rk0 input key out0 : List Nat) (hst : st0.length = 16)
    (hin : input.length = 16) (hout : out0.length = 16) :
    ∃ ct, ct.length = 16
      ∧ AES_encrypt st0 rk0 (some input) (some key) (some out0) = (0, some ct) := by
  have h16 : (Sha.memcpy st0 0 input 16).length = 16 := by
    rw [memcpy_full st0 input 16 hst, List.length_take]; omega
  simp only [AES_encrypt]
  refine ⟨_, ?_, rfl⟩
  rw [memcpy_full out0 _ 16 hout, List.length_take, length_AddRoundKey, length_ShiftRows,
    length_SubBytes, forRange, length_forLoop _ _ _ _ (fun i t => by
      simp only [length_AddRoundKey, length_MixColumns, length_ShiftRows, length_SubBytes]),
    length_AddRoundKey, h16]
  rfl

theorem xtime_table : ∀ x, x < 256 →
    Aes.Baseline.xtime x = Aes.gf_mul x 2
    ∧ Aes.Baseline.xtime x = (if x ≥ 0x80 then ((2 * x) % 256) ^^^ 0x1B else 2 * x)
    ∧ xtime x = Aes.Baseline.xtime x := by
  decide!

end AesTest

/-! ## AES-128 of `aes_test.c`: `xtime`, the claim -/

namespace AesTest

/-- C30. For every byte `x`, the `xtime` of `aes_filesv2/testv1.c` is the
product of `x` and `2` in GF(2^8) modulo `0x11B`, that is `((2x) mod 256) xor
0x1B` when `x >= 0x80` and `2x` otherwise, and the branch-based `xtime` of
`aes_test.c` returns the same value. -/
theorem xtime_is_doubling (x : Nat) (hx : x < 256) :
    Aes.Baseline.xtime x = Aes.gf_mul x 2
    ∧ Aes.Baseline.xtime x = (if x ≥ 0x80 then ((2 * x) % 256) ^^^ 0x1B else 2 * x)
    ∧ xtime x = Aes.Baseline.xtime x :=
  xtime_table x hx

theorem xtime_is_doubling_witness :
    Aes.Baseline.xtime 0x80 = Aes.gf_mul 0x80 2
    ∧ Aes.Baseline.xtime 0x80
        = (if 0x80 ≥ 0x80 then ((2 * 0x80) % 256) ^^^ 0x1B else 2 * 0x80)
    ∧ xtime 0x80 = Aes.Baseline.xtime 0x80 :=
  xtime_is_doubling 0x80 (by decide)

end AesTest

/-! ## SHA-256: the message schedule -/

namespace Sha

theorem rd_lt_of_bytes (l : List Nat) (k : Nat) (hb : ∀ b, b ∈ l → b < 256) : rd l k < 256 := by
  unfold rd
  by_cases h : k < l.length
  · rw [List.getD_eq_getElem _ _ h]
    exact hb _ (List.getElem_mem h)
  · rw [List.getD_eq_default _ _ (by omega)]
    omega

theorem ROTR_eq (x n : Nat) (hx : x < 2 ^ 32) (h0 : 0 < n) (hn : n < 32) :
    ROTR x n = x / 2 ^ n + (x % 2 ^ n) * 2 ^ (32 - n) := by
  have hp : (2 : Nat) ^ 32 = 2 ^ n * 2 ^ (32 - n) := by
    rw [← Nat.pow_add]; congr 1; omega
  have hm : x * 2 ^ (32 - n) % 2 ^ 32 = (x % 2 ^ n) * 2 ^ (32 - n) := by
    rw [hp, Nat.mul_mod_mul_right]
  have hd : x / 2 ^ n < 2 ^ (32 - n) := by
    rw [Nat.div_lt_iff_lt_mul (Nat.two_pow_pos n), Nat.mul_comm, ← hp]
    exact hx
  rw [ROTR, Nat.shiftRight_eq_div_pow, Nat.shiftLeft_eq, hm, Nat.or_comm,
    Aes.or_eq_add_of_dvd _ _ (32 - n) (Nat.mul_mod_left _ _) hd, Nat.add_comm]

theorem load_big_endian (block : List Nat) (i : Nat) (hb : ∀ b, b ∈ block → b < 256) :
    bswap_32 (load32 block i)
      = rd block (4 * i) * 2 ^ 24 + rd block (4 * i + 1) * 2 ^ 16 + rd block (4 * i + 2) * 2 ^ 8
        + rd block (4 * i + 3) := by
  have h0 := rd_lt_of_bytes block (4 * i) hb
  have h1 := rd_lt_of_bytes block (4 * i + 1) hb
  have h2 := rd_lt_of_bytes block (4 * i + 2) hb
  have h3 := rd_lt_of_bytes block (4 * i + 3) hb
  rw [bswap_32_eq, load32]
  generalize rd block (4 * i) = b0 at *
  generalize rd block (4 * i + 1) = b1 at *
  generalize rd block (4 * i + 2) = b2 at *
  generalize rd block (4 * i + 3) = b3 at *
  omega

/-- C25. For every 64-byte block, the message schedule of the baseline
`sha256_transform` has `w[i] = block[4i]*2^24 + block[4i+1]*2^16 + block[4i+2]*2^8
+ block[4i+3]` for `i < 16` and `w[i] = sigma1(w[i-2]) + w[i-7] + sigma0(w[i-15])
+ w[i-16]` modulo `2^32` for `16 <= i < 64`, where `sigma0(x) = rotr(x,7) xor
rotr(x,18) xor (x >> 3)`, `sigma1(x) = rotr(x,17) xor rotr(x,19) xor (x >> 10)`
and `ROTR` rotates a 32-bit word to the right. -/
theorem schedule_spec (block : List Nat) (hb : ∀ b, b ∈ block → b < 256) :
    (Baseline.schedule block).length = 64
    ∧ (∀ i, i < 16 →
        rd (Baseline.schedule block) i
          = rd block (4 * i) * 2 ^ 24 + rd block (4 * i + 1) * 2 ^ 16
            + rd block (4 * i + 2) * 2 ^ 8 + rd block (4 * i + 3))
    ∧ (∀ i, 16 ≤ i → i < 64 →
        rd (Baseline.schedule block) i
          = (sigma1 (rd (Baseline.schedule block) (i - 2)) + rd (Baseline.schedule block) (i - 7)
              + sigma0 (rd (Baseline.schedule block) (i - 15))
              + rd (Baseline.schedule block) (i - 16)) % 2 ^ 32)
    ∧ (∀ x, sigma0 x = ROTR x 7 ^^^ ROTR x 18 ^^^ (x >>> 3))
    ∧ (∀ x, sigma1 x = ROTR x 17 ^^^ ROTR x 19 ^^^ (x >>> 10))
    ∧ (∀ x n, x < 2 ^ 32 → 0 < n → n < 32 →
        ROTR x n = x / 2 ^ n + (x % 2 ^ n) * 2 ^ (32 - n)) := by
  have hl1 : (forLoop 16 0 (fun i w => wr w i (bswap_32 (load32 block i)))
      (List.replicate 64 0)).length = 64 := by
    rw [length_forLoop _ _ _ _ (fun _ _ => length_wr _ _ _), List.length_replicate]
  refine ⟨?_, ?_, ?_, fun _ => rfl, fun _ => rfl, ROTR_eq⟩
  · simp only [Baseline.schedule, forRange]
    rw [length_forLoop _ _ _ _ (fun _ _ => length_wr _ _ _), hl1]
  · intro i hi
    simp only [Baseline.schedule, forRange, Nat.sub_zero, Nat.reduceSub]
    rw [rd_forLoop_wr_lt (fun i w => (sigma1 (rd w (i - 2)) + rd w (i - 7) + sigma0 (rd w (i - 15))
        + rd w (i - 16)) % 2 ^ 32) 48 16 i _ (by omega),
      rd_forLoop_wr_self (fun i _ => bswap_32 (load32 block i)) 16 0 i _ (by omega) (by omega)
        (by rw [List.length_replicate]; omega)]
    exact load_big_endian block i hb
  · intro i h16 h64
    simp only [Baseline.schedule, forRange, Nat.sub_zero, Nat.reduceSub]
    generalize hW1 : forLoop 16 0 (fun i w => wr w i (bswap_32 (load32 block i)))
      (List.replicate 64 0) = W1
    rw [hW1] at hl1
    have e : 48 = (i - 16) + (64 - i) := by omega
    have e2 : 16 + (i - 16) = i := by omega
    have hlt : ∀ k, k < i →
        rd (forLoop 48 16 (fun i w => wr w i ((sigma1 (rd w (i - 2)) + rd w (i - 7)
          + sigma0 (rd w (i - 15)) + rd w (i - 16)) % 2 ^ 32)) W1) k
        = rd (forLoop (i - 16) 16 (fun i w => wr w i ((sigma1 (rd w (i - 2)) + rd w (i - 7)
          + sigma0 (rd w (i - 15)) + rd w (i - 16)) % 2 ^ 32)) W1) k := by
      intro k hk
      rw [e, forLoop_add, e2]
      exact rd_forLoop_wr_lt (fun i w => (sigma1 (rd w (i - 2)) + rd w (i - 7)
        + sigma0 (rd w (i - 15)) + rd w (i - 16)) % 2 ^ 32) _ _ _ _ hk
    rw [hlt (i - 2) (by omega), hlt (i - 7) (by omega), hlt (i - 15) (by omega),
      hlt (i - 16) (by omega)]
    exact rd_forLoop_wr_self (fun i w => (sigma1 (rd w (i - 2)) + rd w (i - 7)
      + sigma0 (rd w (i - 15)) + rd w (i - 16)) % 2 ^ 32) 48 16 i W1 h16 (by omega) (by omega)

theorem schedule_spec_witness :
    (Baseline.schedule empty_block).length = 64
    ∧ (∀ i, i < 16 →
        rd (Baseline.schedule empty_block) i
          = rd empty_block (4 * i) * 2 ^ 24 + rd empty_block (4 * i + 1) * 2 ^ 16
            + rd empty_block (4 * i + 2) * 2 ^ 8 + rd empty_block (4 * i + 3))
    ∧ (∀ i, 16 ≤ i → i < 64 →
        rd (Baseline.schedule empty_block) i
          = (sigma1 (rd (Baseline.schedule empty_block) (i - 2))
              + rd (Baseline.schedule empty_block) (i - 7)
              + sigma0 (rd (Baseline.schedule empty_block) (i - 15))
              + rd (Baseline.schedule empty_block) (i - 16)) % 2 ^ 32)
    ∧ (∀ x, sigma0 x = ROTR x 7 ^^^ ROTR x 18 ^^^ (x >>> 3))
    ∧ (∀ x, sigma1 x = ROTR x 17 ^^^ ROTR x 19 ^^^ (x >>> 10))
    ∧ (∀ x n, x < 2 ^ 32 → 0 < n → n < 32 →
        ROTR x n = x / 2 ^ n + (x % 2 ^ n) * 2 ^ (32 - n)) :=
  schedule_spec empty_block (by simp [empty_block])

end Sha

/-! ## SHA-256 of `sha_filesv1`: the table `K` and the padding -/

namespace ShaV1

/-- C26 (evaluation of the table). The table `K` of `sha_filesv1` agrees with
`sha256_k` of `sha_filesv2/testv1.c` at the indices `0..16` only: it differs at
every index from `17` to `63`, and its last eight entries are zero because the
initialiser has 56 values. -/
theorem K_is_not_sha256_k :
    (∀ i, i < 17 → rd K i = rd Sha.sha256_k i)
    ∧ (∀ i, 17 ≤ i → i < 64 → rd K i ≠ rd Sha.sha256_k i)
    ∧ (∀ i, 56 ≤ i → i < 64 → rd K i = 0)
    ∧ K.length = 64 ∧ Sha.sha256_k.length = 64 := by
  decide!

theorem v1_foldl_transform_calls (bs : List (List Nat)) (s : hash_state) :
    (bs.foldl sha256_transform s).calls = s.calls ++ bs := by
  induction bs generalizing s with
  | nil => simp
  | cons b bs ih => rw [List.foldl_cons, ih]; simp [sha256_transform]

namespace Workload2

theorem w2_update_loop_eq (fuel : Nat) (state : hash_state) (data : List Nat) (len : Nat)
    (hf : len / 64 ≤ fuel) (hl : data.length = len) :
    sha256_update_loop fuel state data len
      = (Sha.full_blocks data).foldl sha256_transform state := by
  induction fuel generalizing state data len with
  | zero =>
    have hlt : data.length < 64 := by omega
    rw [Sha.full_blocks_of_lt data hlt]
    rfl
  | succ fuel ih =>
    by_cases hge : 64 ≤ len
    · have hstep : sha256_update_loop (fuel + 1) state data len
          = sha256_update_loop fuel (sha256_transform state (data.take 64)) (data.drop 64)
              (len - 64) := by
        simp [sha256_update_loop, hge]
      rw [hstep, ih _ _ _ (by omega) (by rw [List.length_drop]; omega),
        Sha.full_blocks_of_ge data (by omega)]
      rfl
    · have hlt : data.length < 64 := by omega
      rw [Sha.full_blocks_of_lt data hlt]
      simp [sha256_update_loop, hge]

theorem w2_update_eq (state : hash_state) (data : List Nat) :
    sha256_update state data data.length = (Sha.full_blocks data).foldl sha256_transform state :=
  w2_update_loop_eq _ _ _ _ (Nat.div_le_self _ _) rfl

theorem w2_update_block (state : hash_state) (block : List Nat) (h : block.length = 64) :
    sha256_update state block 64 = sha256_transform state block := by
  have := w2_update_eq state block
  rw [h] at this
  rw [this, Sha.full_blocks_of_ge block (by omega), Sha.full_blocks_of_lt _ (by simp [h])]
  simp [List.take_of_length_le (Nat.le_of_eq h)]

theorem store_length (f : Nat → Nat) (Y Z : List Nat) (hy : Y.length = 56) (hz : Z.length = 8) :
    forRange 0 8 (fun i block => wr block (63 - i) (f i)) (Y ++ Z)
      = Y ++ [f 7, f 6, f 5, f 4, f 3, f 2, f 1, f 0] := by
  obtain ⟨z0, l1, e1, h1⟩ := exists_cons_of_length_succ Z 7 hz
  obtain ⟨z1, l2, e2, h2⟩ := exists_cons_of_length_succ l1 6 h1
  obtain ⟨z2, l3, e3, h3⟩ := exists_cons_of_length_succ l2 5 h2
  obtain ⟨z3, l4, e4, h4⟩ := exists_cons_of_length_succ l3 4 h3
  obtain ⟨z4, l5, e5, h5⟩ := exists_cons_of_length_succ l4 3 h4
  obtain ⟨z5, l6, e6, h6⟩ := exists_cons_of_length_succ l5 2 h5
  obtain ⟨z6, l7, e7, h7⟩ := exists_cons_of_length_succ l6 1 h6
  obtain ⟨z7, l8, e8, h8⟩ := exists_cons_of_length_succ l7 0 h7
  have hnil : l8 = [] := List.length_eq_zero.mp h8
  subst e8 e7 e6 e5 e4 e3 e2 e1 hnil
  simp [forRange, forLoop, wr, List.set_append, hy]

theorem and_ff (x : Nat) : x &&& 0xff = x % 256 := by
  have := Sha.and_byte_mask x 0
  simpa using this

end Workload2

end ShaV1

/-! ## SHA-256 of `sha_filesv1`: the blocks of `sha256_final` -/

namespace ShaV1

namespace Workload2

theorem w2_final_calls (state : hash_state) (data hash0 : List Nat) :
    (sha256_final state data data.length hash0).1.calls
      = state.calls ++ Sha.final_blocks (Sha.tail_bytes data) (data.length % 2 ^ 64) := by
  have hT := Sha.length_tail_bytes data
  have hr : data.length % 64 < 64 := Nat.mod_lt _ (by omega)
  have hdrop : data.drop (data.length - data.length % 64) = Sha.tail_bytes data := by
    have e : data.length - data.length % 64 = 64 * (data.length / 64) := by omega
    rw [e]; rfl
  have hblock : wr (Sha.memcpy (List.replicate 64 0) 0 (data.drop (data.length - data.length % 64))
        (data.length % 64)) (data.length % 64) 0x80
      = Sha.tail_bytes data ++ 0x80 :: List.replicate (63 - data.length % 64) 0 := by
    rw [hdrop, Sha.memcpy, List.take_zero, List.nil_append, Nat.zero_add,
      List.take_of_length_le (by omega), List.drop_replicate, wr,
      List.set_append_right _ _ (by omega), hT, Nat.sub_self]
    have e : 64 - data.length % 64 = (63 - data.length % 64) + 1 := by omega
    rw [e, List.replicate_succ, List.set_cons_zero]
  have hbl : data.length * 8 % 2 ^ 64 = data.length % 2 ^ 64 * 8 % 2 ^ 64 := by omega
  by_cases hc : data.length % 64 > 55
  · have hc2 : data.length % 64 + 1 > 56 := by omega
    have hz : Sha.memset (Sha.tail_bytes data ++ 0x80 :: List.replicate (63 - data.length % 64) 0)
        0 0 64 = List.replicate 56 0 ++ List.replicate 8 0 := by
      rw [Sha.memset, List.drop_eq_nil_of_le (by simp [hT]; omega)]
      simp
    simp only [sha256_final, hblock, hc, if_true, hz]
    rw [store_length _ _ _ (List.length_replicate _ _) (List.length_replicate _ _),
      w2_update_block _ _ (by simp),
      w2_update_block _ _ (by
        simp only [List.length_append, List.length_cons, List.length_replicate, hT]
        omega)]
    simp only [Sha.final_blocks, hc2, if_true, Sha.bytes64_bswap_64, Sha.be64, sha256_transform,
      and_ff, hT, hbl, Nat.mul_zero, Nat.shiftRight_zero, List.append_assoc, Nat.reduceMul,
      List.cons_append, List.nil_append]
  · have hc2 : ¬ data.length % 64 + 1 > 56 := by omega
    have e1 : 63 - data.length % 64 = (55 - data.length % 64) + 8 := by omega
    have hsplit : Sha.tail_bytes data ++ 0x80 :: List.replicate (63 - data.length % 64) 0
        = (Sha.tail_bytes data ++ 0x80 :: List.replicate (55 - data.length % 64) 0)
          ++ List.replicate 8 0 := by
      rw [e1, List.replicate_add]; simp
    simp only [sha256_final, hblock, hc, if_false]
    rw [hsplit, store_length _ _ _ (by
        simp only [List.length_append, List.length_cons, List.length_replicate, hT]
        omega)
        (List.length_replicate _ _),
      w2_update_block _ _ (by
        simp only [List.length_append, List.length_cons, List.length_replicate, List.length_nil,
          hT]
        omega)]
    simp only [Sha.final_blocks, hc2, if_false, Sha.bytes64_bswap_64, Sha.be64, sha256_transform,
      and_ff, hT, hbl, Nat.mul_zero, Nat.shiftRight_zero, List.append_assoc, Nat.reduceMul,
      List.cons_append, List.nil_append]

theorem w2_calls_eq_padded_blocks (state0 : hash_state) (data hash0 : List Nat) :
    (sha256_final (sha256_update (sha256_init state0) data data.length) data data.length
        hash0).1.calls = Sha.padded_blocks data := by
  rw [w2_final_calls, w2_update_eq, v1_foldl_transform_calls]
  rfl

end Workload2

end ShaV1

/-! ## SHA-256 of `sha_filesv1`: padding and the partial block, the claims -/

namespace ShaV1

namespace Workload2

/-- C27. For every message `data` of `n < 2^61` bytes, the blocks passed to
`sha256_transform` by `sha256_update(state, data, n)` followed by
`sha256_final(state, data, n, hash)` of `sha_workloadv2.c` are 64 bytes each and
their concatenation is `data`, then `0x80`, then `z` zero bytes, then the 64-bit
big-endian encoding of `8n`, with `z` the least number making the total length
a multiple of 64; there are `n / 64 + 2` blocks when `n mod 64 > 55` and
`n / 64 + 1` otherwise. -/
theorem workload2_padding (state0 : hash_state) (data hash0 : List Nat)
    (hn : data.length < 2 ^ 61) :
    ∃ z, (data.length + 1 + z + 8) % 64 = 0
      ∧ (∀ z2, (data.length + 1 + z2 + 8) % 64 = 0 → z ≤ z2)
      ∧ (sha256_final (sha256_update (sha256_init state0) data data.length) data data.length
            hash0).1.calls.flatten
          = data ++ 0x80 :: List.replicate z 0 ++ Sha.be64 (8 * data.length)
      ∧ (∀ b, b ∈ (sha256_final (sha256_update (sha256_init state0) data data.length) data
            data.length hash0).1.calls → b.length = 64)
      ∧ (sha256_final (sha256_update (sha256_init state0) data data.length) data data.length
            hash0).1.calls.length
          = data.length / 64 + (if data.length % 64 > 55 then 2 else 1) := by
  rw [w2_calls_eq_padded_blocks]
  refine ⟨if data.length % 64 + 1 > 56 then 119 - data.length % 64 else 55 - data.length % 64,
    ?_, ?_, Sha.flatten_padded_blocks _ hn, ?_, ?_⟩
  · split_ifs <;> omega
  · intro z2 hz2
    split_ifs <;> omega
  · intro b hmem
    rcases List.mem_append.mp hmem with h | h
    · exact Sha.length_of_mem_full_blocks _ _ h
    · exact Sha.length_of_mem_final_blocks _ _ _
        (by rw [Sha.length_tail_bytes]; exact Nat.mod_lt _ (by omega)) h
  · rw [Sha.length_padded_blocks]
    by_cases hc : data.length % 64 > 55
    · have hc2 : data.length % 64 + 1 > 56 := by omega
      simp [hc, hc2]
    · have hc2 : ¬ data.length % 64 + 1 > 56 := by omega
      simp [hc, hc2]

theorem workload2_padding_witness :
    ∃ z, ((List.replicate 60 7).length + 1 + z + 8) % 64 = 0
      ∧ (∀ z2, ((List.replicate 60 7).length + 1 + z2 + 8) % 64 = 0 → z ≤ z2)
      ∧ (sha256_final (sha256_update (sha256_init ⟨List.replicate 8 0, []⟩) (List.replicate 60 7)
            (List.replicate 60 7).length) (List.replicate 60 7) (List.replicate 60 7).length
            (List.replicate 32 0)).1.calls.flatten
          = List.replicate 60 7 ++ 0x80 :: List.replicate z 0
              ++ Sha.be64 (8 * (List.replicate 60 7).length)
      ∧ (∀ b, b ∈ (sha256_final (sha256_update (sha256_init ⟨List.replicate 8 0, []⟩)
            (List.replicate 60 7) (List.replicate 60 7).length) (List.replicate 60 7)
            (List.replicate 60 7).length (List.replicate 32 0)).1.calls → b.length = 64)
      ∧ (sha256_final (sha256_update (sha256_init ⟨List.replicate 8 0, []⟩) (List.replicate 60 7)
            (List.replicate 60 7).length) (List.replicate 60 7) (List.replicate 60 7).length
            (List.replicate 32 0)).1.calls.length
          = (List.replicate 60 7).length / 64
            + (if (List.replicate 60 7).length % 64 > 55 then 2 else 1) :=
  workload2_padding ⟨List.replicate 8 0, []⟩ (List.replicate 60 7) (List.replicate 32 0)
    (by simp)

end Workload2

/-- C28 (evaluation at the failing input). For the one-byte message `01`
followed in memory by the byte `02`, `sha256_final` of `sha_code_workloadv1.c`
copies the partial block from `data + len`: the block it compresses starts
with `02`, the byte after the message, where `sha_workloadv2.c` compresses the
block starting with `01`. The two digests differ, and the digest of
`sha_code_workloadv1.c` changes with the byte after the message while that of
`sha_workloadv2.c` does not. -/
theorem workload1_reads_past_message :
    (Workload1.sha256_final (Workload1.sha256_update (sha256_init ⟨List.replicate 8 0, []⟩)
        [1, 2] 1) [1, 2] 1 (List.replicate 32 0)).1.calls
      = [2 :: 0x80 :: (List.replicate 61 0 ++ [8])]
    ∧ (Workload2.sha256_final (Workload2.sha256_update (sha256_init ⟨List.replicate 8 0, []⟩)
        [1, 2] 1) [1, 2] 1 (List.replicate 32 0)).1.calls
      = [1 :: 0x80 :: (List.replicate 61 0 ++ [8])]
    ∧ Workload1.hash_message ⟨List.replicate 8 0, []⟩ (List.replicate 32 0) [1, 2] 1
      ≠ Workload2.hash_message ⟨List.replicate 8 0, []⟩ (List.replicate 32 0) [1, 2] 1
    ∧ Workload1.hash_message ⟨List.replicate 8 0, []⟩ (List.replicate 32 0) [1, 2] 1
      ≠ Workload1.hash_message ⟨List.replicate 8 0, []⟩ (List.replicate 32 0) [1, 3] 1
    ∧ Workload2.hash_message ⟨List.replicate 8 0, []⟩ (List.replicate 32 0) [1, 2] 1
      = Workload2.hash_message ⟨List.replicate 8 0, []⟩ (List.replicate 32 0) [1, 3] 1 := by
  decide!

end ShaV1

/-! ## AES-128 file encryption: one block -/

namespace Aes

theorem length_sset (state : List Nat) (r c v : Nat) : (sset state r c v).length = state.length :=
  length_wr _ _ _

theorem length_state_AddRoundKey (round : Nat) (state rk : List Nat) :
    (AddRoundKey round state rk).length = state.length :=
  length_forLoop _ _ _ _ (fun _ _ => length_forLoop _ _ _ _ (fun _ _ => length_sset _ _ _ _))

theorem length_state_SubBytes (state : List Nat) : (SubBytes state).length = state.length :=
  length_forLoop _ _ _ _ (fun _ _ => length_forLoop _ _ _ _ (fun _ _ => length_sset _ _ _ _))

theorem length_state_ShiftRows (accel : Bool) (state : List Nat) :
    (ShiftRows accel state).length = state.length := by
  cases accel
  · simp [ShiftRows, Baseline.ShiftRows, length_sset]
  · simp [ShiftRows, Accel.ShiftRows, Accel.unpack_row, length_sset]

theorem length_state_MixColumns (accel : Bool) (state : List Nat) :
    (MixColumns accel state).length = state.length := by
  cases accel
  · simp only [MixColumns, Bool.false_eq_true, if_false, Baseline.MixColumns]
    exact length_forLoop _ _ _ _ (fun _ _ => by simp only [length_sset])
  · simp only [MixColumns, if_true, Accel.MixColumns]
    exact length_forLoop _ _ _ _ (fun _ _ => by simp only [length_sset])

theorem length_aes_encrypt (accel : Bool) (state rk : List Nat) :
    (aes_encrypt accel state rk).length = state.length := by
  simp only [aes_encrypt, length_state_AddRoundKey, length_state_ShiftRows,
    length_state_SubBytes]
  rw [forRange, length_forLoop _ _ _ _ (fun i t => by
    simp only [length_state_AddRoundKey, length_state_MixColumns, length_state_ShiftRows,
      length_state_SubBytes]), length_state_AddRoundKey]

end Aes

namespace AesFile

theorem block_to_state_eq (block st : List Nat) (h : st.length = 16) :
    block_to_state block st =
      [rd block 0, rd block 4, rd block 8, rd block 12, rd block 1, rd block 5, rd block 9,
       rd block 13, rd block 2, rd block 6, rd block 10, rd block 14, rd block 3, rd block 7,
       rd block 11, rd block 15] := by
  obtain ⟨a0, a1, a2, a3, a4, a5, a6, a7, a8, a9, a10, a11, a12, a13, a14, a15, rfl⟩ :=
    Aes.length_sixteen st h
  rfl

theorem state_to_block_eq (state out : List Nat) (h : out.length = 16) :
    state_to_block state out =
      [Aes.sget state 0 0, Aes.sget state 1 0, Aes.sget state 2 0, Aes.sget state 3 0,
       Aes.sget state 0 1, Aes.sget state 1 1, Aes.sget state 2 1, Aes.sget state 3 1,
       Aes.sget state 0 2, Aes.sget state 1 2, Aes.sget state 2 2, Aes.sget state 3 2,
       Aes.sget state 0 3, Aes.sget state 1 3, Aes.sget state 2 3, Aes.sget state 3 3] := by
  obtain ⟨a0, a1, a2, a3, a4, a5, a6, a7, a8, a9, a10, a11, a12, a13, a14, a15, rfl⟩ :=
    Aes.length_sixteen out h
  rfl

theorem length_encrypt_chunk (accel : Bool) (rk block : List Nat) :
    (encrypt_chunk accel rk block).length = 16 := by
  rw [encrypt_chunk, state_to_block_eq _ _ (List.length_replicate _ _)]
  rfl

theorem encrypt_and_write_eq (accel : Bool) (rk ib ob st inf outf : List Nat)
    (hs : st.length = 16) (ho : ob.length = 16) :
    encrypt_and_write accel rk ⟨ib, ob, st, inf, outf⟩
      = ⟨ib, encrypt_chunk accel rk ib, Aes.aes_encrypt accel (block_to_state ib st) rk, inf,
          outf ++ encrypt_chunk accel rk ib⟩ := by
  have e : state_to_block (Aes.aes_encrypt accel (block_to_state ib st) rk) ob
      = encrypt_chunk accel rk ib := by
    rw [encrypt_chunk, state_to_block_eq _ _ ho,
      state_to_block_eq _ _ (List.length_replicate _ _), block_to_state_eq _ _ hs,
      block_to_state_eq _ _ (List.length_replicate _ _)]
  have hl := length_encrypt_chunk accel rk ib
  simp only [encrypt_and_write, e, AES_BLOCK_SIZE, List.take_of_length_le (Nat.le_of_eq hl)]

theorem chunks_of_ge (l : List Nat) (h : 16 ≤ l.length) :
    chunks (l.length / 16) l = l.take 16 :: chunks ((l.drop 16).length / 16) (l.drop 16) := by
  have e : l.length / 16 = (l.length - 16) / 16 + 1 := by omega
  rw [List.length_drop, e]
  rfl

theorem drop_tail_of_ge (l : List Nat) (h : 16 ≤ l.length) :
    (l.drop 16).drop (16 * ((l.drop 16).length / 16)) = l.drop (16 * (l.length / 16)) := by
  rw [List.drop_drop, List.length_drop]
  congr 1
  omega

theorem encrypt_loop_nil (accel : Bool) (rk : List Nat) (fuel : Nat)
    (ib ob st outf : List Nat) :
    encrypt_loop accel rk fuel ⟨ib, ob, st, [], outf⟩ = ⟨ib, ob, st, [], outf⟩ := by
  cases fuel with
  | zero => rfl
  | succ fuel => simp [encrypt_loop, Sha.memcpy]

end AesFile

/-! ## AES-128 file encryption: the loop -/

namespace AesFile

theorem encrypt_loop_spec (accel : Bool) (rk : List Nat) (fuel : Nat)
    (ib ob st inf outf : List Nat)
    (hf : inf.length / 16 + 1 ≤ fuel) (hi : ib.length = 16)
    (ho : ob.length = 16) (hs : st.length = 16) :
    (encrypt_loop accel rk fuel ⟨ib, ob, st, inf, outf⟩).out_file
        = outf ++ ((chunks (inf.length / 16) inf).map (encrypt_chunk accel rk)).flatten
          ++ (if inf.length % 16 = 0 then []
              else encrypt_chunk accel rk (inf.drop (16 * (inf.length / 16))
                ++ List.replicate (16 - inf.length % 16) (16 - inf.length % 16)))
    ∧ (encrypt_loop accel rk fuel ⟨ib, ob, st, inf, outf⟩).in_block.length = 16
    ∧ (encrypt_loop accel rk fuel ⟨ib, ob, st, inf, outf⟩).out_block.length = 16
    ∧ (encrypt_loop accel rk fuel ⟨ib, ob, st, inf, outf⟩).state.length = 16 := by
  induction fuel generalizing ib ob st inf outf with
  | zero => omega
  | succ fuel ih =>
    by_cases h0 : inf.length = 0
    · have hnil : inf = [] := List.length_eq_zero.mp h0
      subst hnil
      rw [encrypt_loop_nil]
      simp [chunks, hi, ho, hs]
    · by_cases hlt : inf.length < 16
      · -- the last, partial block
        have hmin : min 16 inf.length = inf.length := by omega
        have hpad : (16 - inf.length) % 256 = 16 - inf.length := by omega
        have hpos : 0 < inf.length := by omega
        have hblk : Sha.memset (Sha.memcpy ib 0 inf inf.length)
            inf.length (16 - inf.length) (16 - inf.length)
            = inf ++ List.replicate (16 - inf.length) (16 - inf.length) := by
          have e : inf.length + (16 - inf.length) = 16 := by omega
          simp only [Sha.memset, Sha.memcpy, List.take_zero, List.nil_append, Nat.zero_add,
            List.take_length, e]
          rw [List.take_left, List.drop_eq_nil_of_le (by
            rw [List.length_append, List.length_drop]; omega), List.append_nil]
        have hstep : encrypt_loop accel rk (fuel + 1) ⟨ib, ob, st, inf, outf⟩
            = encrypt_loop accel rk fuel (encrypt_and_write accel rk
                ⟨inf ++ List.replicate (16 - inf.length) (16 - inf.length), ob, st, [], outf⟩) := by
          simp only [encrypt_loop, AES_BLOCK_SIZE, hmin, hpos, hlt, if_true, gt_iff_lt, hpad,
            hblk, List.drop_length]
        have hd : inf.length / 16 = 0 := Nat.div_eq_of_lt hlt
        have hm : inf.length % 16 = inf.length := Nat.mod_eq_of_lt hlt
        rw [hstep, encrypt_and_write_eq accel rk _ _ _ _ _ hs ho, encrypt_loop_nil, hd, hm]
        simp only [chunks, List.map_nil, List.flatten_nil, List.append_nil, h0, if_false,
          Nat.mul_zero, List.drop_zero, length_encrypt_chunk, Aes.length_aes_encrypt,
          List.length_append, List.length_replicate, true_and]
        refine ⟨by omega, ?_⟩
        rw [block_to_state_eq _ _ hs]
        rfl
      · -- a complete block
        have hge : 16 ≤ inf.length := by omega
        have hmin : min 16 inf.length = 16 := by omega
        have hstep : encrypt_loop accel rk (fuel + 1) ⟨ib, ob, st, inf, outf⟩
            = encrypt_loop accel rk fuel (encrypt_and_write accel rk
                ⟨inf.take 16, ob, st, inf.drop 16, outf⟩) := by
          simp only [encrypt_loop, AES_BLOCK_SIZE, hmin, Nat.lt_irrefl, if_false, if_true,
            gt_iff_lt, Nat.zero_lt_succ, AesTest.memcpy_full _ _ 16 hi]
        rw [hstep, encrypt_and_write_eq accel rk _ _ _ _ _ hs ho]
        obtain ⟨r1, r2, r3, r4⟩ := ih (inf.take 16) (encrypt_chunk accel rk (inf.take 16))
          (Aes.aes_encrypt accel (block_to_state (inf.take 16) st) rk) (inf.drop 16)
          (outf ++ encrypt_chunk accel rk (inf.take 16))
          (by simp only [List.length_drop]; omega)
          (by simp only [List.length_take]; omega)
          (length_encrypt_chunk _ _ _)
          (by rw [Aes.length_aes_encrypt, block_to_state_eq _ _ hs]; rfl)
        refine ⟨?_, r2, r3, r4⟩
        have hmod : (inf.drop 16).length % 16 = inf.length % 16 := by
          rw [List.length_drop]; omega
        rw [r1, chunks_of_ge _ hge, drop_tail_of_ge _ hge, hmod]
        simp only [List.map_cons, List.flatten_cons, List.append_assoc, List.length_drop]

end AesFile

/-! ## AES-128 file encryption: the output as a sequence of blocks -/

namespace AesFile

theorem length_chunks (n : Nat) (l : List Nat) : (chunks n l).length = n := by
  induction n generalizing l with
  | zero => rfl
  | succ n ih => simp [chunks, ih]

theorem getD_chunks (n k : Nat) (m : List Nat) (hk : k < n) :
    (chunks n m).getD k [] = (m.drop (16 * k)).take 16 := by
  induction n generalizing m k with
  | zero => omega
  | succ n ih =>
    cases k with
    | zero => simp [chunks]
    | succ k =>
      simp only [chunks, List.getD_cons_succ]
      rw [ih k (m.drop 16) (by omega), List.drop_drop]
      congr 2
      omega

theorem block_of_flatten (L : List (List Nat)) (X : List Nat)
    (hL : ∀ b, b ∈ L → b.length = 16) (i : Nat) (hi : i < L.length) :
    ((L.flatten ++ X).drop (16 * i)).take 16 = L.getD i [] := by
  induction L generalizing i with
  | nil => simp at hi
  | cons b L ih =>
    have hb : b.length = 16 := hL b (List.mem_cons_self _ _)
    cases i with
    | zero =>
      simp only [Nat.mul_zero, List.drop_zero, List.flatten_cons, List.append_assoc,
        List.getD_cons_zero]
      rw [List.take_append_of_le_length (by omega), List.take_of_length_le (by omega)]
    | succ i =>
      have e : 16 * (i + 1) = b.length + 16 * i := by omega
      simp only [List.flatten_cons, List.append_assoc, List.getD_cons_succ]
      rw [e, List.drop_append]
      exact ih (fun c hc => hL c (List.mem_cons_of_mem _ hc)) i (by simpa using hi)

theorem drop_flatten (L : List (List Nat)) (X : List Nat)
    (hL : ∀ b, b ∈ L → b.length = 16) : (L.flatten ++ X).drop (16 * L.length) = X := by
  induction L with
  | nil => simp
  | cons b L ih =>
    have hb : b.length = 16 := hL b (List.mem_cons_self _ _)
    have e : 16 * (b :: L).length = b.length + 16 * L.length := by
      rw [List.length_cons]; omega
    simp only [List.flatten_cons, List.append_assoc]
    rw [e, List.drop_append]
    exact ih (fun c hc => hL c (List.mem_cons_of_mem _ hc))

theorem length_flatten_blocks (L : List (List Nat)) (hL : ∀ b, b ∈ L → b.length = 16) :
    L.flatten.length = 16 * L.length := by
  induction L with
  | nil => rfl
  | cons b L ih =>
    have hb : b.length = 16 := hL b (List.mem_cons_self _ _)
    rw [List.flatten_cons, List.length_append, ih (fun c hc => hL c (List.mem_cons_of_mem _ hc)),
      hb, List.length_cons]
    omega

theorem encrypt_file_eq (accel : Bool) (rk in0 out0 st0 input : List Nat)
    (hin : in0.length = 16) (hout : out0.length = 16) (hst : st0.length = 16)
    (hn : 0 < input.length) :
    encrypt_file accel rk in0 out0 st0 input input.length
      = ((chunks (input.length / 16) input).map (encrypt_chunk accel rk)).flatten
        ++ encrypt_chunk accel rk (input.drop (16 * (input.length / 16))
            ++ List.replicate (16 - input.length % 16) (16 - input.length % 16)) := by
  obtain ⟨r1, r2, r3, r4⟩ := encrypt_loop_spec accel rk (input.length + 1) in0 out0 st0 input []
    (by have := Nat.div_le_self input.length 16; omega) hin hout hst
  simp only [encrypt_file]
  generalize encrypt_loop accel rk (input.length + 1) ⟨in0, out0, st0, input, []⟩ = r at *
  obtain ⟨ib, ob, st, inf, outf⟩ := r
  simp only [] at r1 r2 r3 r4
  by_cases hm : input.length % 16 = 0
  · have hz : Sha.memset ib 0 16 16 = List.replicate 16 16 := by
      rw [Sha.memset, List.drop_eq_nil_of_le (by omega)]
      simp
    have htail : input.drop (16 * (input.length / 16)) = [] :=
      List.drop_eq_nil_of_le (by omega)
    simp only [hn, hm, AES_BLOCK_SIZE, gt_iff_lt, and_self, if_true, hz]
    rw [encrypt_and_write_eq accel rk _ _ _ _ _ r4 r3]
    simp only [r1, hm, if_true, List.append_nil, List.nil_append, htail, Nat.sub_zero]
  · simp only [hn, hm, AES_BLOCK_SIZE, gt_iff_lt, and_false, if_false, r1, List.nil_append]

end AesFile

/-! ## AES-128 file encryption: the claim -/

namespace AesFile

theorem getD_map_chunks (f : List Nat → List Nat) (L : List (List Nat)) (i : Nat)
    (hi : i < L.length) : (L.map f).getD i [] = f (L.getD i []) := by
  rw [List.getD_eq_getElem _ _ (by simpa using hi), List.getD_eq_getElem _ _ hi,
    List.getElem_map]

/-- C29. The encryption loop of `testv2.c`, `testv3.c` and `testv4.c` on an
input file of `n > 0` bytes writes `n / 16 + 1` blocks of 16 bytes, whatever
the local arrays held before: for `i < n / 16`, block `i` is the encryption of
the input bytes `16i .. 16i + 15` alone, and the last block is the encryption
of the remaining `n mod 16` input bytes followed by `16 - n mod 16` bytes of
value `16 - n mod 16`. -/
theorem file_encryption_blocks (accel : Bool) (RoundKey in0 out0 st0 input : List Nat)
    (size : Nat) (hin : in0.length = 16) (hout : out0.length = 16) (hst : st0.length = 16)
    (hsize : size = input.length) (hn : 0 < input.length) :
    (encrypt_file accel RoundKey in0 out0 st0 input size).length = 16 * (input.length / 16 + 1)
    ∧ (∀ i, i < input.length / 16 →
        ((encrypt_file accel RoundKey in0 out0 st0 input size).drop (16 * i)).take 16
          = encrypt_chunk accel RoundKey ((input.drop (16 * i)).take 16))
    ∧ (encrypt_file accel RoundKey in0 out0 st0 input size).drop (16 * (input.length / 16))
        = encrypt_chunk accel RoundKey (input.drop (16 * (input.length / 16))
            ++ List.replicate (16 - input.length % 16) (16 - input.length % 16))
    ∧ (∀ in1 out1 st1 : List Nat, in1.length = 16 → out1.length = 16 → st1.length = 16 →
        encrypt_file accel RoundKey in1 out1 st1 input size
          = encrypt_file accel RoundKey in0 out0 st0 input size) := by
  subst hsize
  have hL : ∀ b, b ∈ (chunks (input.length / 16) input).map (encrypt_chunk accel RoundKey) →
      b.length = 16 := by
    intro b hb
    obtain ⟨c, -, rfl⟩ := List.mem_map.mp hb
    exact length_encrypt_chunk _ _ _
  have hlen : ((chunks (input.length / 16) input).map (encrypt_chunk accel RoundKey)).length
      = input.length / 16 := by
    rw [List.length_map, length_chunks]
  rw [encrypt_file_eq accel RoundKey in0 out0 st0 input hin hout hst hn]
  refine ⟨?_, ?_, ?_, ?_⟩
  · rw [List.length_append, length_flatten_blocks _ hL, hlen, length_encrypt_chunk]
    omega
  · intro i hi
    rw [block_of_flatten _ _ hL i (by rw [hlen]; exact hi),
      getD_map_chunks _ _ _ (by rw [length_chunks]; exact hi), getD_chunks _ _ _ hi]
  · have := drop_flatten _ (encrypt_chunk accel RoundKey (input.drop (16 * (input.length / 16))
      ++ List.replicate (16 - input.length % 16) (16 - input.length % 16))) hL
    rw [hlen] at this
    exact this
  · intro in1 out1 st1 h1 h2 h3
    exact encrypt_file_eq accel RoundKey in1 out1 st1 input h1 h2 h3 hn

theorem file_encryption_blocks_witness :
    (encrypt_file false (Aes.KeyExpansion (List.replicate 176 0) Aes.main_key)
        (List.replicate 16 1) (List.replicate 16 2) (List.replicate 16 3) (List.replicate 20 7)
        20).length = 16 * ((List.replicate 20 7).length / 16 + 1)
    ∧ (∀ i, i < (List.replicate 20 7).length / 16 →
        ((encrypt_file false (Aes.KeyExpansion (List.replicate 176 0) Aes.main_key)
          (List.replicate 16 1) (List.replicate 16 2) (List.replicate 16 3)
          (List.replicate 20 7) 20).drop (16 * i)).take 16
          = encrypt_chunk false (Aes.KeyExpansion (List.replicate 176 0) Aes.main_key)
              (((List.replicate 20 7).drop (16 * i)).take 16))
    ∧ (encrypt_file false (Aes.KeyExpansion (List.replicate 176 0) Aes.main_key)
          (List.replicate 16 1) (List.replicate 16 2) (List.replicate 16 3)
          (List.replicate 20 7) 20).drop (16 * ((List.replicate 20 7).length / 16))
        = encrypt_chunk false (Aes.KeyExpansion (List.replicate 176 0) Aes.main_key)
            ((List.replicate 20 7).drop (16 * ((List.replicate 20 7).length / 16))
              ++ List.replicate (16 - (List.replicate 20 7).length % 16)
                  (16 - (List.replicate 20 7).length % 16))
    ∧ (∀ in1 out1 st1 : List Nat, in1.length = 16 → out1.length = 16 → st1.length = 16 →
        encrypt_file false (Aes.KeyExpansion (List.replicate 176 0) Aes.main_key) in1 out1 st1
            (List.replicate 20 7) 20
          = encrypt_file false (Aes.KeyExpansion (List.replicate 176 0) Aes.main_key)
              (List.replicate 16 1) (List.replicate 16 2) (List.replicate 16 3)
              (List.replicate 20 7) 20) :=
  file_encryption_blocks false (Aes.KeyExpansion (List.replicate 176 0) Aes.main_key)
    (List.replicate 16 1) (List.replicate 16 2) (List.replicate 16 3) (List.replicate 20 7) 20
    (List.length_replicate _ _) (List.length_replicate _ _) (List.length_replicate _ _)
    (by simp) (by simp)

end AesFile

/-! ## SHA-256: `sha256_final` called twice -/

namespace Sha

/-- At the empty message, the calls `sha256_init; sha256_final; sha256_final`
(counterexample to C22 as stated): the second `sha256_final` writes the digest
`be27808a 748f37fa 2f2b7a7a 7d9404e1 139dedfe dcc41c68 b92b8f41 f2e5d20e` and
changes the context, and a later `sha256_update` of one byte changes the
context again. -/
theorem final_twice_returns_digest :
    (sha256_final false (sha256_final false (sha256_init ctx0) (List.replicate 32 0)).1
        (List.replicate 32 0)).2
      = [0xbe, 0x27, 0x80, 0x8a, 0x74, 0x8f, 0x37, 0xfa, 0x2f, 0x2b, 0x7a, 0x7a, 0x7d, 0x94, 0x04,
         0xe1, 0x13, 0x9d, 0xed, 0xfe, 0xdc, 0xc4, 0x1c, 0x68, 0xb9, 0x2b, 0x8f, 0x41, 0xf2, 0xe5,
         0xd2, 0x0e]
    ∧ (sha256_final false (sha256_final false (sha256_init ctx0) (List.replicate 32 0)).1
        (List.replicate 32 0)).1
      ≠ (sha256_final false (sha256_init ctx0) (List.replicate 32 0)).1
    ∧ sha256_update false (sha256_final false (sha256_init ctx0) (List.replicate 32 0)).1 [1]
      ≠ (sha256_final false (sha256_init ctx0) (List.replicate 32 0)).1 := by
  decide!

end Sha

/-! ## SHA-256: the byte swaps -/

namespace Sha

theorem bswap_32_mod (x : Nat) : bswap_32 (x % 2 ^ 32) = bswap_32 x := by
  simp only [bswap_32, Nat.mod_mod]

theorem bswap_32_bytes (d0 d1 d2 d3 : Nat) (h0 : d0 < 256) (h1 : d1 < 256) (h2 : d2 < 256)
    (h3 : d3 < 256) :
    bswap_32 (d0 * 2 ^ 24 + d1 * 2 ^ 16 + d2 * 2 ^ 8 + d3)
      = d3 * 2 ^ 24 + d2 * 2 ^ 16 + d1 * 2 ^ 8 + d0 := by
  rw [bswap_32_eq]
  omega

theorem bswap_32_bswap_32 (x : Nat) (hx : x < 2 ^ 32) : bswap_32 (bswap_32 x) = x := by
  rw [bswap_32_eq x, bswap_32_bytes _ _ _ _ (Nat.mod_lt _ (by omega)) (Nat.mod_lt _ (by omega))
    (Nat.mod_lt _ (by omega)) (Nat.mod_lt _ (by omega))]
  omega

theorem bswap_64_bswap_64 (y : Nat) (hy : y < 2 ^ 64) : bswap_64 (bswap_64 y) = y := by
  have h1 := bswap_32_lt y
  have h2 := bswap_32_lt (y / 2 ^ 32)
  have e1 : (bswap_32 y * 2 ^ 32 + bswap_32 (y / 2 ^ 32)) % 2 ^ 32 = bswap_32 (y / 2 ^ 32) := by
    omega
  have e2 : (bswap_32 y * 2 ^ 32 + bswap_32 (y / 2 ^ 32)) / 2 ^ 32 = bswap_32 y := by
    omega
  rw [bswap_64_eq y, bswap_64_eq, e2, ← bswap_32_mod (bswap_32 y * 2 ^ 32 + _), e1,
    bswap_32_bswap_32 _ (by omega), ← bswap_32_mod y, bswap_32_bswap_32 _ (by omega)]
  omega

/-- C39. For every 32-bit word `x`, `bswap_32 x` is the 32-bit word whose four
bytes are those of `x` in reverse order, and for every 64-bit word `y`,
`bswap_64 y` is the 64-bit word whose eight bytes are those of `y` in reverse
order; `bswap_32 (bswap_32 x) = x` and `bswap_64 (bswap_64 y) = y`. -/
theorem bswap_reverses_bytes (x y : Nat) (hx : x < 2 ^ 32) (hy : y < 2 ^ 64) :
    bytes32 (bswap_32 x) = (bytes32 x).reverse
    ∧ bytes64 (bswap_64 y) = (bytes64 y).reverse
    ∧ bswap_32 (bswap_32 x) = x
    ∧ bswap_64 (bswap_64 y) = y
    ∧ bswap_32 x < 2 ^ 32 ∧ bswap_64 y < 2 ^ 64 := by
  refine ⟨?_, ?_, bswap_32_bswap_32 x hx, bswap_64_bswap_64 y hy, bswap_32_lt x, ?_⟩
  · rw [bytes32_bswap_32]; rfl
  · rw [bytes64_bswap_64]; rfl
  · have h1 := bswap_32_lt y
    have h2 := bswap_32_lt (y / 2 ^ 32)
    rw [bswap_64_eq]
    omega

theorem bswap_reverses_bytes_witness :
    bytes32 (bswap_32 0x01020304) = (bytes32 0x01020304).reverse
    ∧ bytes64 (bswap_64 0x0102030405060708) = (bytes64 0x0102030405060708).reverse
    ∧ bswap_32 (bswap_32 0x01020304) = 0x01020304
    ∧ bswap_64 (bswap_64 0x0102030405060708) = 0x0102030405060708
    ∧ bswap_32 0x01020304 < 2 ^ 32 ∧ bswap_64 0x0102030405060708 < 2 ^ 64 :=
  bswap_reverses_bytes 0x01020304 0x0102030405060708 (by decide) (by decide)

end Sha

/-! ## AES-128: the key schedule of `aes_test.c` and the block layout, the claims -/

namespace AesTest

/-- C31. For every key, `KeyExpansion` of `aes_test.c` (`Rcon[0] = 0x00`) and
`KeyExpansion` of `aes_filesv2/testv1.c` (`Rcon[0] = 0x8d`) fill the round-key
array with the same bytes: the index `i / Nk` of the read of `Rcon` ranges over
`1..10` for `Nk <= i < Nb * (Nr + 1)`, and the two tables agree at these
indices. -/
theorem KeyExpansion_ignores_Rcon_zero (rk key : List Nat) :
    KeyExpansion rk key = Aes.KeyExpansion rk key
    ∧ (∀ i, Nk ≤ i → i < Nb * (Nr + 1) → 1 ≤ i / Nk ∧ i / Nk ≤ 10)
    ∧ (∀ j, 1 ≤ j → j ≤ 10 → rd Rcon j = rd Aes.Rcon j)
    ∧ rd Rcon 0 = 0x00 ∧ rd Aes.Rcon 0 = 0x8d := by
  refine ⟨KeyExpansion_eq rk key, ?_, by decide, rfl, rfl⟩
  intro i h1 h2
  simp only [Nk, Nb, Nr] at *
  omega

end AesTest

namespace AesFile

/-- C33. For every 16-byte block `b` and every 4x4 state `s`, whatever the
destination buffers held before, `state_to_block (block_to_state b) = b` and
`block_to_state (state_to_block s) = s`; block byte `4c + r` is stored at
`state[r][c]`. -/
theorem block_state_inverse (b s st0 out0 : List Nat) (hb : b.length = 16) (hs : s.length = 16)
    (hst : st0.length = 16) (hout : out0.length = 16) :
    state_to_block (block_to_state b st0) out0 = b
    ∧ block_to_state (state_to_block s out0) st0 = s
    ∧ (∀ r c, r < 4 → c < 4 → Aes.sget (block_to_state b st0) r c = rd b (4 * c + r))
    ∧ (∀ r c, r < 4 → c < 4 → rd (state_to_block s out0) (4 * c + r) = Aes.sget s r c) := by
  rw [state_to_block_eq _ _ hout, block_to_state_eq _ _ hst, block_to_state_eq _ _ hst,
    state_to_block_eq _ _ hout]
  obtain ⟨a0, a1, a2, a3, a4, a5, a6, a7, a8, a9, a10, a11, a12, a13, a14, a15, rfl⟩ :=
    Aes.length_sixteen b hb
  obtain ⟨s0, s1, s2, s3, s4, s5, s6, s7, s8, s9, s10, s11, s12, s13, s14, s15, rfl⟩ :=
    Aes.length_sixteen s hs
  refine ⟨rfl, rfl, ?_, ?_⟩
  · intro r c hr hc
    interval_cases r <;> interval_cases c <;> rfl
  · intro r c hr hc
    interval_cases r <;> interval_cases c <;> rfl

theorem block_state_inverse_witness :
    state_to_block (block_to_state Aes.main_in (List.replicate 16 1)) (List.replicate 16 2)
      = Aes.main_in
    ∧ block_to_state (state_to_block Aes.main_key (List.replicate 16 2)) (List.replicate 16 1)
      = Aes.main_key
    ∧ (∀ r c, r < 4 → c < 4 →
        Aes.sget (block_to_state Aes.main_in (List.replicate 16 1)) r c
          = rd Aes.main_in (4 * c + r))
    ∧ (∀ r c, r < 4 → c < 4 →
        rd (state_to_block Aes.main_key (List.replicate 16 2)) (4 * c + r)
          = Aes.sget Aes.main_key r c) :=
  block_state_inverse Aes.main_in Aes.main_key (List.replicate 16 1) (List.replicate 16 2)
    (by decide) (by decide) (List.length_replicate _ _) (List.length_replicate _ _)

end AesFile

/-! ## AES-128: the accelerated `MixColumns` on a packed column -/

namespace Aes

theorem xor_split (i a b c d : Nat) (hb : b < 2 ^ i) (hd : d < 2 ^ i) :
    (2 ^ i * a + b) ^^^ (2 ^ i * c + d) = 2 ^ i * (a ^^^ c) + (b ^^^ d) := by
  apply Nat.eq_of_testBit_eq
  intro j
  rw [Nat.testBit_xor, Nat.testBit_mul_pow_two_add _ hb, Nat.testBit_mul_pow_two_add _ hd,
    Nat.testBit_mul_pow_two_add _ (Nat.xor_lt_two_pow hb hd)]
  by_cases h : j < i
  · simp [h]
  · simp [h]

end Aes

/-! ## AES-128: the accelerated `MixColumns`, one column as a word -/

namespace Aes

end Aes

namespace Aes

theorem xor_mod_byte (a b : Nat) : (a ^^^ b) % 256 = (a % 256) ^^^ (b % 256) := by
  have e : ∀ x : Nat, x % 256 = x &&& (2 ^ 8 - 1) := fun x =>
    (Nat.and_pow_two_sub_one_eq_mod x 8).symm
  rw [e, e a, e b, Nat.and_xor_distrib_right]

theorem shiftLeft_one_xor (a b : Nat) : (a ^^^ b) <<< 1 = (a <<< 1) ^^^ (b <<< 1) := by
  have h := xor_split 1 a 0 b 0 (by omega) (by omega)
  simp only [Nat.add_zero, Nat.xor_self, Nat.pow_one] at h
  simp only [Nat.shiftLeft_eq, Nat.pow_one, Nat.mul_comm _ 2]
  exact h.symm

theorem bit_seven (x : Nat) : (x >>> 7) &&& 1 = (x.testBit 7).toNat := by
  rw [Nat.and_one_is_mod, Nat.shiftRight_eq_div_pow, Nat.toNat_testBit]

theorem xtime_form (x : Nat) :
    Baseline.xtime x = ((x <<< 1) % 256) ^^^ (if x.testBit 7 then 0x1b else 0) := by
  rw [Baseline.xtime, bit_seven, xor_mod_byte]
  cases x.testBit 7 <;> simp

theorem xtime_xor (a b : Nat) :
    Baseline.xtime (a ^^^ b) = Baseline.xtime a ^^^ Baseline.xtime b := by
  rw [xtime_form, xtime_form a, xtime_form b, shiftLeft_one_xor, xor_mod_byte, Nat.testBit_xor]
  generalize (a <<< 1) % 256 = p
  generalize (b <<< 1) % 256 = q
  cases a.testBit 7 <;> cases b.testBit 7 <;>
    (apply Nat.eq_of_testBit_eq; intro i; simp only [Nat.testBit_xor, Bool.xor_false,
      Bool.xor_true, Bool.false_xor, Bool.true_xor, if_true, if_false, Bool.false_eq_true,
      Nat.zero_testBit, Bool.not_true, Bool.not_false] <;>
     cases p.testBit i <;> cases q.testBit i <;> cases (27 : Nat).testBit i <;> rfl)

theorem xtime_lt (x : Nat) : Baseline.xtime x < 256 := by
  rw [Baseline.xtime]
  exact Nat.mod_lt _ (by omega)

end Aes

namespace AesTest

theorem and_mask_seven (x : Nat) : (x &&& 0x80 ≠ 0) ↔ x.testBit 7 = true := by
  constructor
  · intro h
    by_contra hc
    apply h
    apply Nat.eq_of_testBit_eq
    intro j
    have e : (0x80 : Nat) = 2 ^ 7 := by norm_num
    rw [Nat.testBit_and, e, Nat.testBit_two_pow, Nat.zero_testBit]
    by_cases hj : 7 = j
    · subst hj; simp [hc]
    · simp [hj]
  · intro h hz
    have : (x &&& 0x80).testBit 7 = true := by
      have e : (0x80 : Nat) = 2 ^ 7 := by norm_num
      rw [Nat.testBit_and, e, Nat.testBit_two_pow_self, h]
      rfl
    rw [hz, Nat.zero_testBit] at this
    exact Bool.noConfusion this

theorem xtime_eq (x : Nat) : xtime x = Aes.Baseline.xtime x := by
  rw [Aes.xtime_form]
  by_cases h : x.testBit 7 = true
  · have := (and_mask_seven x).mpr h
    simp only [xtime, this, h, if_true, ne_eq, not_false_eq_true]
  · have hn : ¬ (x &&& 0x80 ≠ 0) := fun hc => h ((and_mask_seven x).mp hc)
    simp only [xtime, hn, h, if_false, Nat.xor_zero, Bool.false_eq_true]

end AesTest

namespace AesTest

theorem flat_AddRoundKey_eq (round : Nat) (rk : List Nat) (f0 f1 f2 f3 f4 f5 f6 f7 f8 f9 f10 f11 f12 f13 f14 f15 : Nat) :
    AddRoundKey round [f0, f1, f2, f3, f4, f5, f6, f7, f8, f9, f10, f11, f12, f13, f14, f15] rk
      = [f0 ^^^ rd rk (16 * round + 0), f1 ^^^ rd rk (16 * round + 1), f2 ^^^ rd rk (16 * round + 2), f3 ^^^ rd rk (16 * round + 3), f4 ^^^ rd rk (16 * round + 4), f5 ^^^ rd rk (16 * round + 5), f6 ^^^ rd rk (16 * round + 6), f7 ^^^ rd rk (16 * round + 7), f8 ^^^ rd rk (16 * round + 8), f9 ^^^ rd rk (16 * round + 9), f10 ^^^ rd rk (16 * round + 10), f11 ^^^ rd rk (16 * round + 11), f12 ^^^ rd rk (16 * round + 12), f13 ^^^ rd rk (16 * round + 13), f14 ^^^ rd rk (16 * round + 14), f15 ^^^ rd rk (16 * round + 15)] := by
  have e : round * 4 * 4 = 16 * round := by omega
  simp only [AddRoundKey, Nb, forRange, forLoop, Nat.sub_zero, e, wr, rd,
    Nat.add_zero, Nat.add_assoc,
    List.getD_cons_succ, List.getD_cons_zero,
    List.set_cons_succ, List.set_cons_zero, Nat.reduceMul, Nat.reduceAdd, Nat.reduceSub]

theorem flat_SubBytes_eq (f0 f1 f2 f3 f4 f5 f6 f7 f8 f9 f10 f11 f12 f13 f14 f15 : Nat) :
    SubBytes [f0, f1, f2, f3, f4, f5, f6, f7, f8, f9, f10, f11, f12, f13, f14, f15]
      = [rd Aes.s_box f0, rd Aes.s_box f1, rd Aes.s_box f2, rd Aes.s_box f3, rd Aes.s_box f4, rd Aes.s_box f5, rd Aes.s_box f6, rd Aes.s_box f7, rd Aes.s_box f8, rd Aes.s_box f9, rd Aes.s_box f10, rd Aes.s_box f11, rd Aes.s_box f12, rd Aes.s_box f13, rd Aes.s_box f14, rd Aes.s_box f15] := by
  simp only [SubBytes, getSBoxValue, sbox_eq, forRange, forLoop, Nat.sub_zero, wr, rd,
    List.getD_cons_succ, List.getD_cons_zero,
    List.set_cons_succ, List.set_cons_zero, Nat.reduceMul, Nat.reduceAdd, Nat.reduceSub]

theorem flat_ShiftRows_eq (f0 f1 f2 f3 f4 f5 f6 f7 f8 f9 f10 f11 f12 f13 f14 f15 : Nat) :
    ShiftRows [f0, f1, f2, f3, f4, f5, f6, f7, f8, f9, f10, f11, f12, f13, f14, f15]
      = [f0, f5, f10, f15, f4, f9, f14, f3, f8, f13, f2, f7, f12, f1, f6, f11] := by
  rfl

theorem flat_MixColumns_eq (f0 f1 f2 f3 f4 f5 f6 f7 f8 f9 f10 f11 f12 f13 f14 f15 : Nat) :
    MixColumns [f0, f1, f2, f3, f4, f5, f6, f7, f8, f9, f10, f11, f12, f13, f14, f15]
      = [f0 ^^^ (xtime (f0 ^^^ f1) ^^^ (f0 ^^^ f1 ^^^ f2 ^^^ f3)), f1 ^^^ (xtime (f1 ^^^ f2) ^^^ (f0 ^^^ f1 ^^^ f2 ^^^ f3)), f2 ^^^ (xtime (f2 ^^^ f3) ^^^ (f0 ^^^ f1 ^^^ f2 ^^^ f3)), f3 ^^^ (xtime (f3 ^^^ f0) ^^^ (f0 ^^^ f1 ^^^ f2 ^^^ f3)), f4 ^^^ (xtime (f4 ^^^ f5) ^^^ (f4 ^^^ f5 ^^^ f6 ^^^ f7)), f5 ^^^ (xtime (f5 ^^^ f6) ^^^ (f4 ^^^ f5 ^^^ f6 ^^^ f7)), f6 ^^^ (xtime (f6 ^^^ f7) ^^^ (f4 ^^^ f5 ^^^ f6 ^^^ f7)), f7 ^^^ (xtime (f7 ^^^ f4) ^^^ (f4 ^^^ f5 ^^^ f6 ^^^ f7)), f8 ^^^ (xtime (f8 ^^^ f9) ^^^ (f8 ^^^ f9 ^^^ f10 ^^^ f11)), f9 ^^^ (xtime (f9 ^^^ f10) ^^^ (f8 ^^^ f9 ^^^ f10 ^^^ f11)), f10 ^^^ (xtime (f10 ^^^ f11) ^^^ (f8 ^^^ f9 ^^^ f10 ^^^ f11)), f11 ^^^ (xtime (f11 ^^^ f8) ^^^ (f8 ^^^ f9 ^^^ f10 ^^^ f11)), f12 ^^^ (xtime (f12 ^^^ f13) ^^^ (f12 ^^^ f13 ^^^ f14 ^^^ f15)), f13 ^^^ (xtime (f13 ^^^ f14) ^^^ (f12 ^^^ f13 ^^^ f14 ^^^ f15)), f14 ^^^ (xtime (f14 ^^^ f15) ^^^ (f12 ^^^ f13 ^^^ f14 ^^^ f15)), f15 ^^^ (xtime (f15 ^^^ f12) ^^^ (f12 ^^^ f13 ^^^ f14 ^^^ f15))] := by
  simp only [MixColumns, forRange, forLoop, Nat.sub_zero, wr, rd,
    List.getD_cons_succ, List.getD_cons_zero,
    List.set_cons_succ, List.set_cons_zero, Nat.reduceMul, Nat.reduceAdd, Nat.reduceSub]

end AesTest

theorem forLoop_transport {α β : Type} (τ : α → β) (P : α → Prop) (f : Nat → α → α)
    (g : Nat → β → β) (hP : ∀ i s, P s → P (f i s))
    (h : ∀ i s, P s → τ (f i s) = g i (τ s)) (n lo : Nat) (s : α) (hs : P s) :
    τ (forLoop n lo f s) = forLoop n lo g (τ s) ∧ P (forLoop n lo f s) := by
  induction n generalizing lo s with
  | zero => exact ⟨rfl, hs⟩
  | succ n ih =>
    show τ (forLoop n (lo + 1) f (f lo s)) = forLoop n (lo + 1) g (g lo (τ s)) ∧ _
    rw [← h lo s hs]
    exact ih (lo + 1) (f lo s) (hP lo s hs)

namespace Aes

theorem SubBytes_eq (a0 a1 a2 a3 a4 a5 a6 a7 a8 a9 a10 a11 a12 a13 a14 a15 : Nat) :
    SubBytes [a0, a1, a2, a3, a4, a5, a6, a7, a8, a9, a10, a11, a12, a13, a14, a15]
      = [rd s_box a0, rd s_box a1, rd s_box a2, rd s_box a3, rd s_box a4, rd s_box a5, rd s_box a6, rd s_box a7, rd s_box a8, rd s_box a9, rd s_box a10, rd s_box a11, rd s_box a12, rd s_box a13, rd s_box a14, rd s_box a15] := by
  simp only [SubBytes, forRange, forLoop, Nat.sub_zero, sget, sset, wr,
    List.set_cons_succ, List.set_cons_zero, Nat.reduceMul, Nat.reduceAdd, Nat.reduceSub]
  simp only [rd, List.getD_cons_succ, List.getD_cons_zero]

theorem mix_tm (a b c d p q r s : Nat) :
    a ^^^ ((p ^^^ q) ^^^ (a ^^^ b ^^^ c ^^^ d)) = p ^^^ (q ^^^ b) ^^^ c ^^^ d
    ∧ b ^^^ ((q ^^^ r) ^^^ (a ^^^ b ^^^ c ^^^ d)) = a ^^^ q ^^^ (r ^^^ c) ^^^ d
    ∧ c ^^^ ((r ^^^ s) ^^^ (a ^^^ b ^^^ c ^^^ d)) = a ^^^ b ^^^ r ^^^ (s ^^^ d)
    ∧ d ^^^ ((s ^^^ p) ^^^ (a ^^^ b ^^^ c ^^^ d)) = (p ^^^ a) ^^^ b ^^^ c ^^^ s := by
  refine ⟨?_, ?_, ?_, ?_⟩ <;>
    (apply Nat.eq_of_testBit_eq; intro i; simp only [Nat.testBit_xor]
     cases a.testBit i <;> cases b.testBit i <;> cases c.testBit i <;> cases d.testBit i <;>
       cases p.testBit i <;> cases q.testBit i <;> cases r.testBit i <;> cases s.testBit i <;>
       rfl)

end Aes

namespace AesFile

theorem block_to_state_flat (f0 f1 f2 f3 f4 f5 f6 f7 f8 f9 f10 f11 f12 f13 f14 f15 : Nat) (Z : List Nat) (hZ : Z.length = 16) :
    block_to_state [f0, f1, f2, f3, f4, f5, f6, f7, f8, f9, f10, f11, f12, f13, f14, f15] Z
      = [f0, f4, f8, f12, f1, f5, f9, f13, f2, f6, f10, f14, f3, f7, f11, f15] := by
  rw [block_to_state_eq _ _ hZ]
  rfl

end AesFile

namespace AesTest

theorem transpose_AddRoundKey (round : Nat) (f rk Z : List Nat) (hf : f.length = 16)
    (hZ : Z.length = 16) :
    AesFile.block_to_state (AddRoundKey round f rk) Z
      = Aes.AddRoundKey round (AesFile.block_to_state f Z) rk := by
  obtain ⟨f0, f1, f2, f3, f4, f5, f6, f7, f8, f9, f10, f11, f12, f13, f14, f15, rfl⟩ := Aes.length_sixteen f hf
  rw [flat_AddRoundKey_eq, AesFile.block_to_state_flat _ _ _ _ _ _ _ _ _ _ _ _ _ _ _ _ Z hZ,
    AesFile.block_to_state_flat _ _ _ _ _ _ _ _ _ _ _ _ _ _ _ _ Z hZ, Aes.AddRoundKey_eq]

theorem transpose_SubBytes (f Z : List Nat) (hf : f.length = 16) (hZ : Z.length = 16) :
    AesFile.block_to_state (SubBytes f) Z = Aes.SubBytes (AesFile.block_to_state f Z) := by
  obtain ⟨f0, f1, f2, f3, f4, f5, f6, f7, f8, f9, f10, f11, f12, f13, f14, f15, rfl⟩ := Aes.length_sixteen f hf
  rw [flat_SubBytes_eq, AesFile.block_to_state_flat _ _ _ _ _ _ _ _ _ _ _ _ _ _ _ _ Z hZ,
    AesFile.block_to_state_flat _ _ _ _ _ _ _ _ _ _ _ _ _ _ _ _ Z hZ, Aes.SubBytes_eq]

theorem transpose_ShiftRows (f Z : List Nat) (hf : f.length = 16) (hZ : Z.length = 16) :
    AesFile.block_to_state (ShiftRows f) Z
      = Aes.Baseline.ShiftRows (AesFile.block_to_state f Z) := by
  obtain ⟨f0, f1, f2, f3, f4, f5, f6, f7, f8, f9, f10, f11, f12, f13, f14, f15, rfl⟩ := Aes.length_sixteen f hf
  rw [flat_ShiftRows_eq, AesFile.block_to_state_flat _ _ _ _ _ _ _ _ _ _ _ _ _ _ _ _ Z hZ,
    AesFile.block_to_state_flat _ _ _ _ _ _ _ _ _ _ _ _ _ _ _ _ Z hZ, Aes.ShiftRows_eq]

theorem transpose_MixColumns (f Z : List Nat) (hf : f.length = 16) (hZ : Z.length = 16) :
    AesFile.block_to_state (MixColumns f) Z
      = Aes.Baseline.MixColumns (AesFile.block_to_state f Z) := by
  obtain ⟨f0, f1, f2, f3, f4, f5, f6, f7, f8, f9, f10, f11, f12, f13, f14, f15, rfl⟩ := Aes.length_sixteen f hf
  obtain ⟨c0, c1, c2, c3⟩ := Aes.mix_tm f0 f1 f2 f3 (Aes.Baseline.xtime f0)
    (Aes.Baseline.xtime f1) (Aes.Baseline.xtime f2) (Aes.Baseline.xtime f3)
  obtain ⟨d0, d1, d2, d3⟩ := Aes.mix_tm f4 f5 f6 f7 (Aes.Baseline.xtime f4)
    (Aes.Baseline.xtime f5) (Aes.Baseline.xtime f6) (Aes.Baseline.xtime f7)
  obtain ⟨e0, e1, e2, e3⟩ := Aes.mix_tm f8 f9 f10 f11 (Aes.Baseline.xtime f8)
    (Aes.Baseline.xtime f9) (Aes.Baseline.xtime f10) (Aes.Baseline.xtime f11)
  obtain ⟨g0, g1, g2, g3⟩ := Aes.mix_tm f12 f13 f14 f15 (Aes.Baseline.xtime f12)
    (Aes.Baseline.xtime f13) (Aes.Baseline.xtime f14) (Aes.Baseline.xtime f15)
  rw [flat_MixColumns_eq, AesFile.block_to_state_flat _ _ _ _ _ _ _ _ _ _ _ _ _ _ _ _ Z hZ,
    AesFile.block_to_state_flat _ _ _ _ _ _ _ _ _ _ _ _ _ _ _ _ Z hZ, Aes.MixColumns_eq]
  simp only [xtime_eq, Aes.xtime_xor, c0, c1, c2, c3, d0, d1, d2, d3, e0, e1, e2, e3,
    g0, g1, g2, g3]

end AesTest

namespace AesTest

theorem state_of_block_inv (b st out : List Nat) (hb : b.length = 16) (hst : st.length = 16)
    (hout : out.length = 16) :
    AesFile.state_to_block (AesFile.block_to_state b st) out = b := by
  rw [AesFile.state_to_block_eq _ _ hout, AesFile.block_to_state_eq _ _ hst]
  obtain ⟨a0, a1, a2, a3, a4, a5, a6, a7, a8, a9, a10, a11, a12, a13, a14, a15, rfl⟩ :=
    Aes.length_sixteen b hb
  rfl

theorem transpose_rounds (rk Z : List Nat) (hZ : Z.length = 16) (n lo : Nat) (s : List Nat)
    (hs : s.length = 16) :
    AesFile.block_to_state (forLoop n lo (fun round state =>
        AddRoundKey round (MixColumns (ShiftRows (SubBytes state))) rk) s) Z
      = forLoop n lo (fun round state =>
          Aes.AddRoundKey round (Aes.MixColumns false (Aes.ShiftRows false
            (Aes.SubBytes state))) rk) (AesFile.block_to_state s Z)
    ∧ (forLoop n lo (fun round state =>
        AddRoundKey round (MixColumns (ShiftRows (SubBytes state))) rk) s).length = 16 := by
  apply forLoop_transport (fun g => AesFile.block_to_state g Z) (fun g => g.length = 16)
  · intro i t ht
    rw [length_AddRoundKey, length_MixColumns, length_ShiftRows, length_SubBytes, ht]
  · intro i t ht
    have h1 : (SubBytes t).length = 16 := by rw [length_SubBytes, ht]
    have h2 : (ShiftRows (SubBytes t)).length = 16 := by rw [length_ShiftRows, h1]
    have h3 : (MixColumns (ShiftRows (SubBytes t))).length = 16 := by
      rw [length_MixColumns, h2]
    simp only [Aes.ShiftRows, Aes.MixColumns, Bool.false_eq_true, if_false]
    rw [transpose_AddRoundKey _ _ _ _ h3 hZ, transpose_MixColumns _ _ h2 hZ,
      transpose_ShiftRows _ _ h1 hZ, transpose_SubBytes _ _ ht hZ]
  · exact hs

/-- C32: for every key and every 16-byte block, AES_encrypt of aes_test.c (flat state,
Tmp/Tm MixColumns, flat ShiftRows) returns 0 and writes the same 16 output bytes as the
aes_filesv2 reference pipeline KeyExpansion, block_to_state, aes_encrypt (baseline build),
state_to_block; the result does not depend on the previous content of the local state,
round-key and output buffers of either program. -/
theorem AES_encrypt_eq_reference (st0 rk0 out0 st1 rk1 out1 input key : List Nat)
    (hst0 : st0.length = 16) (hrk0 : rk0.length = 176) (hout0 : out0.length = 16)
    (hst1 : st1.length = 16) (hrk1 : rk1.length = 176) (hout1 : out1.length = 16)
    (hin : input.length = 16) :
    AES_encrypt st0 rk0 (some input) (some key) (some out0)
      = (0, some (AesFile.state_to_block
          (Aes.aes_encrypt false (AesFile.block_to_state input st1) (Aes.KeyExpansion rk1 key))
          out1)) := by
  have h0 : (AddRoundKey 0 input (Aes.KeyExpansion rk1 key)).length = 16 := by
    rw [length_AddRoundKey, hin]
  obtain ⟨hloop, hlen⟩ := transpose_rounds (Aes.KeyExpansion rk1 key) st1 hst1 9 1
    (AddRoundKey 0 input (Aes.KeyExpansion rk1 key)) h0
  have h1 := hlen
  rw [← length_SubBytes] at h1
  have h2 := h1
  rw [← length_ShiftRows] at h2
  have h3 := h2
  rw [← length_AddRoundKey 10 _ (Aes.KeyExpansion rk1 key)] at h3
  have key_eq : AesFile.block_to_state
      (AddRoundKey 10 (ShiftRows (SubBytes (forLoop 9 1 (fun round state =>
        AddRoundKey round (MixColumns (ShiftRows (SubBytes state))) (Aes.KeyExpansion rk1 key))
        (AddRoundKey 0 input (Aes.KeyExpansion rk1 key))))) (Aes.KeyExpansion rk1 key)) st1
      = Aes.aes_encrypt false (AesFile.block_to_state input st1) (Aes.KeyExpansion rk1 key) := by
    rw [transpose_AddRoundKey _ _ _ _ h2 hst1, transpose_ShiftRows _ _ h1 hst1,
      transpose_SubBytes _ _ hlen hst1, hloop, transpose_AddRoundKey _ _ _ _ hin hst1,
      Aes.aes_encrypt_unfold]
    simp only [Aes.ShiftRows, Bool.false_eq_true, if_false, forRange, Nat.reduceSub]
  simp only [AES_encrypt, Nr, forRange, Nat.reduceSub]
  rw [memcpy_full st0 input 16 hst0, memcpy_full out0 _ 16 hout0, KeyExpansion_eq,
    Aes.KeyExpansion_indep rk0 rk1 key hrk0 hrk1, List.take_of_length_le (Nat.le_of_eq hin),
    List.take_of_length_le (Nat.le_of_eq h3), ← key_eq,
    state_of_block_inv _ _ _ h3 hst1 hout1]

theorem AES_encrypt_eq_reference_witness :
    AES_encrypt (List.replicate 16 1) (List.replicate 176 2) (some Aes.main_in)
        (some Aes.main_key) (some (List.replicate 16 3))
      = (0, some (AesFile.state_to_block
          (Aes.aes_encrypt false (AesFile.block_to_state Aes.main_in (List.replicate 16 4))
            (Aes.KeyExpansion (List.replicate 176 5) Aes.main_key))
          (List.replicate 16 6))) :=
  AES_encrypt_eq_reference (List.replicate 16 1) (List.replicate 176 2) (List.replicate 16 3)
    (List.replicate 16 4) (List.replicate 176 5) (List.replicate 16 6) Aes.main_in Aes.main_key
    (List.length_replicate _ _) (List.length_replicate _ _) (List.length_replicate _ _)
    (List.length_replicate _ _) (List.length_replicate _ _) (List.length_replicate _ _)
    (by decide)

end AesTest

namespace Aes

theorem s_box_nodup : s_box.Nodup := by decide!

theorem s_box_lt : ∀ b, b ∈ s_box → b < 256 := by decide!

theorem s_box_inj (a b : Nat) (ha : a < 256) (hb : b < 256) (h : rd s_box a = rd s_box b) :
    a = b := by
  have hl : s_box.length = 256 := by decide!
  have ha2 : a < s_box.length := by rw [hl]; exact ha
  have hb2 : b < s_box.length := by rw [hl]; exact hb
  simp only [rd, List.getD_eq_getElem _ _ ha2, List.getD_eq_getElem _ _ hb2] at h
  exact (List.Nodup.getElem_inj_iff s_box_nodup).1 h

theorem rd_s_box_lt (a : Nat) : rd s_box a < 256 := Sha.rd_lt_of_bytes s_box a s_box_lt

theorem xor_cancel_mid (a b : Nat) : a ^^^ (a ^^^ b) = b := by
  rw [← Nat.xor_assoc, Nat.xor_self, Nat.zero_xor]

theorem xor_swap_left (a b c : Nat) : a ^^^ (b ^^^ c) = b ^^^ (a ^^^ c) := by
  rw [← Nat.xor_assoc, Nat.xor_comm a b, Nat.xor_assoc]

theorem mix_square_0 (f : Nat → Nat) (hf : ∀ a b, f (a ^^^ b) = f a ^^^ f b) (a b c d : Nat) :
    f (f a ^^^ (f b ^^^ b) ^^^ c ^^^ d) ^^^ (f (a ^^^ f b ^^^ (f c ^^^ c) ^^^ d) ^^^ (a ^^^ f b ^^^ (f c ^^^ c) ^^^ d)) ^^^ (a ^^^ b ^^^ f c ^^^ (f d ^^^ d)) ^^^ ((f a ^^^ a) ^^^ b ^^^ c ^^^ f d)
      = f (f a) ^^^ a ^^^ f (f c) := by
  simp only [hf, Nat.xor_assoc, Nat.xor_comm, xor_swap_left, Nat.xor_self, Nat.xor_zero,
    xor_cancel_mid]

theorem mix_square_1 (f : Nat → Nat) (hf : ∀ a b, f (a ^^^ b) = f a ^^^ f b) (a b c d : Nat) :
    (f a ^^^ (f b ^^^ b) ^^^ c ^^^ d) ^^^ f (a ^^^ f b ^^^ (f c ^^^ c) ^^^ d) ^^^ (f (a ^^^ b ^^^ f c ^^^ (f d ^^^ d)) ^^^ (a ^^^ b ^^^ f c ^^^ (f d ^^^ d))) ^^^ ((f a ^^^ a) ^^^ b ^^^ c ^^^ f d)
      = f (f b) ^^^ b ^^^ f (f d) := by
  simp only [hf, Nat.xor_assoc, Nat.xor_comm, xor_swap_left, Nat.xor_self, Nat.xor_zero,
    xor_cancel_mid]

theorem mix_square_2 (f : Nat → Nat) (hf : ∀ a b, f (a ^^^ b) = f a ^^^ f b) (a b c d : Nat) :
    (f a ^^^ (f b ^^^ b) ^^^ c ^^^ d) ^^^ (a ^^^ f b ^^^ (f c ^^^ c) ^^^ d) ^^^ f (a ^^^ b ^^^ f c ^^^ (f d ^^^ d)) ^^^ (f ((f a ^^^ a) ^^^ b ^^^ c ^^^ f d) ^^^ ((f a ^^^ a) ^^^ b ^^^ c ^^^ f d))
      = f (f c) ^^^ c ^^^ f (f a) := by
  simp only [hf, Nat.xor_assoc, Nat.xor_comm, xor_swap_left, Nat.xor_self, Nat.xor_zero,
    xor_cancel_mid]

theorem mix_square_3 (f : Nat → Nat) (hf : ∀ a b, f (a ^^^ b) = f a ^^^ f b) (a b c d : Nat) :
    (f (f a ^^^ (f b ^^^ b) ^^^ c ^^^ d) ^^^ (f a ^^^ (f b ^^^ b) ^^^ c ^^^ d)) ^^^ (a ^^^ f b ^^^ (f c ^^^ c) ^^^ d) ^^^ (a ^^^ b ^^^ f c ^^^ (f d ^^^ d)) ^^^ f ((f a ^^^ a) ^^^ b ^^^ c ^^^ f d)
      = f (f d) ^^^ d ^^^ f (f b) := by
  simp only [hf, Nat.xor_assoc, Nat.xor_comm, xor_swap_left, Nat.xor_self, Nat.xor_zero,
    xor_cancel_mid]

theorem mix_fourth (g : Nat → Nat) (hg : ∀ a b, g (a ^^^ b) = g a ^^^ g b) (a c : Nat) :
    g (g a ^^^ a ^^^ g c) ^^^ (g a ^^^ a ^^^ g c) ^^^ g (g c ^^^ c ^^^ g a) = a := by
  simp only [hg, Nat.xor_assoc, Nat.xor_comm, xor_swap_left, Nat.xor_self, Nat.xor_zero,
    xor_cancel_mid]

theorem xtime_xtime_xor (a b : Nat) :
    Baseline.xtime (Baseline.xtime (a ^^^ b)) = Baseline.xtime (Baseline.xtime a) ^^^ Baseline.xtime (Baseline.xtime b) := by
  rw [xtime_xor, xtime_xor]

theorem MixColumns_square (a0 a1 a2 a3 a4 a5 a6 a7 a8 a9 a10 a11 a12 a13 a14 a15 : Nat) :
    Baseline.MixColumns (Baseline.MixColumns
        [a0, a1, a2, a3, a4, a5, a6, a7, a8, a9, a10, a11, a12, a13, a14, a15])
      = [Baseline.xtime (Baseline.xtime a0) ^^^ a0 ^^^ Baseline.xtime (Baseline.xtime a8),
         Baseline.xtime (Baseline.xtime a1) ^^^ a1 ^^^ Baseline.xtime (Baseline.xtime a9),
         Baseline.xtime (Baseline.xtime a2) ^^^ a2 ^^^ Baseline.xtime (Baseline.xtime a10),
         Baseline.xtime (Baseline.xtime a3) ^^^ a3 ^^^ Baseline.xtime (Baseline.xtime a11),
         Baseline.xtime (Baseline.xtime a4) ^^^ a4 ^^^ Baseline.xtime (Baseline.xtime a12),
         Baseline.xtime (Baseline.xtime a5) ^^^ a5 ^^^ Baseline.xtime (Baseline.xtime a13),
         Baseline.xtime (Baseline.xtime a6) ^^^ a6 ^^^ Baseline.xtime (Baseline.xtime a14),
         Baseline.xtime (Baseline.xtime a7) ^^^ a7 ^^^ Baseline.xtime (Baseline.xtime a15),
         Baseline.xtime (Baseline.xtime a8) ^^^ a8 ^^^ Baseline.xtime (Baseline.xtime a0),
         Baseline.xtime (Baseline.xtime a9) ^^^ a9 ^^^ Baseline.xtime (Baseline.xtime a1),
         Baseline.xtime (Baseline.xtime a10) ^^^ a10 ^^^ Baseline.xtime (Baseline.xtime a2),
         Baseline.xtime (Baseline.xtime a11) ^^^ a11 ^^^ Baseline.xtime (Baseline.xtime a3),
         Baseline.xtime (Baseline.xtime a12) ^^^ a12 ^^^ Baseline.xtime (Baseline.xtime a4),
         Baseline.xtime (Baseline.xtime a13) ^^^ a13 ^^^ Baseline.xtime (Baseline.xtime a5),
         Baseline.xtime (Baseline.xtime a14) ^^^ a14 ^^^ Baseline.xtime (Baseline.xtime a6),
         Baseline.xtime (Baseline.xtime a15) ^^^ a15 ^^^ Baseline.xtime (Baseline.xtime a7)] := by
  rw [MixColumns_eq, MixColumns_eq]
  rw [mix_square_0 Baseline.xtime xtime_xor a0 a4 a8 a12, mix_square_0 Baseline.xtime xtime_xor a1 a5 a9 a13,
    mix_square_0 Baseline.xtime xtime_xor a2 a6 a10 a14, mix_square_0 Baseline.xtime xtime_xor a3 a7 a11 a15,
    mix_square_1 Baseline.xtime xtime_xor a0 a4 a8 a12, mix_square_1 Baseline.xtime xtime_xor a1 a5 a9 a13,
    mix_square_1 Baseline.xtime xtime_xor a2 a6 a10 a14, mix_square_1 Baseline.xtime xtime_xor a3 a7 a11 a15,
    mix_square_2 Baseline.xtime xtime_xor a0 a4 a8 a12, mix_square_2 Baseline.xtime xtime_xor a1 a5 a9 a13,
    mix_square_2 Baseline.xtime xtime_xor a2 a6 a10 a14, mix_square_2 Baseline.xtime xtime_xor a3 a7 a11 a15,
    mix_square_3 Baseline.xtime xtime_xor a0 a4 a8 a12, mix_square_3 Baseline.xtime xtime_xor a1 a5 a9 a13,
    mix_square_3 Baseline.xtime xtime_xor a2 a6 a10 a14, mix_square_3 Baseline.xtime xtime_xor a3 a7 a11 a15]

theorem MixColumns_fourth (s : List Nat) (h : s.length = 16) :
    Baseline.MixColumns (Baseline.MixColumns (Baseline.MixColumns (Baseline.MixColumns s)))
      = s := by
  obtain ⟨a0, a1, a2, a3, a4, a5, a6, a7, a8, a9, a10, a11, a12, a13, a14, a15, rfl⟩ := length_sixteen s h
  have e := mix_fourth (fun x => Baseline.xtime (Baseline.xtime x)) xtime_xtime_xor
  simp only at e
  rw [MixColumns_square, MixColumns_square]
  simp only [e]

theorem state_t_bytes (a0 a1 a2 a3 a4 a5 a6 a7 a8 a9 a10 a11 a12 a13 a14 a15 : Nat)
    (h : ∀ b, b ∈ [a0, a1, a2, a3, a4, a5, a6, a7, a8, a9, a10, a11, a12, a13, a14, a15] → b < 256) :
    state_t [a0, a1, a2, a3, a4, a5, a6, a7, a8, a9, a10, a11, a12, a13, a14, a15] :=
  ⟨rfl, h⟩

theorem state_t_cases (s : List Nat) (h : state_t s) :
    ∃ a0 a1 a2 a3 a4 a5 a6 a7 a8 a9 a10 a11 a12 a13 a14 a15 : Nat,
      s = [a0, a1, a2, a3, a4, a5, a6, a7, a8, a9, a10, a11, a12, a13, a14, a15]
      ∧ a0 < 256 ∧ a1 < 256 ∧ a2 < 256 ∧ a3 < 256 ∧ a4 < 256 ∧ a5 < 256 ∧ a6 < 256 ∧ a7 < 256 ∧ a8 < 256 ∧ a9 < 256 ∧ a10 < 256 ∧ a11 < 256 ∧ a12 < 256 ∧ a13 < 256 ∧ a14 < 256 ∧ a15 < 256 :=
  bytes_sixteen s h.1 h.2

theorem xor_lt_byte (a b : Nat) (ha : a < 256) (hb : b < 256) : a ^^^ b < 256 :=
  @Nat.xor_lt_two_pow a b 8 ha hb

theorem AddRoundKey_state (round : Nat) (rk s : List Nat) (hb : ∀ b, b ∈ rk → b < 256)
    (h : state_t s) : state_t (AddRoundKey round s rk) := by
  obtain ⟨a0, a1, a2, a3, a4, a5, a6, a7, a8, a9, a10, a11, a12, a13, a14, a15, rfl, h0, h1, h2, h3, h4, h5, h6, h7, h8, h9, h10, h11, h12, h13, h14, h15⟩ := state_t_cases s h
  rw [AddRoundKey_eq]
  refine ⟨rfl, ?_⟩
  intro b hm
  simp only [List.mem_cons, List.mem_singleton, List.not_mem_nil, or_false] at hm
  rcases hm with rfl | rfl | rfl | rfl | rfl | rfl | rfl | rfl | rfl | rfl | rfl | rfl | rfl | rfl | rfl | rfl <;>
    exact xor_lt_byte _ _ (by assumption) (Sha.rd_lt_of_bytes rk _ hb)

theorem AddRoundKey_inj (round : Nat) (rk s t : List Nat) (hs : s.length = 16)
    (ht : t.length = 16) (h : AddRoundKey round s rk = AddRoundKey round t rk) : s = t := by
  obtain ⟨a0, a1, a2, a3, a4, a5, a6, a7, a8, a9, a10, a11, a12, a13, a14, a15, rfl⟩ := length_sixteen s hs
  obtain ⟨b0, b1, b2, b3, b4, b5, b6, b7, b8, b9, b10, b11, b12, b13, b14, b15, rfl⟩ := length_sixteen t ht
  rw [AddRoundKey_eq, AddRoundKey_eq] at h
  simp only [List.cons.injEq, Nat.xor_left_inj, and_true] at h
  simp only [List.cons.injEq, and_true]
  exact h

theorem SubBytes_state (s : List Nat) (h : state_t s) : state_t (SubBytes s) := by
  obtain ⟨a0, a1, a2, a3, a4, a5, a6, a7, a8, a9, a10, a11, a12, a13, a14, a15, rfl, h0, h1, h2, h3, h4, h5, h6, h7, h8, h9, h10, h11, h12, h13, h14, h15⟩ := state_t_cases s h
  rw [SubBytes_eq]
  refine ⟨rfl, ?_⟩
  intro b hm
  simp only [List.mem_cons, List.mem_singleton, List.not_mem_nil, or_false] at hm
  rcases hm with rfl | rfl | rfl | rfl | rfl | rfl | rfl | rfl | rfl | rfl | rfl | rfl | rfl | rfl | rfl | rfl <;> exact rd_s_box_lt _

end Aes

namespace Aes

theorem SubBytes_inj (s t : List Nat) (hs : state_t s) (ht : state_t t)
    (h : SubBytes s = SubBytes t) : s = t := by
  obtain ⟨a0, a1, a2, a3, a4, a5, a6, a7, a8, a9, a10, a11, a12, a13, a14, a15, rfl, h0, h1, h2, h3, h4, h5, h6, h7, h8, h9, h10, h11, h12, h13, h14, h15⟩ := state_t_cases s hs
  obtain ⟨b0, b1, b2, b3, b4, b5, b6, b7, b8, b9, b10, b11, b12, b13, b14, b15, rfl, k0, k1, k2, k3, k4, k5, k6, k7, k8, k9, k10, k11, k12, k13, k14, k15⟩ := state_t_cases t ht
  rw [SubBytes_eq, SubBytes_eq] at h
  simp only [List.cons.injEq, and_true] at h
  obtain ⟨e0, e1, e2, e3, e4, e5, e6, e7, e8, e9, e10, e11, e12, e13, e14, e15⟩ := h
  rw [s_box_inj a0 b0 h0 k0 e0, s_box_inj a1 b1 h1 k1 e1, s_box_inj a2 b2 h2 k2 e2, s_box_inj a3 b3 h3 k3 e3, s_box_inj a4 b4 h4 k4 e4, s_box_inj a5 b5 h5 k5 e5, s_box_inj a6 b6 h6 k6 e6, s_box_inj a7 b7 h7 k7 e7, s_box_inj a8 b8 h8 k8 e8, s_box_inj a9 b9 h9 k9 e9, s_box_inj a10 b10 h10 k10 e10, s_box_inj a11 b11 h11 k11 e11, s_box_inj a12 b12 h12 k12 e12, s_box_inj a13 b13 h13 k13 e13, s_box_inj a14 b14 h14 k14 e14, s_box_inj a15 b15 h15 k15 e15]

theorem ShiftRows_state (s : List Nat) (h : state_t s) : state_t (Baseline.ShiftRows s) := by
  obtain ⟨a0, a1, a2, a3, a4, a5, a6, a7, a8, a9, a10, a11, a12, a13, a14, a15, rfl, h0, h1, h2, h3, h4, h5, h6, h7, h8, h9, h10, h11, h12, h13, h14, h15⟩ := state_t_cases s h
  rw [ShiftRows_eq]
  refine ⟨rfl, ?_⟩
  intro b hm
  simp only [List.mem_cons, List.mem_singleton, List.not_mem_nil, or_false] at hm
  rcases hm with rfl | rfl | rfl | rfl | rfl | rfl | rfl | rfl | rfl | rfl | rfl | rfl | rfl | rfl | rfl | rfl <;> assumption

theorem ShiftRows_inj (s t : List Nat) (hs : s.length = 16) (ht : t.length = 16)
    (h : Baseline.ShiftRows s = Baseline.ShiftRows t) : s = t := by
  obtain ⟨a0, a1, a2, a3, a4, a5, a6, a7, a8, a9, a10, a11, a12, a13, a14, a15, rfl⟩ := length_sixteen s hs
  obtain ⟨b0, b1, b2, b3, b4, b5, b6, b7, b8, b9, b10, b11, b12, b13, b14, b15, rfl⟩ := length_sixteen t ht
  rw [ShiftRows_eq, ShiftRows_eq] at h
  simp only [List.cons.injEq, and_true] at h
  obtain ⟨e0, e1, e2, e3, e4, e5, e6, e7, e8, e9, e10, e11, e12, e13, e14, e15⟩ := h
  subst_vars
  rfl

theorem MixColumns_state (s : List Nat) (h : state_t s) : state_t (Baseline.MixColumns s) := by
  obtain ⟨a0, a1, a2, a3, a4, a5, a6, a7, a8, a9, a10, a11, a12, a13, a14, a15, rfl, h0, h1, h2, h3, h4, h5, h6, h7, h8, h9, h10, h11, h12, h13, h14, h15⟩ := state_t_cases s h
  rw [MixColumns_eq]
  refine ⟨rfl, ?_⟩
  intro b hm
  simp only [List.mem_cons, List.mem_singleton, List.not_mem_nil, or_false] at hm
  rcases hm with rfl | rfl | rfl | rfl | rfl | rfl | rfl | rfl | rfl | rfl | rfl | rfl | rfl | rfl | rfl | rfl <;>
    repeat (first | assumption | exact xtime_lt _ | apply xor_lt_byte)

theorem MixColumns_inj (s t : List Nat) (hs : s.length = 16) (ht : t.length = 16)
    (h : Baseline.MixColumns s = Baseline.MixColumns t) : s = t := by
  rw [← MixColumns_fourth s hs, ← MixColumns_fourth t ht, h]

theorem forLoop_injOn {σ : Type} (S : Set σ) (body : Nat → σ → σ)
    (hm : ∀ i, Set.MapsTo (body i) S S) (hi : ∀ i, Set.InjOn (body i) S) (n lo : Nat) :
    Set.MapsTo (forLoop n lo body) S S ∧ Set.InjOn (forLoop n lo body) S := by
  induction n generalizing lo with
  | zero => exact ⟨fun s hs => hs, fun s _ t _ h => h⟩
  | succ n ih =>
    obtain ⟨m, j⟩ := ih (lo + 1)
    exact ⟨fun s hs => m (hm lo hs), fun s hs t ht h => hi lo hs ht (j (hm lo hs) (hm lo ht) h)⟩

theorem round_state (round : Nat) (rk s : List Nat) (hb : ∀ b, b ∈ rk → b < 256)
    (h : state_t s) :
    state_t (AddRoundKey round (MixColumns false (ShiftRows false (SubBytes s))) rk) := by
  simp only [ShiftRows, MixColumns, Bool.false_eq_true, if_false]
  exact AddRoundKey_state round rk _ hb
    (MixColumns_state _ (ShiftRows_state _ (SubBytes_state s h)))

theorem round_inj (round : Nat) (rk s t : List Nat) (hs : state_t s) (ht : state_t t)
    (h : AddRoundKey round (MixColumns false (ShiftRows false (SubBytes s))) rk
      = AddRoundKey round (MixColumns false (ShiftRows false (SubBytes t))) rk) : s = t := by
  simp only [ShiftRows, MixColumns, Bool.false_eq_true, if_false] at h
  have s1 := SubBytes_state s hs
  have t1 := SubBytes_state t ht
  have s2 := ShiftRows_state _ s1
  have t2 := ShiftRows_state _ t1
  have s3 := MixColumns_state _ s2
  have t3 := MixColumns_state _ t2
  exact SubBytes_inj s t hs ht (ShiftRows_inj _ _ s1.1 t1.1
    (MixColumns_inj _ _ s2.1 t2.1 (AddRoundKey_inj round rk _ _ s3.1 t3.1 h)))

theorem forRange_injOn {σ : Type} (S : Set σ) (body : Nat → σ → σ)
    (hm : ∀ i, Set.MapsTo (body i) S S) (hi : ∀ i, Set.InjOn (body i) S) (lo hi2 : Nat) :
    Set.MapsTo (forRange lo hi2 body) S S ∧ Set.InjOn (forRange lo hi2 body) S :=
  forLoop_injOn S body hm hi (hi2 - lo) lo

theorem rounds_state_inj (rk : List Nat) (hb : ∀ b, b ∈ rk → b < 256) :
    Set.MapsTo (forRange 1 10 (fun round state =>
        AddRoundKey round (MixColumns false (ShiftRows false (SubBytes state))) rk))
      (setOf state_t) (setOf state_t)
    ∧ Set.InjOn (forRange 1 10 (fun round state =>
        AddRoundKey round (MixColumns false (ShiftRows false (SubBytes state))) rk))
      (setOf state_t) :=
  forRange_injOn (setOf state_t) _ (fun i s hs => round_state i rk s hb hs)
    (fun i s hs t ht h => round_inj i rk s t hs ht h) 1 10

theorem aes_encrypt_state (rk s : List Nat) (hb : ∀ b, b ∈ rk → b < 256) (h : state_t s) :
    state_t (aes_encrypt false s rk) := by
  rw [aes_encrypt_unfold]
  simp only [ShiftRows, Bool.false_eq_true, if_false]
  exact AddRoundKey_state 10 rk _ hb (ShiftRows_state _ (SubBytes_state _
    ((rounds_state_inj rk hb).1 (AddRoundKey_state 0 rk s hb h))))

theorem aes_encrypt_inj (rk s t : List Nat) (hb : ∀ b, b ∈ rk → b < 256) (hs : state_t s)
    (ht : state_t t) (h : aes_encrypt false s rk = aes_encrypt false t rk) : s = t := by
  rw [aes_encrypt_unfold, aes_encrypt_unfold] at h
  simp only [ShiftRows, Bool.false_eq_true, if_false] at h
  have s0 := AddRoundKey_state 0 rk s hb hs
  have t0 := AddRoundKey_state 0 rk t hb ht
  have s1 := (rounds_state_inj rk hb).1 s0
  have t1 := (rounds_state_inj rk hb).1 t0
  have s2 := SubBytes_state _ s1
  have t2 := SubBytes_state _ t1
  have s3 := ShiftRows_state _ s2
  have t3 := ShiftRows_state _ t2
  exact AddRoundKey_inj 0 rk s t hs.1 ht.1 ((rounds_state_inj rk hb).2 s0 t0
    (SubBytes_inj _ _ s1 t1 (ShiftRows_inj _ _ s2.1 t2.1
      (AddRoundKey_inj 10 rk _ _ s3.1 t3.1 h))))

theorem state_t_eq_range :
    setOf state_t = Set.range (fun f : Fin 16 → Fin 256 => List.ofFn (fun i => (f i).val)) := by
  ext s
  constructor
  · intro h
    obtain ⟨hl, hb⟩ := h
    refine ⟨fun i => ⟨s.get ⟨i.val, by rw [hl]; exact i.isLt⟩, hb _ (List.get_mem _ _ _)⟩, ?_⟩
    apply List.ext_getElem
    · rw [List.length_ofFn, hl]
    · intro n h1 h2
      simp only [List.getElem_ofFn, List.get_eq_getElem]
  · rintro ⟨f, rfl⟩
    refine ⟨List.length_ofFn _, ?_⟩
    intro b hm
    rw [List.mem_ofFn] at hm
    obtain ⟨i, rfl⟩ := hm
    exact (f i).isLt

theorem state_t_finite : (setOf state_t).Finite := by
  rw [state_t_eq_range]
  exact Set.finite_range _

end Aes

namespace Aes

theorem state_t_ncard : (setOf state_t).ncard = 2 ^ 128 := by
  have hinj : Function.Injective
      (fun f : Fin 16 → Fin 256 => List.ofFn (fun i => (f i).val)) := by
    intro f g h
    funext i
    exact Fin.ext (congrFun (List.ofFn_injective h) i)
  rw [state_t_eq_range, ← Set.image_univ, Set.ncard_image_of_injective _ hinj, Set.ncard_univ,
    Nat.card_eq_fintype_card, Fintype.card_fun, Fintype.card_fin, Fintype.card_fin]
  norm_num

/-- C34: for every round-key array of bytes (in particular every 176-byte one, whether or not
KeyExpansion produced it), the reference aes_encrypt is injective on the values of state_t
(sixteen bytes): two different states are never encrypted to the same state; it maps states
to states and every state is the image of a state, so it is a bijection of the set of states
onto itself, a set of 2^128 elements. -/
theorem aes_encrypt_permutation (rk : List Nat) (hrk : ∀ b, b ∈ rk → b < 256) :
    (∀ s t, state_t s → state_t t → aes_encrypt false s rk = aes_encrypt false t rk → s = t)
    ∧ (∀ s, state_t s → state_t (aes_encrypt false s rk))
    ∧ (∀ t, state_t t → ∃ s, state_t s ∧ aes_encrypt false s rk = t)
    ∧ Set.BijOn (fun s => aes_encrypt false s rk) (setOf state_t) (setOf state_t)
    ∧ (setOf state_t).ncard = 2 ^ 128 := by
  have hm : Set.MapsTo (fun s => aes_encrypt false s rk) (setOf state_t) (setOf state_t) :=
    fun s hs => aes_encrypt_state rk s hrk hs
  have hi : Set.InjOn (fun s => aes_encrypt false s rk) (setOf state_t) :=
    fun s hs t ht h => aes_encrypt_inj rk s t hrk hs ht h
  have hbij := (Set.Finite.injOn_iff_bijOn_of_mapsTo state_t_finite hm).1 hi
  exact ⟨fun s t hs ht h => aes_encrypt_inj rk s t hrk hs ht h,
    fun s hs => aes_encrypt_state rk s hrk hs,
    fun t ht => hbij.surjOn ht, hbij, state_t_ncard⟩

theorem aes_encrypt_permutation_witness :
    (∀ b, b ∈ KeyExpansion (List.replicate 176 0) main_key → b < 256)
    ∧ ((∀ s t, state_t s → state_t t →
        aes_encrypt false s (KeyExpansion (List.replicate 176 0) main_key)
          = aes_encrypt false t (KeyExpansion (List.replicate 176 0) main_key) → s = t)
      ∧ (∀ s, state_t s →
        state_t (aes_encrypt false s (KeyExpansion (List.replicate 176 0) main_key)))
      ∧ (∀ t, state_t t → ∃ s, state_t s
        ∧ aes_encrypt false s (KeyExpansion (List.replicate 176 0) main_key) = t)
      ∧ Set.BijOn (fun s => aes_encrypt false s (KeyExpansion (List.replicate 176 0) main_key))
        (setOf state_t) (setOf state_t)
      ∧ (setOf state_t).ncard = 2 ^ 128) :=
  ⟨by decide!, aes_encrypt_permutation _ (by decide!)⟩

end Aes

namespace AesV4

theorem v4_s_box_eq : s_box = Aes.s_box := by decide!

theorem v4_Rcon_eq : Rcon = Aes.Rcon := rfl

theorem v4_KeyExpansion_copy_eq (K : List Nat) (i : Nat) (k : List Nat) :
    KeyExpansion_copy K i k = Aes.KeyExpansion_copy K i k := rfl

theorem v4_KeyExpansion_step_eq (i : Nat) (k : List Nat) :
    KeyExpansion_step i k = Aes.KeyExpansion_step i k := by
  simp only [KeyExpansion_step, Aes.KeyExpansion_step, v4_s_box_eq, v4_Rcon_eq, Nat.add_zero]

theorem v4_KeyExpansion_eq (k K : List Nat) : KeyExpansion k K = Aes.KeyExpansion k K := by
  have e1 : KeyExpansion_copy K = Aes.KeyExpansion_copy K := by
    funext i k
    exact v4_KeyExpansion_copy_eq K i k
  have e2 : KeyExpansion_step = Aes.KeyExpansion_step := by
    funext i k
    exact v4_KeyExpansion_step_eq i k
  simp only [KeyExpansion, Aes.KeyExpansion, e1, e2]

theorem v4_AddRoundKey_eq (r : Nat) (s Rk : List Nat) :
    AddRoundKey r s Rk = Aes.AddRoundKey r s Rk := rfl

theorem v4_SubBytes_eq (s : List Nat) : SubBytes s = Aes.SubBytes s := by
  simp only [SubBytes, Aes.SubBytes, v4_s_box_eq]

theorem v4_ShiftRows_eq (s : List Nat) : ShiftRows s = Aes.Baseline.ShiftRows s := rfl

theorem v4_xtime_eq (x : Nat) : xtime x = Aes.Baseline.xtime x := rfl

theorem v4_MixColumns_eq (s : List Nat) : MixColumns s = Aes.Baseline.MixColumns s := rfl

theorem v4_aes_encrypt_eq (s Rk : List Nat) : aes_encrypt s Rk = Aes.aes_encrypt false s Rk := by
  have e1 : AddRoundKey = Aes.AddRoundKey := by
    funext r s Rk
    exact v4_AddRoundKey_eq r s Rk
  have e2 : SubBytes = Aes.SubBytes := by
    funext s
    exact v4_SubBytes_eq s
  have e3 : ShiftRows = Aes.Baseline.ShiftRows := by
    funext s
    exact v4_ShiftRows_eq s
  have e4 : MixColumns = Aes.Baseline.MixColumns := by
    funext s
    exact v4_MixColumns_eq s
  simp only [aes_encrypt, Aes.aes_encrypt, Aes.ShiftRows, Aes.MixColumns, e1, e2, e3, e4,
    Bool.false_eq_true, if_false]

/-- C36: the minified AES core of testv4.c (build without USE_RISCV_ACCEL) computes the same
functions as the AES core of testv2.c, whose functions are those embedded in Aes and AesFile:
the tables s_box and Rcon are equal, and for all arguments KeyExpansion, AddRoundKey,
SubBytes, ShiftRows, xtime, MixColumns, aes_encrypt, block_to_state and state_to_block return
the same results; in particular KeyExpansion fills a 176-byte buffer with the same 176
bytes. -/
theorem testv4_core_eq_testv2 :
    s_box = Aes.s_box ∧ Rcon = Aes.Rcon
    ∧ (∀ k K : List Nat, KeyExpansion k K = Aes.KeyExpansion k K)
    ∧ (∀ (r : Nat) (s Rk : List Nat), AddRoundKey r s Rk = Aes.AddRoundKey r s Rk)
    ∧ (∀ s : List Nat, SubBytes s = Aes.SubBytes s)
    ∧ (∀ s : List Nat, ShiftRows s = Aes.ShiftRows false s)
    ∧ (∀ x : Nat, xtime x = Aes.Baseline.xtime x)
    ∧ (∀ s : List Nat, MixColumns s = Aes.MixColumns false s)
    ∧ (∀ s Rk : List Nat, aes_encrypt s Rk = Aes.aes_encrypt false s Rk)
    ∧ (∀ b s : List Nat, block_to_state b s = AesFile.block_to_state b s)
    ∧ (∀ s b : List Nat, state_to_block s b = AesFile.state_to_block s b) :=
  ⟨v4_s_box_eq, v4_Rcon_eq, v4_KeyExpansion_eq, v4_AddRoundKey_eq, v4_SubBytes_eq,
    fun s => v4_ShiftRows_eq s, v4_xtime_eq, fun s => v4_MixColumns_eq s, v4_aes_encrypt_eq,
    fun _ _ => rfl, fun _ _ => rfl⟩

end AesV4

/-! ## Checked array accesses -/

theorem run_pure {α : Type} (ok : Arr × Nat → Prop) (a : α) : Chk.Run ok (pure a) a :=
  fun log h => ⟨log, rfl, h⟩

theorem run_bind {α β : Type} (ok : Arr × Nat → Prop) (m : Chk α) (f : α → Chk β) (a : α)
    (b : β) (h1 : Chk.Run ok m a) (h2 : Chk.Run ok (f a) b) : Chk.Run ok (m >>= f) b := by
  intro log h
  obtain ⟨log1, e1, k1⟩ := h1 log h
  obtain ⟨log2, e2, k2⟩ := h2 log1 k1
  refine ⟨log2, ?_, k2⟩
  show Chk.bind m f log = some (b, log2)
  simp only [Chk.bind, e1, e2]

theorem run_rdc (ok : Arr × Nat → Prop) (n : Arr) (a : List Nat) (i : Nat)
    (h : i < a.length) (hok : ok (n, i)) : Chk.Run ok (rdc n a i) (rd a i) := by
  intro log hl
  refine ⟨log ++ [(n, i)], by simp only [rdc, if_pos h], ?_⟩
  intro e he
  rw [List.mem_append, List.mem_singleton] at he
  rcases he with he | rfl
  · exact hl e he
  · exact hok

theorem run_wrc (ok : Arr × Nat → Prop) (n : Arr) (a : List Nat) (i v : Nat)
    (h : i < a.length) (hok : ok (n, i)) : Chk.Run ok (wrc n a i v) (wr a i v) := by
  intro log hl
  refine ⟨log ++ [(n, i)], by simp only [wrc, if_pos h], ?_⟩
  intro e he
  rw [List.mem_append, List.mem_singleton] at he
  rcases he with he | rfl
  · exact hl e he
  · exact hok

theorem run_forLoopC {σ : Type} (ok : Arr × Nat → Prop) (P : σ → Prop)
    (body : Nat → σ → Chk σ) (f : Nat → σ → σ) (n lo : Nat)
    (h : ∀ i s, lo ≤ i → i < lo + n → P s → Chk.Run ok (body i s) (f i s) ∧ P (f i s))
    (s : σ) (hs : P s) :
    Chk.Run ok (forLoopC n lo body s) (forLoop n lo f s) ∧ P (forLoop n lo f s) := by
  induction n generalizing lo s with
  | zero => exact ⟨fun log hl => ⟨log, rfl, hl⟩, hs⟩
  | succ n ih =>
    obtain ⟨r1, p1⟩ := h lo s (Nat.le_refl lo) (by omega) hs
    obtain ⟨r2, p2⟩ := ih (lo + 1) (fun i t h1 h2 ht => h i t (by omega) (by omega) ht)
      (f lo s) p1
    exact ⟨run_bind ok (body lo s) (forLoopC n (lo + 1) body) (f lo s) _ r1 r2, p2⟩

theorem run_forRangeC {σ : Type} (ok : Arr × Nat → Prop) (P : σ → Prop)
    (body : Nat → σ → Chk σ) (f : Nat → σ → σ) (lo hi : Nat)
    (h : ∀ i s, lo ≤ i → i < hi → P s → Chk.Run ok (body i s) (f i s) ∧ P (f i s))
    (s : σ) (hs : P s) :
    Chk.Run ok (forRangeC lo hi body s) (forRange lo hi f s) ∧ P (forRange lo hi f s) :=
  run_forLoopC ok P body f (hi - lo) lo (fun i t h1 h2 ht => h i t h1 (by omega) ht) s hs

theorem wr_bytes (a : List Nat) (i v : Nat) (ha : ∀ b, b ∈ a → b < 256) (hv : v < 256) :
    ∀ b, b ∈ wr a i v → b < 256 := by
  intro b hb
  rcases List.mem_or_eq_of_mem_set hb with h | h
  · exact ha b h
  · rw [h]
    exact hv

namespace AesChecked

theorem Rcon_lt (i : Nat) : rd Aes.Rcon i < 256 :=
  Sha.rd_lt_of_bytes Aes.Rcon i (by decide)

theorem run_KeyExpansion_copy (ok : Arr × Nat → Prop) (hK : ∀ i, i < 16 → ok (Arr.Key, i))
    (hR : ∀ i, i < 176 → ok (Arr.RoundKey, i)) (Key : List Nat) (hkl : Key.length = 16)
    (hkb : ∀ b, b ∈ Key → b < 256) (i : Nat) (rk : List Nat) (hi : i < 4)
    (hl : rk.length = 176) (hb : ∀ b, b ∈ rk → b < 256) :
    Chk.Run ok (KeyExpansion_copy Key i rk) (Aes.KeyExpansion_copy Key i rk)
      ∧ ((Aes.KeyExpansion_copy Key i rk).length = 176
        ∧ ∀ b, b ∈ Aes.KeyExpansion_copy Key i rk → b < 256) := by
  refine ⟨?_, ?_, ?_⟩
  · unfold KeyExpansion_copy Aes.KeyExpansion_copy
    dsimp only
    refine run_bind ok _ _ _ _ (run_rdc ok _ _ _ (by omega) (hK _ (by omega))) ?_
    refine run_bind ok _ _ _ _ (run_wrc ok _ _ _ _ (by omega) (hR _ (by omega))) ?_
    refine run_bind ok _ _ _ _ (run_rdc ok _ _ _ (by omega) (hK _ (by omega))) ?_
    refine run_bind ok _ _ _ _ (run_wrc ok _ _ _ _
      (by simp only [length_wr, hl]; omega) (hR _ (by omega))) ?_
    refine run_bind ok _ _ _ _ (run_rdc ok _ _ _ (by omega) (hK _ (by omega))) ?_
    refine run_bind ok _ _ _ _ (run_wrc ok _ _ _ _
      (by simp only [length_wr, hl]; omega) (hR _ (by omega))) ?_
    refine run_bind ok _ _ _ _ (run_rdc ok _ _ _ (by omega) (hK _ (by omega))) ?_
    refine run_bind ok _ _ _ _ (run_wrc ok _ _ _ _
      (by simp only [length_wr, hl]; omega) (hR _ (by omega))) ?_
    exact run_pure ok _
  · rw [Aes.length_KeyExpansion_copy, hl]
  · unfold Aes.KeyExpansion_copy
    dsimp only
    exact wr_bytes _ _ _ (wr_bytes _ _ _ (wr_bytes _ _ _ (wr_bytes _ _ _ hb
      (Sha.rd_lt_of_bytes Key _ hkb)) (Sha.rd_lt_of_bytes Key _ hkb))
      (Sha.rd_lt_of_bytes Key _ hkb)) (Sha.rd_lt_of_bytes Key _ hkb)

theorem run_KeyExpansion_rot (ok : Arr × Nat → Prop)
    (hC : ∀ i, 1 ≤ i → i ≤ 10 → ok (Arr.Rcon, i)) (hS : ∀ i, i < 256 → ok (Arr.s_box, i))
    (i a b c d : Nat) (h1 : 4 ≤ i) (h2 : i < 44) (ha : a < 256) (hb : b < 256) (hc : c < 256)
    (hd : d < 256) :
    Chk.Run ok (KeyExpansion_rot i a b c d)
      (rd Aes.s_box b ^^^ rd Aes.Rcon (i / Aes.Nk), rd Aes.s_box c, rd Aes.s_box d,
        rd Aes.s_box a) := by
  have hl : Aes.s_box.length = 256 := by decide!
  have hr : Aes.Rcon.length = 11 := rfl
  unfold KeyExpansion_rot
  dsimp only
  refine run_bind ok _ _ _ _ (run_rdc ok _ _ _ (by rw [hl]; exact hb) (hS _ hb)) ?_
  refine run_bind ok _ _ _ _ (run_rdc ok _ _ _ (by rw [hl]; exact hc) (hS _ hc)) ?_
  refine run_bind ok _ _ _ _ (run_rdc ok _ _ _ (by rw [hl]; exact hd) (hS _ hd)) ?_
  refine run_bind ok _ _ _ _ (run_rdc ok _ _ _ (by rw [hl]; exact ha) (hS _ ha)) ?_
  refine run_bind ok _ _ _ _ (run_rdc ok _ _ _ (by rw [hr, Aes.Nk]; omega)
    (hC _ (by rw [Aes.Nk]; omega) (by rw [Aes.Nk]; omega))) ?_
  exact run_pure ok _

theorem run_KeyExpansion_step (ok : Arr × Nat → Prop)
    (hR : ∀ i, i < 176 → ok (Arr.RoundKey, i)) (hC : ∀ i, 1 ≤ i → i ≤ 10 → ok (Arr.Rcon, i))
    (hS : ∀ i, i < 256 → ok (Arr.s_box, i)) (i : Nat) (rk : List Nat) (h1 : 4 ≤ i)
    (h2 : i < 44) (hl : rk.length = 176) (hb : ∀ b, b ∈ rk → b < 256) :
    Chk.Run ok (KeyExpansion_step i rk) (Aes.KeyExpansion_step i rk) := by
  unfold KeyExpansion_step Aes.KeyExpansion_step
  simp only [Aes.Nk] at *
  by_cases h : i % 4 = 0
  · simp only [if_pos h]
    refine run_bind ok _ _ _ _ (run_rdc ok _ _ _ (by simp only [length_wr, hl]; omega) (hR _ (by omega))) ?_
    refine run_bind ok _ _ _ _ (run_rdc ok _ _ _ (by simp only [length_wr, hl]; omega) (hR _ (by omega))) ?_
    refine run_bind ok _ _ _ _ (run_rdc ok _ _ _ (by simp only [length_wr, hl]; omega) (hR _ (by omega))) ?_
    refine run_bind ok _ _ _ _ (run_rdc ok _ _ _ (by simp only [length_wr, hl]; omega) (hR _ (by omega))) ?_
    refine run_bind ok _ _ _ _ (run_KeyExpansion_rot ok hC hS i _ _ _ _ h1 h2
      (Sha.rd_lt_of_bytes rk _ hb) (Sha.rd_lt_of_bytes rk _ hb) (Sha.rd_lt_of_bytes rk _ hb)
      (Sha.rd_lt_of_bytes rk _ hb)) ?_
    refine run_bind ok _ _ _ _ (run_rdc ok _ _ _ (by simp only [length_wr, hl]; omega) (hR _ (by omega))) ?_
    refine run_bind ok _ _ _ _ (run_wrc ok _ _ _ _
      (by simp only [length_wr, hl]; omega) (hR _ (by omega))) ?_
    refine run_bind ok _ _ _ _ (run_rdc ok _ _ _ (by simp only [length_wr, hl]; omega) (hR _ (by omega))) ?_
    refine run_bind ok _ _ _ _ (run_wrc ok _ _ _ _
      (by simp only [length_wr, hl]; omega) (hR _ (by omega))) ?_
    refine run_bind ok _ _ _ _ (run_rdc ok _ _ _ (by simp only [length_wr, hl]; omega) (hR _ (by omega))) ?_
    refine run_bind ok _ _ _ _ (run_wrc ok _ _ _ _
      (by simp only [length_wr, hl]; omega) (hR _ (by omega))) ?_
    refine run_bind ok _ _ _ _ (run_rdc ok _ _ _ (by simp only [length_wr, hl]; omega) (hR _ (by omega))) ?_
    refine run_bind ok _ _ _ _ (run_wrc ok _ _ _ _
      (by simp only [length_wr, hl]; omega) (hR _ (by omega))) ?_
    exact run_pure ok _
  · simp only [if_neg h]
    refine run_bind ok _ _ _ _ (run_rdc ok _ _ _ (by simp only [length_wr, hl]; omega) (hR _ (by omega))) ?_
    refine run_bind ok _ _ _ _ (run_rdc ok _ _ _ (by simp only [length_wr, hl]; omega) (hR _ (by omega))) ?_
    refine run_bind ok _ _ _ _ (run_rdc ok _ _ _ (by simp only [length_wr, hl]; omega) (hR _ (by omega))) ?_
    refine run_bind ok _ _ _ _ (run_rdc ok _ _ _ (by simp only [length_wr, hl]; omega) (hR _ (by omega))) ?_
    refine run_bind ok _ _ _ _ (run_pure ok _) ?_
    refine run_bind ok _ _ _ _ (run_rdc ok _ _ _ (by simp only [length_wr, hl]; omega) (hR _ (by omega))) ?_
    refine run_bind ok _ _ _ _ (run_wrc ok _ _ _ _
      (by simp only [length_wr, hl]; omega) (hR _ (by omega))) ?_
    refine run_bind ok _ _ _ _ (run_rdc ok _ _ _ (by simp only [length_wr, hl]; omega) (hR _ (by omega))) ?_
    refine run_bind ok _ _ _ _ (run_wrc ok _ _ _ _
      (by simp only [length_wr, hl]; omega) (hR _ (by omega))) ?_
    refine run_bind ok _ _ _ _ (run_rdc ok _ _ _ (by simp only [length_wr, hl]; omega) (hR _ (by omega))) ?_
    refine run_bind ok _ _ _ _ (run_wrc ok _ _ _ _
      (by simp only [length_wr, hl]; omega) (hR _ (by omega))) ?_
    refine run_bind ok _ _ _ _ (run_rdc ok _ _ _ (by simp only [length_wr, hl]; omega) (hR _ (by omega))) ?_
    refine run_bind ok _ _ _ _ (run_wrc ok _ _ _ _
      (by simp only [length_wr, hl]; omega) (hR _ (by omega))) ?_
    exact run_pure ok _

theorem KeyExpansion_step_bytes (i : Nat) (rk : List Nat) (hb : ∀ b, b ∈ rk → b < 256) :
    ∀ b, b ∈ Aes.KeyExpansion_step i rk → b < 256 := by
  unfold Aes.KeyExpansion_step
  by_cases h : i % Aes.Nk = 0
  · simp only [if_pos h]
    repeat' first
      | exact hb
      | exact Aes.rd_s_box_lt _
      | exact Rcon_lt _
      | apply Aes.xor_lt_byte
      | apply Sha.rd_lt_of_bytes
      | apply wr_bytes
  · simp only [if_neg h]
    repeat' first
      | exact hb
      | exact Aes.rd_s_box_lt _
      | exact Rcon_lt _
      | apply Aes.xor_lt_byte
      | apply Sha.rd_lt_of_bytes
      | apply wr_bytes

theorem run_KeyExpansion (ok : Arr × Nat → Prop) (hK : ∀ i, i < 16 → ok (Arr.Key, i))
    (hR : ∀ i, i < 176 → ok (Arr.RoundKey, i)) (hC : ∀ i, 1 ≤ i → i ≤ 10 → ok (Arr.Rcon, i))
    (hS : ∀ i, i < 256 → ok (Arr.s_box, i)) (rk Key : List Nat) (hl : rk.length = 176)
    (hb : ∀ b, b ∈ rk → b < 256) (hkl : Key.length = 16) (hkb : ∀ b, b ∈ Key → b < 256) :
    Chk.Run ok (KeyExpansion rk Key) (Aes.KeyExpansion rk Key) := by
  obtain ⟨r1, p1⟩ := run_forRangeC ok (fun s => s.length = 176 ∧ ∀ b, b ∈ s → b < 256)
    (KeyExpansion_copy Key) (Aes.KeyExpansion_copy Key) 0 Aes.Nk
    (fun i s _ h2 hs => run_KeyExpansion_copy ok hK hR Key hkl hkb i s h2 hs.1 hs.2)
    rk ⟨hl, hb⟩
  obtain ⟨r2, _⟩ := run_forRangeC ok (fun s => s.length = 176 ∧ ∀ b, b ∈ s → b < 256)
    KeyExpansion_step Aes.KeyExpansion_step Aes.Nk (Aes.Nb * (Aes.Nr + 1))
    (fun i s h1 h2 hs => ⟨run_KeyExpansion_step ok hR hC hS i s h1 h2 hs.1 hs.2,
      by rw [Aes.length_KeyExpansion_step, hs.1], KeyExpansion_step_bytes i s hs.2⟩)
    _ p1
  exact run_bind ok _ _ _ _ r1 r2

end AesChecked

namespace AesChecked

theorem run_AddRoundKey_cell (ok : Arr × Nat → Prop) (round : Nat)
    (hR : ∀ k, 16 * round ≤ k → k ≤ 16 * round + 15 → ok (Arr.RoundKey, k))
    (hT : ∀ k, k < 16 → ok (Arr.state, k)) (rk : List Nat) (i j : Nat) (state : List Nat)
    (hr : round ≤ 10) (hi : i < 4) (hj : j < 4) (hl : rk.length = 176)
    (hs : state.length = 16) :
    Chk.Run ok (AddRoundKey_cell round rk i j state)
      (Aes.sset state j i (Aes.sget state j i ^^^ rd rk (round * Aes.Nb * 4 + i * Aes.Nb + j)))
    := by
  unfold AddRoundKey_cell sgetc ssetc Aes.sset Aes.sget
  simp only [Aes.Nb]
  refine run_bind ok _ _ _ _ (run_rdc ok _ _ _ (by omega) (hR _ (by omega) (by omega))) ?_
  refine run_bind ok _ _ _ _ (run_rdc ok _ _ _ (by omega) (hT _ (by omega))) ?_
  exact run_wrc ok _ _ _ _ (by omega) (hT _ (by omega))

theorem run_AddRoundKey (ok : Arr × Nat → Prop) (round : Nat)
    (hR : ∀ k, 16 * round ≤ k → k ≤ 16 * round + 15 → ok (Arr.RoundKey, k))
    (hT : ∀ k, k < 16 → ok (Arr.state, k)) (state rk : List Nat) (hr : round ≤ 10)
    (hl : rk.length = 176) (hs : state.length = 16) :
    Chk.Run ok (AddRoundKey round state rk) (Aes.AddRoundKey round state rk) := by
  unfold AddRoundKey Aes.AddRoundKey
  refine (run_forRangeC ok (fun s => s.length = 16) _ _ 0 4 ?_ state hs).1
  intro i s _ hi hs1
  refine run_forRangeC ok (fun s => s.length = 16) _ _ 0 4 ?_ s hs1
  intro j t _ hj ht
  exact ⟨run_AddRoundKey_cell ok round hR hT rk i j t hr hi hj hl ht,
    (Aes.length_sset _ _ _ _).trans ht⟩

theorem short_RoundKey_fails :
    KeyExpansion (List.replicate 175 0) Aes.main_key [] = none
    ∧ AddRoundKey 11 (List.replicate 16 0) (List.replicate 176 0) [] = none := by
  constructor <;> decide!

/-- C37: with every array access checked (an index outside the array makes the computation
fail), no access fails in KeyExpansion and AddRoundKey. For a 176-byte RoundKey buffer and a
16-byte key, checked KeyExpansion succeeds with the result of KeyExpansion, and it accesses
Key only at indices 0..15, RoundKey only at 0..175, Rcon only at 1..10 and s_box only at
0..255. For every round in 0..10, a 16-byte state and a 176-byte round-key array, checked
AddRoundKey succeeds with the result of AddRoundKey, reads RoundKey only at indices
16*round .. 16*round + 15, which are at most 175, and accesses the state only at 0..15. -/
theorem no_access_fails (RoundKey Key : List Nat) (hrk : RoundKey.length = 176)
    (hkey : Key.length = 16) (hrkb : ∀ b, b ∈ RoundKey → b < 256)
    (hkb : ∀ b, b ∈ Key → b < 256) :
    (∃ log, KeyExpansion RoundKey Key [] = some (Aes.KeyExpansion RoundKey Key, log)
      ∧ ∀ e, e ∈ log →
        (e.1 = Arr.Key → e.2 ≤ 15) ∧ (e.1 = Arr.RoundKey → e.2 ≤ 175)
        ∧ (e.1 = Arr.Rcon → 1 ≤ e.2 ∧ e.2 ≤ 10) ∧ (e.1 = Arr.s_box → e.2 ≤ 255))
    ∧ (∀ (round : Nat) (state rk : List Nat), round ≤ 10 → state.length = 16 →
        rk.length = 176 →
        ∃ log, AddRoundKey round state rk [] = some (Aes.AddRoundKey round state rk, log)
          ∧ ∀ e, e ∈ log →
            (e.1 = Arr.RoundKey → 16 * round ≤ e.2 ∧ e.2 ≤ 16 * round + 15 ∧ e.2 ≤ 175)
            ∧ (e.1 = Arr.state → e.2 ≤ 15)) := by
  constructor
  · refine run_KeyExpansion
      (fun e => (e.1 = Arr.Key → e.2 ≤ 15) ∧ (e.1 = Arr.RoundKey → e.2 ≤ 175)
        ∧ (e.1 = Arr.Rcon → 1 ≤ e.2 ∧ e.2 ≤ 10) ∧ (e.1 = Arr.s_box → e.2 ≤ 255))
      ?_ ?_ ?_ ?_ RoundKey Key hrk hrkb hkey hkb [] (fun e he => by cases he)
    · intro i h
      refine ⟨fun e => ?_, fun e => ?_, fun e => ?_, fun e => ?_⟩ <;>
        first
          | (dsimp only; omega)
          | cases e
    · intro i h
      refine ⟨fun e => ?_, fun e => ?_, fun e => ?_, fun e => ?_⟩ <;>
        first
          | (dsimp only; omega)
          | cases e
    · intro i h1 h2
      refine ⟨fun e => ?_, fun e => ?_, fun e => ?_, fun e => ?_⟩ <;> (dsimp only; omega)
    · intro i h
      refine ⟨fun e => ?_, fun e => ?_, fun e => ?_, fun e => ?_⟩ <;>
        first
          | (dsimp only; omega)
          | cases e
  · intro round state rk hr hs hl
    refine run_AddRoundKey
      (fun e => (e.1 = Arr.RoundKey → 16 * round ≤ e.2 ∧ e.2 ≤ 16 * round + 15 ∧ e.2 ≤ 175)
        ∧ (e.1 = Arr.state → e.2 ≤ 15))
      round ?_ ?_ state rk hr hl hs [] (fun e he => by cases he)
    · intro k h1 h2
      refine ⟨fun e => ?_, fun e => ?_⟩ <;>
        first
          | (dsimp only; omega)
          | cases e
    · intro k h
      refine ⟨fun e => ?_, fun e => ?_⟩ <;>
        first
          | (dsimp only; omega)
          | cases e

theorem no_access_fails_witness :
    (∃ log, KeyExpansion (List.replicate 176 0) Aes.main_key []
        = some (Aes.KeyExpansion (List.replicate 176 0) Aes.main_key, log)
      ∧ ∀ e, e ∈ log →
        (e.1 = Arr.Key → e.2 ≤ 15) ∧ (e.1 = Arr.RoundKey → e.2 ≤ 175)
        ∧ (e.1 = Arr.Rcon → 1 ≤ e.2 ∧ e.2 ≤ 10) ∧ (e.1 = Arr.s_box → e.2 ≤ 255))
    ∧ (∀ (round : Nat) (state rk : List Nat), round ≤ 10 → state.length = 16 →
        rk.length = 176 →
        ∃ log, AddRoundKey round state rk [] = some (Aes.AddRoundKey round state rk, log)
          ∧ ∀ e, e ∈ log →
            (e.1 = Arr.RoundKey → 16 * round ≤ e.2 ∧ e.2 ≤ 16 * round + 15 ∧ e.2 ≤ 175)
            ∧ (e.1 = Arr.state → e.2 ≤ 15)) :=
  no_access_fails (List.replicate 176 0) Aes.main_key (List.length_replicate _ _) (by decide)
    (by decide!) (by decide)

end AesChecked

namespace ShaChecked

theorem mem_span (n : Arr) (off k : Nat) (e : Arr × Nat) (h : e ∈ span n off k) :
    ∃ j, j < k ∧ e = (n, off + j) := by
  simp only [span, List.mem_map, List.mem_range] at h
  obtain ⟨j, hj, rfl⟩ := h
  exact ⟨j, hj, rfl⟩

theorem run_span {α : Type} (ok : Arr × Nat → Prop) (n : Arr) (off k : Nat) (a : α)
    (hok : ∀ j, j < k → ok (n, off + j)) (log : List (Arr × Nat))
    (hl : ∀ e, e ∈ log → ok e) :
    ∃ log1, some (a, log ++ span n off k) = some (a, log1) ∧ ∀ e, e ∈ log1 → ok e := by
  refine ⟨_, rfl, ?_⟩
  intro e he
  rw [List.mem_append] at he
  rcases he with he | he
  · exact hl e he
  · obtain ⟨j, hj, rfl⟩ := mem_span n off k e he
    exact hok j hj

theorem run_memcpyc (ok : Arr × Nat → Prop) (n : Arr) (dst : List Nat) (off : Nat)
    (src : List Nat) (k : Nat) (h1 : off + k ≤ dst.length) (h2 : k ≤ src.length)
    (hok : ∀ j, j < k → ok (n, off + j)) :
    Chk.Run ok (memcpyc n dst off src k) (Sha.memcpy dst off src k) := by
  intro log hl
  simp only [memcpyc, if_pos (And.intro h1 h2)]
  exact run_span ok n off k _ hok log hl

theorem run_memsetc (ok : Arr × Nat → Prop) (n : Arr) (dst : List Nat) (off v : Nat)
    (k : Int) (m : Nat) (hk : k = (m : Int)) (h1 : off + m ≤ dst.length)
    (hok : ∀ j, j < m → ok (n, off + j)) :
    Chk.Run ok (memsetc n dst off v k) (Sha.memset dst off v m) := by
  intro log hl
  subst hk
  have h0 : (0 : Int) ≤ (m : Int) := Int.ofNat_nonneg m
  simp only [memsetc, Int.toNat_ofNat, if_pos (And.intro h0 h1)]
  exact run_span ok n off m _ hok log hl

theorem run_blockc (ok : Arr × Nat → Prop) (n : Arr) (a : List Nat) (h : 64 ≤ a.length)
    (hok : ∀ j, j < 64 → ok (n, j)) : Chk.Run ok (blockc n a) a := by
  intro log hl
  have h2 : Sha.SHA256_BLOCK_SIZE ≤ a.length := h
  simp only [blockc, if_pos h2]
  exact run_span ok n 0 Sha.SHA256_BLOCK_SIZE _
    (fun j hj => by rw [Nat.zero_add]; exact hok j hj) log hl

theorem length_memcpy (dst : List Nat) (off : Nat) (src : List Nat) (k : Nat)
    (h1 : off + k ≤ dst.length) (h2 : k ≤ src.length) :
    (Sha.memcpy dst off src k).length = dst.length := by
  simp only [Sha.memcpy, List.length_append, List.length_take, List.length_drop]
  omega

theorem length_memset (dst : List Nat) (off v k : Nat) (h1 : off + k ≤ dst.length) :
    (Sha.memset dst off v k).length = dst.length := by
  simp only [Sha.memset, List.length_append, List.length_take, List.length_drop,
    List.length_replicate]
  omega

theorem run_sha256_update_rest (ok : Arr × Nat → Prop) (hok : ∀ i, i < 64 → ok (Arr.buf, i))
    (ext : Bool) (ctx : Sha.sha256_ctx) (data : List Nat) (hb : ctx.buf.length = 64) :
    Chk.Run ok (sha256_update_rest ext ctx data) (Sha.sha256_update_rest ext ctx data) := by
  have hlen := Sha.length_tail_bytes data
  have hm : data.length % 64 < 64 := Nat.mod_lt _ (by omega)
  unfold sha256_update_rest Sha.sha256_update_rest
  rw [Sha.sha256_update_loop_eq ext data.length ctx data (Nat.div_le_self _ _)]
  dsimp only
  by_cases h : (Sha.tail_bytes data).length > 0
  · simp only [if_pos h]
    refine run_bind ok _ _ _ _ (run_memcpyc ok _ _ _ _ _
      (by rw [Sha.foldl_transform_buf, hb]; omega) (Nat.le_refl _)
      (fun j hj => by rw [Nat.zero_add]; exact hok j (by omega))) ?_
    exact run_pure ok _
  · simp only [if_neg h]
    exact run_pure ok _

theorem run_sha256_update (ok : Arr × Nat → Prop) (hok : ∀ i, i < 64 → ok (Arr.buf, i))
    (ext : Bool) (ctx : Sha.sha256_ctx) (data : List Nat) (hb : ctx.buf.length = 64) :
    Chk.Run ok (sha256_update ext ctx data) (Sha.sha256_update ext ctx data) := by
  have hm : ctx.len % 64 < 64 := Nat.mod_lt _ (by omega)
  unfold sha256_update Sha.sha256_update
  simp only [Sha.SHA256_BLOCK_SIZE]
  by_cases h1 : ctx.len % 64 > 0
  · simp only [if_pos h1]
    by_cases h2 : data.length < 64 - ctx.len % 64
    · simp only [if_pos h2]
      refine run_bind ok _ _ _ _ (run_memcpyc ok _ _ _ _ _ (by rw [hb]; omega)
        (Nat.le_refl _) (fun j hj => hok _ (by omega))) ?_
      exact run_pure ok _
    · simp only [if_neg h2]
      have hl : (Sha.memcpy ctx.buf (ctx.len % 64) data (64 - ctx.len % 64)).length = 64 := by
        rw [length_memcpy _ _ _ _ (by rw [hb]; omega) (by omega), hb]
      refine run_bind ok _ _ _ _ (run_memcpyc ok _ _ _ _ _ (by rw [hb]; omega)
        (by omega) (fun j hj => hok _ (by omega))) ?_
      refine run_bind ok _ _ _ _ (run_blockc ok _ _ (Nat.le_of_eq hl.symm) hok) ?_
      exact run_sha256_update_rest ok hok ext _ _ hl
  · simp only [if_neg h1]
    exact run_sha256_update_rest ok hok ext _ _ hb

theorem run_sha256_final_pad (ok : Arr × Nat → Prop)
    (hok : ∀ i, i < 64 → ok (Arr.buf, i)) (ext : Bool) (ctx : Sha.sha256_ctx) (bb : Nat)
    (hb : ctx.buf.length = 64) (hbb : bb ≤ 64) :
    Chk.Run ok (sha256_final_pad ext ctx bb)
      (if bb > 64 - 8 then
        { Sha.sha256_transform ext { ctx with buf := Sha.memset ctx.buf bb 0 (64 - bb) }
            (Sha.memset ctx.buf bb 0 (64 - bb)) with
          buf := Sha.memset (Sha.memset ctx.buf bb 0 (64 - bb)) 0 0 64 }
      else { ctx with buf := Sha.memset ctx.buf bb 0 (64 - bb) })
    ∧ (if bb > 64 - 8 then
        { Sha.sha256_transform ext { ctx with buf := Sha.memset ctx.buf bb 0 (64 - bb) }
            (Sha.memset ctx.buf bb 0 (64 - bb)) with
          buf := Sha.memset (Sha.memset ctx.buf bb 0 (64 - bb)) 0 0 64 }
      else { ctx with buf := Sha.memset ctx.buf bb 0 (64 - bb) }).buf.length = 64 := by
  have hl : (Sha.memset ctx.buf bb 0 (64 - bb)).length = 64 := by
    rw [length_memset _ _ _ _ (by rw [hb]; omega), hb]
  have hl2 : (Sha.memset (Sha.memset ctx.buf bb 0 (64 - bb)) 0 0 64).length = 64 := by
    rw [length_memset _ _ _ _ (by rw [hl]), hl]
  unfold sha256_final_pad
  simp only [Sha.SHA256_BLOCK_SIZE]
  by_cases h : bb > 64 - 8
  · simp only [if_pos h]
    refine ⟨?_, hl2⟩
    refine run_bind ok _ _ _ _ (run_memsetc ok _ _ _ _ _ (64 - bb) (by omega)
      (by rw [hb]; omega) (fun j hj => hok _ (by omega))) ?_
    refine run_bind ok _ _ _ _ (run_blockc ok _ _ (Nat.le_of_eq hl.symm) hok) ?_
    refine run_bind ok _ _ _ _ (run_memsetc ok _ _ _ _ _ 64 rfl
      (Nat.le_of_eq (by rw [Nat.zero_add]; exact hl.symm))
      (fun j hj => by rw [Nat.zero_add]; exact hok j hj)) ?_
    exact run_pure ok _
  · simp only [if_neg h]
    refine ⟨?_, hl⟩
    refine run_bind ok _ _ _ _ (run_memsetc ok _ _ _ _ _ (64 - bb) (by omega)
      (by rw [hb]; omega) (fun j hj => hok _ (by omega))) ?_
    exact run_pure ok _

end ShaChecked

namespace ShaChecked

theorem run_sha256_final_tail (ok : Arr × Nat → Prop)
    (hok : ∀ i, i < 64 → ok (Arr.buf, i)) (ext : Bool) (ctx : Sha.sha256_ctx)
    (digest0 : List Nat) (hb : ctx.buf.length = 64) :
    Chk.Run ok (sha256_final_tail ext ctx digest0)
      (let bit_len := Sha.bswap_64 ((ctx.len * 8) % 2 ^ 64)
       let ctx := { ctx with buf := Sha.memcpy ctx.buf (64 - 8) (Sha.bytes64 bit_len) 8 }
       let ctx := Sha.sha256_transform ext ctx ctx.buf
       let digest := forRange 0 8 (fun i digest =>
         Sha.memcpy digest (4 * i) (Sha.bytes32 (Sha.bswap_32 (rd ctx.h i))) 4) digest0
       (ctx, digest)) := by
  unfold sha256_final_tail
  simp only [Sha.SHA256_BLOCK_SIZE]
  refine run_bind ok _ _ _ _ (run_memcpyc ok _ _ _ _ _ (by rw [hb])
    (by rw [Sha.length_bytes64]) (fun j hj => hok _ (by omega))) ?_
  refine run_bind ok _ _ _ _ (run_blockc ok _ _ (by
    rw [length_memcpy _ _ _ _ (by rw [hb]) (by rw [Sha.length_bytes64]), hb]) hok) ?_
  exact run_pure ok _

theorem run_sha256_final (ok : Arr × Nat → Prop) (hok : ∀ i, i < 64 → ok (Arr.buf, i))
    (ext : Bool) (ctx : Sha.sha256_ctx) (digest0 : List Nat) (hb : ctx.buf.length = 64) :
    Chk.Run ok (sha256_final ext ctx digest0) (Sha.sha256_final ext ctx digest0) := by
  have hm : ctx.len % 64 < 64 := Nat.mod_lt _ (by omega)
  have hw : (wr ctx.buf (ctx.len % 64) 0x80).length = 64 := by rw [length_wr, hb]
  obtain ⟨r, hl⟩ := run_sha256_final_pad ok hok ext
    { ctx with buf := wr ctx.buf (ctx.len % 64) 0x80 } (ctx.len % 64 + 1) hw (by omega)
  unfold sha256_final Sha.sha256_final
  simp only [Sha.SHA256_BLOCK_SIZE]
  refine run_bind ok _ _ _ _ (run_wrc ok _ _ _ _ (by rw [hb]; exact hm) (hok _ hm)) ?_
  exact run_bind ok _ _ _ _ r (run_sha256_final_tail ok hok ext _ digest0 hl)

theorem short_buf_fails :
    sha256_final false ⟨List.replicate 10 0, Sha.sha256_h_init, 0, []⟩ (List.replicate 32 0) []
        = none
    ∧ sha256_update false ⟨List.replicate 10 0, Sha.sha256_h_init, 5, []⟩ (List.replicate 9 1) []
        = none := by
  constructor <;> decide!

/-- C38: for every context with its 64-byte buf and every input, the while loop of
sha256_update terminates (with fuel for at least len / 64 passes it stops by its own
condition, fewer than 64 bytes remaining, and more fuel does not change the result), and
with every access to ctx.buf checked, sha256_update and sha256_final succeed with their
results and access buf only at indices 0..63. In particular the copy of sha256_update into
buf at offset len mod 64 ends at byte 63 at the latest, the byte 0x80 of sha256_final is
stored at an index at most 63, and the memset length 64 - buffer_bytes is not negative. -/
theorem buf_access_in_bounds (ext : Bool) (ctx : Sha.sha256_ctx) (data digest0 : List Nat)
    (hb : ctx.buf.length = 64) :
    (∃ log, sha256_update ext ctx data [] = some (Sha.sha256_update ext ctx data, log)
      ∧ ∀ e, e ∈ log → e.1 = Arr.buf ∧ e.2 ≤ 63)
    ∧ (∃ log, sha256_final ext ctx digest0 [] = some (Sha.sha256_final ext ctx digest0, log)
      ∧ ∀ e, e ∈ log → e.1 = Arr.buf ∧ e.2 ≤ 63)
    ∧ (∀ (c : Sha.sha256_ctx) (d : List Nat) (fuel : Nat), d.length / 64 ≤ fuel →
        Sha.sha256_update_loop ext fuel c d = Sha.sha256_update_loop ext (d.length / 64) c d
        ∧ (Sha.sha256_update_loop ext fuel c d).2.length < Sha.SHA256_BLOCK_SIZE)
    ∧ ctx.len % Sha.SHA256_BLOCK_SIZE
        + min data.length (Sha.SHA256_BLOCK_SIZE - ctx.len % Sha.SHA256_BLOCK_SIZE) ≤ 64
    ∧ ctx.len % Sha.SHA256_BLOCK_SIZE ≤ 63
    ∧ (0 : Int) ≤ (Sha.SHA256_BLOCK_SIZE : Int)
        - ((ctx.len % Sha.SHA256_BLOCK_SIZE + 1 : Nat) : Int) := by
  have hm : ctx.len % 64 < 64 := Nat.mod_lt _ (by omega)
  refine ⟨?_, ?_, ?_, ?_, ?_, ?_⟩
  · exact run_sha256_update (fun e => e.1 = Arr.buf ∧ e.2 ≤ 63)
      (fun i h => ⟨rfl, Nat.le_of_lt_succ h⟩) ext ctx data hb [] (fun e he => by cases he)
  · exact run_sha256_final (fun e => e.1 = Arr.buf ∧ e.2 ≤ 63)
      (fun i h => ⟨rfl, Nat.le_of_lt_succ h⟩) ext ctx digest0 hb [] (fun e he => by cases he)
  · intro c d fuel hf
    rw [Sha.sha256_update_loop_eq ext fuel c d hf,
      Sha.sha256_update_loop_eq ext (d.length / 64) c d (Nat.le_refl _)]
    refine ⟨rfl, ?_⟩
    show (Sha.tail_bytes d).length < 64
    rw [Sha.length_tail_bytes]
    exact Nat.mod_lt _ (by omega)
  · simp only [Sha.SHA256_BLOCK_SIZE]
    omega
  · simp only [Sha.SHA256_BLOCK_SIZE]
    omega
  · simp only [Sha.SHA256_BLOCK_SIZE]
    omega

theorem buf_access_in_bounds_witness :
    (Sha.sha256_update false Sha.ctx0 (List.replicate 40 1)).buf.length = 64
    ∧ ((∃ log, sha256_update true (Sha.sha256_update false Sha.ctx0 (List.replicate 40 1))
            (List.replicate 70 2) []
          = some (Sha.sha256_update true (Sha.sha256_update false Sha.ctx0 (List.replicate 40 1))
            (List.replicate 70 2), log)
        ∧ ∀ e, e ∈ log → e.1 = Arr.buf ∧ e.2 ≤ 63)
      ∧ (∃ log, sha256_final true (Sha.sha256_update false Sha.ctx0 (List.replicate 40 1))
            (List.replicate 32 0) []
          = some (Sha.sha256_final true (Sha.sha256_update false Sha.ctx0 (List.replicate 40 1))
            (List.replicate 32 0), log)
        ∧ ∀ e, e ∈ log → e.1 = Arr.buf ∧ e.2 ≤ 63)
      ∧ (∀ (c : Sha.sha256_ctx) (d : List Nat) (fuel : Nat), d.length / 64 ≤ fuel →
          Sha.sha256_update_loop true fuel c d
            = Sha.sha256_update_loop true (d.length / 64) c d
          ∧ (Sha.sha256_update_loop true fuel c d).2.length < Sha.SHA256_BLOCK_SIZE)
      ∧ (Sha.sha256_update false Sha.ctx0 (List.replicate 40 1)).len % Sha.SHA256_BLOCK_SIZE
          + min (List.replicate 70 2).length (Sha.SHA256_BLOCK_SIZE
            - (Sha.sha256_update false Sha.ctx0 (List.replicate 40 1)).len
              % Sha.SHA256_BLOCK_SIZE) ≤ 64
      ∧ (Sha.sha256_update false Sha.ctx0 (List.replicate 40 1)).len % Sha.SHA256_BLOCK_SIZE
          ≤ 63
      ∧ (0 : Int) ≤ (Sha.SHA256_BLOCK_SIZE : Int)
          - (((Sha.sha256_update false Sha.ctx0 (List.replicate 40 1)).len
            % Sha.SHA256_BLOCK_SIZE + 1 : Nat) : Int)) :=
  ⟨by decide, buf_access_in_bounds true _ (List.replicate 70 2) (List.replicate 32 0)
    (by decide)⟩

end ShaChecked

/-! ## AES-128: the accelerated `MixColumns` with the `rori` of `rv64` -/

namespace Aes

end Aes

/-! ## AES-128: the accelerated `MixColumns` on a state -/

namespace Aes

end Aes

/-! ## AES-128: the accelerated `MixColumns`, the claim -/

namespace Aes

end Aes

/-! ## AES-128 of `aes_test.c`: null pointers and the complete ciphertext -/

namespace AesTest

theorem length_state_to_block (state block : List Nat) (h : block.length = 16) :
    (AesFile.state_to_block state block).length = 16 := by
  rw [AesFile.state_to_block_eq _ _ h]
  rfl

/-- C23. `AES_encrypt` of `aes_test.c` returns `-1` exactly when one of
`input`, `key`, `output` is null, and then leaves `output` as it was. With
three valid pointers to 16-byte buffers it returns `0` and `output` holds the
complete ciphertext: its 16 bytes are those that the reference pipeline
`KeyExpansion`, `block_to_state`, `aes_encrypt` (all ten rounds),
`state_to_block` of `aes_filesv2` produces for this key and block, they do not
depend on what `output` or the local arrays held before, and every output byte
is written. -/
theorem AES_encrypt_null_check (st0 rk0 st1 rk1 out1 : List Nat)
    (input key output : Option (List Nat))
    (hst0 : st0.length = 16) (hrk0 : rk0.length = 176)
    (hst1 : st1.length = 16) (hrk1 : rk1.length = 176) (hout1 : out1.length = 16)
    (hin : ∀ i, input = some i → i.length = 16)
    (hout : ∀ o, output = some o → o.length = 16) :
    ((AES_encrypt st0 rk0 input key output).1 = -1
        ↔ (input = none ∨ key = none ∨ output = none))
    ∧ ((input = none ∨ key = none ∨ output = none) →
        AES_encrypt st0 rk0 input key output = (-1, output))
    ∧ (∀ i k o, input = some i → key = some k → output = some o →
        ∃ ct, ct.length = 16
          ∧ ct = AesFile.state_to_block
              (Aes.aes_encrypt false (AesFile.block_to_state i st1) (Aes.KeyExpansion rk1 k))
              out1
          ∧ AES_encrypt st0 rk0 input key output = (0, some ct)
          ∧ ∀ o1 : List Nat, o1.length = 16 →
              AES_encrypt st1 rk1 (some i) (some k) (some o1) = (0, some ct)) := by
  have hpipe : ∀ (st rk i k o : List Nat), st.length = 16 → rk.length = 176 →
      i.length = 16 → o.length = 16 →
      AES_encrypt st rk (some i) (some k) (some o)
        = (0, some (AesFile.state_to_block
            (Aes.aes_encrypt false (AesFile.block_to_state i st1) (Aes.KeyExpansion rk1 k))
            out1)) := by
    intro st rk i k o hst hrk hi ho
    have h0 : (AddRoundKey 0 i (Aes.KeyExpansion rk1 k)).length = 16 := by
      rw [length_AddRoundKey, hi]
    obtain ⟨hloop, hlen⟩ := transpose_rounds (Aes.KeyExpansion rk1 k) st1 hst1 9 1
      (AddRoundKey 0 i (Aes.KeyExpansion rk1 k)) h0
    have h1 := hlen
    rw [← length_SubBytes] at h1
    have h2 := h1
    rw [← length_ShiftRows] at h2
    have h3 := h2
    rw [← length_AddRoundKey 10 _ (Aes.KeyExpansion rk1 k)] at h3
    have key_eq : AesFile.block_to_state
        (AddRoundKey 10 (ShiftRows (SubBytes (forLoop 9 1 (fun round state =>
          AddRoundKey round (MixColumns (ShiftRows (SubBytes state))) (Aes.KeyExpansion rk1 k))
          (AddRoundKey 0 i (Aes.KeyExpansion rk1 k))))) (Aes.KeyExpansion rk1 k)) st1
        = Aes.aes_encrypt false (AesFile.block_to_state i st1) (Aes.KeyExpansion rk1 k) := by
      rw [transpose_AddRoundKey _ _ _ _ h2 hst1, transpose_ShiftRows _ _ h1 hst1,
        transpose_SubBytes _ _ hlen hst1, hloop, transpose_AddRoundKey _ _ _ _ hi hst1,
        Aes.aes_encrypt_unfold]
      simp only [Aes.ShiftRows, Bool.false_eq_true, if_false, forRange, Nat.reduceSub]
    simp only [AES_encrypt, Nr, forRange, Nat.reduceSub]
    rw [memcpy_full st i 16 hst, memcpy_full o _ 16 ho, KeyExpansion_eq,
      Aes.KeyExpansion_indep rk rk1 k hrk hrk1, List.take_of_length_le (Nat.le_of_eq hi),
      List.take_of_length_le (Nat.le_of_eq h3), ← key_eq,
      state_of_block_inv _ _ _ h3 hst1 hout1]
  have hnull : (input = none ∨ key = none ∨ output = none) →
      AES_encrypt st0 rk0 input key output = (-1, output) := by
    intro h
    cases input with
    | none => rfl
    | some i =>
      cases key with
      | none => rfl
      | some k =>
        cases output with
        | none => rfl
        | some o => simp at h
  have hsome : ∀ i k o, input = some i → key = some k → output = some o →
      ∃ ct, ct.length = 16
        ∧ ct = AesFile.state_to_block
            (Aes.aes_encrypt false (AesFile.block_to_state i st1) (Aes.KeyExpansion rk1 k))
            out1
        ∧ AES_encrypt st0 rk0 input key output = (0, some ct)
        ∧ ∀ o1 : List Nat, o1.length = 16 →
            AES_encrypt st1 rk1 (some i) (some k) (some o1) = (0, some ct) := by
    intro i k o hi hk ho
    refine ⟨_, length_state_to_block _ _ hout1, rfl, ?_, ?_⟩
    · rw [hi, hk, ho]
      exact hpipe st0 rk0 i k o hst0 hrk0 (hin i hi) (hout o ho)
    · intro o1 ho1
      exact hpipe st1 rk1 i k o1 hst1 hrk1 (hin i hi) ho1
  refine ⟨⟨?_, fun h => by rw [hnull h]⟩, hnull, hsome⟩
  intro h
  cases hi : input with
  | none => exact Or.inl rfl
  | some i =>
    cases hk : key with
    | none => exact Or.inr (Or.inl rfl)
    | some k =>
      cases ho : output with
      | none => exact Or.inr (Or.inr rfl)
      | some o =>
        obtain ⟨ct, -, -, he, -⟩ := hsome i k o hi hk ho
        rw [he] at h
        simp at h

theorem AES_encrypt_null_check_witness :
    ((AES_encrypt (List.replicate 16 1) (List.replicate 176 2) (some Aes.main_in)
          (some Aes.main_key) (some (List.replicate 16 3))).1 = -1
        ↔ (some Aes.main_in = none ∨ some Aes.main_key = none
            ∨ some (List.replicate 16 3) = none))
    ∧ ((some Aes.main_in = none ∨ some Aes.main_key = none
          ∨ some (List.replicate 16 3) = none) →
        AES_encrypt (List.replicate 16 1) (List.replicate 176 2) (some Aes.main_in)
          (some Aes.main_key) (some (List.replicate 16 3)) = (-1, some (List.replicate 16 3)))
    ∧ (∀ i k o, some Aes.main_in = some i → some Aes.main_key = some k →
        some (List.replicate 16 3) = some o →
        ∃ ct, ct.length = 16
          ∧ ct = AesFile.state_to_block
              (Aes.aes_encrypt false (AesFile.block_to_state i (List.replicate 16 4))
                (Aes.KeyExpansion (List.replicate 176 5) k))
              (List.replicate 16 6)
          ∧ AES_encrypt (List.replicate 16 1) (List.replicate 176 2) (some Aes.main_in)
              (some Aes.main_key) (some (List.replicate 16 3)) = (0, some ct)
          ∧ ∀ o1 : List Nat, o1.length = 16 →
              AES_encrypt (List.replicate 16 4) (List.replicate 176 5) (some i) (some k)
                (some o1) = (0, some ct)) :=
  AES_encrypt_null_check (List.replicate 16 1) (List.replicate 176 2) (List.replicate 16 4)
    (List.replicate 176 5) (List.replicate 16 6) (some Aes.main_in) (some Aes.main_key)
    (some (List.replicate 16 3))
    (List.length_replicate _ _) (List.length_replicate _ _) (List.length_replicate _ _)
    (List.length_replicate _ _) (List.length_replicate _ _) (by simp [Aes.main_in]) (by simp)

end AesTest

end Riscv
